import Mathlib

/-!
Verification of the zen-match board resolution engine
(`src/engine/index.ts`) against its natural-language specification.

The engine is embedded shallowly: TypeScript objects become Lean
structures, the mutable board becomes a value of type `Board` threaded
through every operation, JS `Set`/`Map` (which iterate in insertion
order) become association lists with add-if-absent / update-in-place
semantics, and the seeded LCG random generator becomes a pure function
on a `Nat` state reduced mod 2^32.  The only unbounded loop of the
source, the cascade loop of `processMatches`, is given an explicit fuel
parameter (returning `none` when the fuel runs out); every other loop
of the source carries its own hard iteration cap and is embedded
structurally.
-/

namespace ZenMatch

/-- Special cell kinds; the source encodes them as the strings
`bomb`, `line`, `rainbow`, with `null` for a plain cell (modelled as
`Option SpecialKind`). -/
inductive SpecialKind where
  | bomb
  | line
  | rainbow
deriving DecidableEq, Repr

/-- Clear directions stored on a cell (`direction` field); `null`
is modelled as `none` in `Option LineDir`. -/
inductive LineDir where
  | horizontal
  | vertical
  | cross
deriving DecidableEq, Repr

/-- A single axis, used by visual line effects and by match runs. -/
inductive Axis where
  | horizontal
  | vertical
deriving DecidableEq, Repr

/-- The `Cell` interface of the source. -/
structure Cell where
  type : Nat
  special : Option SpecialKind
  direction : Option LineDir
deriving DecidableEq, Repr

/-- The `Board` type: a rows-by-cols matrix of optional cells.  JS
`null` and out-of-bounds `undefined` are both modelled as `none`. -/
abbrev Board := List (List (Option Cell))

/-- The `Pos` interface of the source. -/
structure Pos where
  r : Nat
  c : Nat
deriving DecidableEq, Repr

/-- Board access `board[r]?.[c]`: any out-of-bounds access and a
`null` entry both yield `none`. -/
def getCell (board : Board) (r c : Nat) : Option Cell :=
  ((board.getD r []).get? c).getD none

/-- Board update `board[r][c] = v`; the source only ever writes
in-bounds slots, and `List.set` is a no-op out of bounds. -/
def setCell (board : Board) (r c : Nat) (v : Option Cell) : Board :=
  board.set r ((board.getD r []).set c v)

/-- The source's `isSpecial` helper (`!!cell?.special`). -/
def cellIsSpecial (cell : Option Cell) : Bool :=
  match cell with
  | some g => g.special.isSome
  | none => false

/-- The source's `isRainbow` helper. -/
def cellIsRainbow (cell : Option Cell) : Bool :=
  match cell with
  | some g => g.special = some SpecialKind.rainbow
  | none => false

/-- The source's `createEmptyBoard`. -/
def createEmptyBoard (rows cols : Nat) : Board :=
  List.replicate rows (List.replicate cols none)

/-- One step of the source's `RNG.next` linear congruential generator
(Numerical Recipes constants), with the JS `>>> 0` coercion modelled
as reduction mod 2^32.  The JS method also returns `state / 2^32`,
which is an exactly representable double. -/
def rngNext (s : Nat) : Nat :=
  (s * 1664525 + 1013904223) % 4294967296

/-- The source's `RNG.int(max)`: `Math.floor(next() * max)`.  Since the
state is below 2^32 and `max` is small, `state / 2^32 * max` is exact
in double arithmetic and the floor equals natural division.  Returns
the new state together with the drawn number. -/
def rngInt (s max : Nat) : Nat × Nat :=
  let s' := rngNext s
  (s', s' * max / 4294967296)

/-- JS `Set<string>` of position keys: insertion-ordered list with
add-if-absent semantics, so iteration order and `size` are faithful. -/
def addPos (s : List Pos) (p : Pos) : List Pos :=
  if p ∈ s then s else s ++ [p]

/-- Removal animation tags. -/
inductive RemovalAnim where
  | matched
  | exploding
  | lineCleared
  | rainbowCleared
deriving DecidableEq, Repr

/-- JS `Map<string, RemovalAnim>`: insertion-ordered association list;
`set` updates an existing key in place and appends a fresh key. -/
def setAnim (m : List (Pos × RemovalAnim)) (p : Pos) (a : RemovalAnim) :
    List (Pos × RemovalAnim) :=
  match m with
  | [] => [(p, a)]
  | (q, b) :: rest =>
    if q = p then (q, a) :: rest else (q, b) :: setAnim rest p a

/-- Visual effects attached to a removal frame. -/
inductive Effect where
  | explosion (r c : Nat)
  | lineFx (direction : Axis) (row col : Option Nat)
deriving DecidableEq, Repr

/-- The `ScoreBreakdown` interface.  `comboMultiplier` is the only
non-integer number produced by the engine; its values `1, 1.5, 2, …`
are exactly representable, so it is embedded as a rational. -/
structure ScoreBreakdown where
  base : Nat
  matchBonus : Nat
  comboMultiplier : ℚ
deriving DecidableEq, Repr

/-- The `ScoreEvent` interface. -/
structure ScoreEvent where
  points : Nat
  combo : Nat
  breakdown : ScoreBreakdown
  isBonus : Bool
deriving DecidableEq, Repr

/-- One entry of the `moves` list of a shuffle frame; the source field
names are `from`/`to` (renamed: `from` is a Lean keyword). -/
structure ShuffleMove where
  src : Pos
  dst : Pos
  type : Nat
deriving DecidableEq, Repr

/-- The `Frame` tagged union.  Optional fields that the source leaves
`undefined` are modelled by an empty list.  The `subSteps` replay log
of remove frames (a per-activation grouping of the same positions,
animations and effects already present in the frame) is
presentation-only and not modelled. -/
inductive Frame where
  | swapF (board : Board)
  | invalid (positions : List Pos)
  | removeF (positions : List Pos) (animations : List (Pos × RemovalAnim))
      (effects : List Effect) (score : ScoreEvent)
  | boardF (board : Board) (newSpecials : List Pos)
  | dropF (board : Board)
  | fillF (board : Board)
  | preview (board : Board) (pendingPositions : List Pos)
  | shuffleF (board : Board) (attempt : Nat) (moves : List ShuffleMove)
deriving DecidableEq, Repr

/-- The `ResolveResult` interface returned by `Engine.swap`. -/
structure ResolveResult where
  frames : List Frame
  pointsEarned : Nat
  moveValid : Bool
deriving DecidableEq, Repr

/-- Direction attribute of a `MatchGroup`. -/
inductive GroupDir where
  | horizontal
  | vertical
  | both
deriving DecidableEq, Repr

/-- The `MatchGroup` interface produced by `findMatches`. -/
structure MatchGroup where
  positions : List Pos
  effectiveLen : Nat
  isComplex : Bool
  direction : GroupDir
  type : Nat
deriving DecidableEq, Repr

/-- The `lastSwapPos` record of the engine state. -/
structure SwapRec where
  r1 : Nat
  c1 : Nat
  r2 : Nat
  c2 : Nat
deriving DecidableEq, Repr

/-- The `EngineState` interface: dimensions, gem-type count, board,
RNG state and the last swap position. -/
structure EngineState where
  rows : Nat
  cols : Nat
  gemTypes : Nat
  board : Board
  rng : Nat
  lastSwapPos : Option SwapRec
deriving DecidableEq, Repr

/-- The source's `removePositions`: null out every position of the
removal set. -/
def removePositions (board : Board) (toRemove : List Pos) : Board :=
  toRemove.foldl (fun b p => setCell b p.r p.c none) board

/-- The per-cell record stored in the `matchedCells` map of
`findMatches` (`r` and `c` are carried by the key). -/
structure Mark where
  type : Nat
  matchLen : Nat
  direction : Axis
  isComplex : Bool
deriving DecidableEq, Repr

/-- The `matchedCells` JS `Map`: insertion-ordered association list. -/
abbrev MCells := List (Pos × Mark)

/-- Map lookup `matchedCells.get(key)`. -/
def mcGet : MCells → Pos → Option Mark
  | [], _ => none
  | (q, mk) :: rest, p => if q = p then some mk else mcGet rest p

/-- Map write `matchedCells.set(key, v)`: updates an existing key in
place (JS maps keep the original insertion position) and appends a
fresh key. -/
def mcSet : MCells → Pos → Mark → MCells
  | [], p, mk => [(p, mk)]
  | (q, mk') :: rest, p, mk =>
    if q = p then (q, mk) :: rest else (q, mk') :: mcSet rest p mk

/-- Maximal runs of consecutive equal-typed occupied slots in one line
of the board, as `(startIndex, length, type)` triples in scan order.
This is the run-length scanning of the two `while` loops of
`findMatches`, folded into one pass that carries the current run. -/
def runsGo : List (Option Cell) → Nat → Option (Nat × Nat × Nat) →
    List (Nat × Nat × Nat)
  | [], _, none => []
  | [], _, some cur => [cur]
  | none :: rest, idx, none => runsGo rest (idx + 1) none
  | none :: rest, idx, some cur => cur :: runsGo rest (idx + 1) none
  | some g :: rest, idx, none => runsGo rest (idx + 1) (some (idx, 1, g.type))
  | some g :: rest, idx, some (s, len, t) =>
    if g.type = t then runsGo rest (idx + 1) (some (s, len + 1, t))
    else (s, len, t) :: runsGo rest (idx + 1) (some (idx, 1, g.type))

/-- Runs of a slot line starting at index 0. -/
def runsOf (slots : List (Option Cell)) : List (Nat × Nat × Nat) :=
  runsGo slots 0 none

/-- Row `r` of the board restricted to the column range `[0, cols)`,
as accessed by `board[r][c]` in the scans. -/
def rowSlots (board : Board) (r cols : Nat) : List (Option Cell) :=
  (List.range cols).map (fun c => getCell board r c)

/-- Column `c` of the board restricted to the row range `[0, rows)`. -/
def colSlots (board : Board) (c rows : Nat) : List (Option Cell) :=
  (List.range rows).map (fun r => getCell board r c)

/-- Record one horizontal run of length `len ≥ 3` in the map: fresh
cells get the run's length and axis, cells already present (impossible
for two horizontal runs, but mirrored from the source) take the larger
length and are marked complex. -/
def markHRun (m : MCells) (r startC len type : Nat) : MCells :=
  (List.range len).foldl
    (fun acc i =>
      let key : Pos := ⟨r, startC + i⟩
      match mcGet acc key with
      | none => mcSet acc key ⟨type, len, Axis.horizontal, false⟩
      | some ex =>
        mcSet acc key { ex with matchLen := max ex.matchLen len, isComplex := true })
    m

/-- Record one vertical run of length `len ≥ 3`: a cell already marked
by a horizontal run accumulates `matchLen += len` and becomes complex
(its `direction` keeps the first value written). -/
def markVRun (m : MCells) (c startR len type : Nat) : MCells :=
  (List.range len).foldl
    (fun acc i =>
      let key : Pos := ⟨startR + i, c⟩
      match mcGet acc key with
      | none => mcSet acc key ⟨type, len, Axis.vertical, false⟩
      | some ex =>
        mcSet acc key { ex with matchLen := ex.matchLen + len, isComplex := true })
    m

/-- The horizontal scan of `findMatches` over all rows. -/
def hPass (board : Board) (rows cols : Nat) : MCells :=
  (List.range rows).foldl
    (fun m r =>
      (runsOf (rowSlots board r cols)).foldl
        (fun m' run =>
          if 3 ≤ run.2.1 then markHRun m' r run.1 run.2.1 run.2.2 else m')
        m)
    []

/-- The vertical scan of `findMatches` over all columns, continuing on
the map produced by the horizontal scan. -/
def vPass (m : MCells) (board : Board) (rows cols : Nat) : MCells :=
  (List.range cols).foldl
    (fun m' c =>
      (runsOf (colSlots board c rows)).foldl
        (fun m'' run =>
          if 3 ≤ run.2.1 then markVRun m'' c run.1 run.2.1 run.2.2 else m'')
        m')
    m

/-- Both scans: the `matchedCells` map of `findMatches`. -/
def buildMatchedCells (board : Board) (rows cols : Nat) : MCells :=
  vPass (hPass board rows cols) board rows cols

/-- The four neighbour keys probed by the flood fill.  At the top/left
edge natural subtraction collapses `r - 1` (JS `-1`) onto the current
cell's own key; the source's key `"-1,c"` is never in the map, and the
collapsed key is already in the visited set at probe time, so neither
is ever enqueued. -/
def neighborKeys (p : Pos) : List Pos :=
  [⟨p.r - 1, p.c⟩, ⟨p.r + 1, p.c⟩, ⟨p.r, p.c - 1⟩, ⟨p.r, p.c + 1⟩]

/-- The breadth-first flood fill of `findMatches` (the `while (queue)`
loop): pops the queue front, skips visited keys, collects the cell and
its attribute flags, and enqueues unvisited equal-typed neighbour keys.
Returns the group's positions in visit order, the accumulated
`hasComplex`, `hDir`, `vDir` flags, and the grown visited set.  The
fuel argument only serves Lean totality; `findMatches` passes enough
for the loop to finish (each pop either shrinks the queue or visits a
new key, and a visit enqueues at most four keys). -/
def bfsGo (m : MCells) : Nat → List Pos → List Pos →
    List Pos × Bool × Bool × Bool × List Pos
  | 0, visited, _ => ([], false, false, false, visited)
  | _ + 1, visited, [] => ([], false, false, false, visited)
  | fuel + 1, visited, cur :: rest =>
    if cur ∈ visited then bfsGo m fuel visited rest
    else
      let visited' := visited ++ [cur]
      match mcGet m cur with
      | none => bfsGo m fuel visited' rest
      | some mk =>
        let nbrs := (neighborKeys cur).filter (fun q =>
          match mcGet m q with
          | some mq => !decide (q ∈ visited') && decide (mq.type = mk.type)
          | none => false)
        let res := bfsGo m fuel visited' (rest ++ nbrs)
        (cur :: res.1, res.2.1 || mk.isComplex,
          res.2.2.1 || decide (mk.direction = Axis.horizontal),
          res.2.2.2.1 || decide (mk.direction = Axis.vertical), res.2.2.2.2)

/-- The group-assembly loop of `findMatches`: iterate the map in
insertion order, flood-fill from each not-yet-visited key, and emit a
`MatchGroup` whose `effectiveLen` is the actual group cell count. -/
def buildGroups (m : MCells) : List (Pos × Mark) → List Pos → List MatchGroup
  | [], _ => []
  | (k, dat) :: rest, visited =>
    if k ∈ visited then buildGroups m rest visited
    else
      let res := bfsGo m (5 * m.length + 2) visited [k]
      { positions := res.1
        effectiveLen := res.1.length
        isComplex := res.2.1
        direction :=
          if res.2.2.1 && res.2.2.2.1 then GroupDir.both
          else if res.2.2.1 then GroupDir.horizontal else GroupDir.vertical
        type := dat.type } :: buildGroups m rest res.2.2.2.2

/-- The source's `findMatches`. -/
def findMatches (board : Board) (rows cols : Nat) : List MatchGroup :=
  let m := buildMatchedCells board rows cols
  if m = [] then [] else buildGroups m m []

/-- The mutable bundle threaded through `activateSpecialsInRemovalSet`:
the removal set, animation map, effect list and processed set that the
source mutates in place, plus its `bonusPoints`, `chainCount` and
`newSpecialsFound` locals.  The per-activation `subSteps` replay log is
presentation-only and not modelled. -/
structure ChainState where
  toRemove : List Pos
  anims : List (Pos × RemovalAnim)
  effects : List Effect
  processed : List Pos
  bonus : Nat
  chain : Nat
  found : Bool
deriving DecidableEq, Repr

/-- Add one position to the removal set if absent, with its animation
tag, raising the `newSpecialsFound` flag exactly as the source does. -/
def chainAdd (st : ChainState) (p : Pos) (a : RemovalAnim) : ChainState :=
  if p ∈ st.toRemove then st
  else { st with toRemove := st.toRemove ++ [p], anims := setAnim st.anims p a,
                 found := true }

/-- The 3-by-3 neighbourhood offsets in the source's `dr`/`dc` loop
order, including the centre itself. -/
def bombOffsets : List (Int × Int) :=
  [(-1, -1), (-1, 0), (-1, 1), (0, -1), (0, 0), (0, 1), (1, -1), (1, 0), (1, 1)]

/-- Process one key of the removal-set snapshot: skip plain or already
processed cells, otherwise mark the cell processed and run its
special's expansion (bomb neighbourhood, line row/column, rainbow
colour sweep), accumulating the fixed bonus. -/
def processKey (board : Board) (rows cols : Nat) (st : ChainState) (key : Pos) :
    ChainState :=
  match getCell board key.r key.c with
  | none => st
  | some gem =>
    match gem.special with
    | none => st
    | some sk =>
      if key ∈ st.processed then st
      else
        let st := { st with processed := st.processed ++ [key] }
        match sk with
        | SpecialKind.bomb =>
          let st := { st with chain := st.chain + 1,
                              effects := st.effects ++ [Effect.explosion key.r key.c] }
          let st := bombOffsets.foldl
            (fun acc off =>
              let nr : Int := (key.r : Int) + off.1
              let nc : Int := (key.c : Int) + off.2
              if 0 ≤ nr ∧ nr < (rows : Int) ∧ 0 ≤ nc ∧ nc < (cols : Int) then
                chainAdd acc ⟨nr.toNat, nc.toNat⟩ RemovalAnim.exploding
              else acc)
            st
          { st with anims := setAnim st.anims key RemovalAnim.exploding,
                    bonus := st.bonus + 150 }
        | SpecialKind.line =>
          let st := { st with chain := st.chain + 1 }
          let dir := gem.direction.getD LineDir.horizontal
          let st :=
            if dir = LineDir.horizontal ∨ dir = LineDir.cross then
              let st := (List.range cols).foldl
                (fun acc i => chainAdd acc ⟨key.r, i⟩ RemovalAnim.lineCleared) st
              { st with effects := st.effects ++
                  [Effect.lineFx Axis.horizontal (some key.r) none] }
            else st
          let st :=
            if dir = LineDir.vertical ∨ dir = LineDir.cross then
              let st := (List.range rows).foldl
                (fun acc i => chainAdd acc ⟨i, key.c⟩ RemovalAnim.lineCleared) st
              { st with effects := st.effects ++
                  [Effect.lineFx Axis.vertical none (some key.c)] }
            else st
          { st with anims := setAnim st.anims key RemovalAnim.lineCleared,
                    bonus := st.bonus + 200 }
        | SpecialKind.rainbow =>
          let st := { st with chain := st.chain + 1 }
          let st := (List.range rows).foldl
            (fun acc i =>
              (List.range cols).foldl
                (fun acc2 j =>
                  if (getCell board i j).map Cell.type = some gem.type then
                    chainAdd acc2 ⟨i, j⟩ RemovalAnim.rainbowCleared
                  else acc2)
                acc)
            st
          { st with anims := setAnim st.anims key RemovalAnim.rainbowCleared,
                    bonus := st.bonus + 500 }

/-- The outer `while (newSpecialsFound && iterations < maxIterations)`
loop of `activateSpecialsInRemovalSet`, as a countdown from the
source's hard cap of 20 passes.  Each pass snapshots the removal set
and processes its keys in insertion order. -/
def chainLoop (board : Board) (rows cols : Nat) : Nat → ChainState → ChainState
  | 0, st => st
  | n + 1, st =>
    if !st.found then st
    else
      let st0 := { st with found := false }
      let st1 := st0.toRemove.foldl (processKey board rows cols) st0
      chainLoop board rows cols n st1

/-- The source's `activateSpecialsInRemovalSet` (the `processed`
parameter defaults to the empty set at most call sites). -/
def activateSpecials (board : Board) (rows cols : Nat) (toRemove : List Pos)
    (anims : List (Pos × RemovalAnim)) (effects : List Effect)
    (processed : List Pos) : ChainState :=
  chainLoop board rows cols 20
    ⟨toRemove, anims, effects, processed, 0, 0, true⟩

/-- The source's `findBestSpecialPosition`.  During the first combo
step of a player swap, prefer a group position equal to one of the two
swapped cells; otherwise pick the first group position at minimal
Euclidean distance from the centroid `(Σr/n, Σc/n)`.  `Math.hypot` is
strictly monotone in the squared distance, and scaling the squared
distances by the positive constant `n²` preserves their strict order
(`centroidDist_scale_iff` proves the equivalence with the exact
rational distances), so the integer quantity
`(r·n − Σr)² + (c·n − Σc)²` drives the same strict-less update chain
as the source's float distances. -/
def findBestSpecialPosition (m : MatchGroup) (lastSwapPos : Option SwapRec)
    (comboCount : Nat) : Pos :=
  let swapHit : Option Pos :=
    match lastSwapPos with
    | some sp =>
      if comboCount ≤ 1 then
        m.positions.find? (fun p =>
          (p.r = sp.r1 ∧ p.c = sp.c1) ∨ (p.r = sp.r2 ∧ p.c = sp.c2))
      else none
    | none => none
  match swapHit with
  | some p => p
  | none =>
    match m.positions with
    | [] => ⟨0, 0⟩
    | p0 :: _ =>
      let n : ℤ := m.positions.length
      let sr : ℤ := (m.positions.map (fun p => (p.r : ℤ))).sum
      let sc : ℤ := (m.positions.map (fun p => (p.c : ℤ))).sum
      (m.positions.foldl
        (fun acc p =>
          let d : ℤ := ((p.r : ℤ) * n - sr) ^ 2 + ((p.c : ℤ) * n - sc) ^ 2
          match acc.2 with
          | none => (p, some d)
          | some bd => if d < bd then (p, some d) else acc)
        (p0, (none : Option ℤ))).1

/-- The source's `const len = match.effectiveLen || match.positions.length`
(JS `||` takes the fallback exactly when `effectiveLen` is 0). -/
def matchLenOf (m : MatchGroup) : Nat :=
  if m.effectiveLen = 0 then m.positions.length else m.effectiveLen

/-- The shape-to-special policy of the cascade loop of
`processMatches`: 6+ cells give a rainbow, complex (T/L) groups of 5+
give a bomb, straight 5-runs give a line clear along the match's own
direction, 4-cell groups give a bomb, and 3-cell groups give nothing. -/
def queuedSpecial (m : MatchGroup) : Option (SpecialKind × Option LineDir) :=
  let len := matchLenOf m
  if 6 ≤ len then some (SpecialKind.rainbow, none)
  else if m.isComplex ∧ 5 ≤ len then some (SpecialKind.bomb, none)
  else if len = 5 then
    some (SpecialKind.line,
      some (if m.direction = GroupDir.horizontal then LineDir.horizontal
            else LineDir.vertical))
  else if len = 4 then some (SpecialKind.bomb, none)
  else none

/-- The special-creation score bonus added in the same branches of the
cascade loop (200 / 150 / 100 / 50 points). -/
def creationBonus (m : MatchGroup) : Nat :=
  let len := matchLenOf m
  if 6 ≤ len then 200
  else if m.isComplex ∧ 5 ≤ len then 150
  else if len = 5 then 100
  else if len = 4 then 50
  else 0

/-- One entry of the `specials` queue of `processMatches`. -/
structure SpecialQueued where
  pos : Pos
  type : Nat
  special : SpecialKind
  direction : Option LineDir
deriving DecidableEq, Repr

/-- The source sorts the specials queue by priority rainbow 3 >
line 2 > bomb 1, descending, with a stable sort (JS array sort);
with three fixed priority classes this equals stable bucketing. -/
def sortSpecials (sps : List SpecialQueued) : List SpecialQueued :=
  sps.filter (fun s => s.special = SpecialKind.rainbow) ++
  sps.filter (fun s => s.special = SpecialKind.line) ++
  sps.filter (fun s => s.special = SpecialKind.bomb)

/-- Special placement into freed slots: skip positions already used and
slots that are still occupied; place the cell and record the position
otherwise. -/
def placeSpecials (board : Board) (sps : List SpecialQueued) :
    Board × List Pos :=
  let res := sps.foldl
    (fun (acc : Board × List Pos × List Pos) sp =>
      let (b, used, newPos) := acc
      if sp.pos ∈ used then acc
      else
        match getCell b sp.pos.r sp.pos.c with
        | some _ => acc
        | none =>
          (setCell b sp.pos.r sp.pos.c
             (some ⟨sp.type, some sp.special, sp.direction⟩),
           used ++ [sp.pos], newPos ++ [sp.pos]))
    (board, [], [])
  (res.1, res.2.2)

/-- The inner `for (r = rows-1; r >= 0; r--)` loop of `dropGems` on a
single column (index 0 = top row), with the source's `writePos` write
cursor.  The recursion argument counts the slots still to scan, so the
bottom slot is scanned first.  At the top of a full column the Nat
truncation of `writePos - 1` is irrelevant: a cursor that has reached
0 is never written again. -/
def dropColAux : Nat → List (Option Cell) → Nat → Bool →
    List (Option Cell) × Bool
  | 0, col, _, moved => (col, moved)
  | r + 1, col, writePos, moved =>
    match col.getD r none with
    | some g =>
      if writePos ≠ r then
        dropColAux r ((col.set writePos (some g)).set r none) (writePos - 1) true
      else
        dropColAux r col (writePos - 1) moved
    | none => dropColAux r col writePos moved

/-- Write a column back into the board. -/
def setColumn (board : Board) (c : Nat) (col : List (Option Cell)) : Board :=
  (List.range col.length).foldl
    (fun b r => setCell b r c (col.getD r none)) board

/-- The source's `dropGems`: per-column gravity compaction; the outer
loop walks the columns left to right and each iteration touches only
its own column, so the in-place walk is embedded column by column. -/
def dropGems (board : Board) (rows cols : Nat) : Board × Bool :=
  (List.range cols).foldl
    (fun (acc : Board × Bool) c =>
      let res := dropColAux rows (colSlots acc.1 c rows) (rows - 1) false
      (setColumn acc.1 c res.1, acc.2 || res.2))
    (board, false)

/-- The source's `fillGems`: scan columns outer, rows inner (this order
fixes which RNG draw lands in which slot), fill every empty slot with
a fresh plain cell of a random type. -/
def fillGems (board : Board) (rows cols gemTypes : Nat) (rng : Nat) :
    Board × Nat × Bool :=
  (List.range cols).foldl
    (fun (acc : Board × Nat × Bool) c =>
      (List.range rows).foldl
        (fun (acc2 : Board × Nat × Bool) r =>
          match getCell acc2.1 r c with
          | some _ => acc2
          | none =>
            let draw := rngInt acc2.2.1 gemTypes
            (setCell acc2.1 r c (some ⟨draw.2, none, none⟩), draw.1, true))
        acc)
    (board, rng, false)

/-- Swap the contents of two board slots (the swap that `Engine.swap`
and `isMoveValid` perform by destructuring assignment). -/
def boardSwap (board : Board) (r1 c1 r2 c2 : Nat) : Board :=
  let g1 := getCell board r1 c1
  let g2 := getCell board r2 c2
  setCell (setCell board r1 c1 g2) r2 c2 g1

/-- The source's `isMoveValid`: two specials always interact, a rainbow
always interacts, and otherwise the swap must produce a match (the
source swaps in place, scans, and swaps back; the embedding tests the
swapped copy). -/
def isMoveValid (board : Board) (rows cols r1 c1 r2 c2 : Nat) : Bool :=
  let gem1 := getCell board r1 c1
  let gem2 := getCell board r2 c2
  if gem1 = none ∨ gem2 = none then false
  else if cellIsSpecial gem1 && cellIsSpecial gem2 then true
  else if cellIsRainbow gem1 || cellIsRainbow gem2 then true
  else !(findMatches (boardSwap board r1 c1 r2 c2) rows cols).isEmpty

/-- The source's `hasValidMoves`: some right- or down-neighbour swap of
two occupied cells is valid. -/
def hasValidMoves (board : Board) (rows cols : Nat) : Bool :=
  (List.range rows).any (fun r =>
    (List.range cols).any (fun c =>
      (decide (c < cols - 1) && (getCell board r c).isSome &&
        (getCell board r (c + 1)).isSome &&
        isMoveValid board rows cols r c r (c + 1)) ||
      (decide (r < rows - 1) && (getCell board r c).isSome &&
        (getCell board (r + 1) c).isSome &&
        isMoveValid board rows cols r c (r + 1) c)))

/-- The combo multiplier `1 + (comboCount - 1) * 0.5` of the cascade
scoring (exact in double arithmetic for every reachable value).  The
value equals `(comboCount + 1) / 2`, built here with `mkRat` so that it
evaluates by kernel reduction; `comboMult_eq` proves it equal to the
source's formula. -/
def comboMult (comboCount : Nat) : ℚ :=
  mkRat (comboCount + 1) 2

/-- The per-group accumulation of one cascade iteration: the union
removal set, the queued specials, and the group part of `matchBonus`
(creation bonus plus the quadratic oversize bonus). -/
def collectMatches (lastSwapPos : Option SwapRec) (comboCount : Nat)
    (ms : List MatchGroup) : List Pos × List SpecialQueued × Nat :=
  ms.foldl
    (fun (acc : List Pos × List SpecialQueued × Nat) m =>
      let (tr, sps, mb) := acc
      let len := matchLenOf m
      let sps' :=
        match queuedSpecial m with
        | some (sk, dir) =>
          sps ++ [⟨findBestSpecialPosition m lastSwapPos comboCount, m.type, sk, dir⟩]
        | none => sps
      let mb' := mb + creationBonus m
      let mb'' := if 3 < len then mb' + (len - 3) ^ 2 * 20 else mb'
      (m.positions.foldl addPos tr, sps', mb''))
    ([], [], 0)

/-- One iteration body of the cascade loop of `processMatches`, run on
a board known to match: build the removal set and the specials queue
from the detected groups, run the chain activator, score the step,
remove, place specials, drop, refill, and append the
remove/board/drop/fill frames plus a preview frame when the refilled
board matches again.  Returns the new (board, rng, lastSwapPos)
triple, the grown frame list, and the step's points.  `comboCount'`
is the already incremented combo index of this iteration.  The source
computes the points as `Math.floor((basePoints + matchBonus) *
comboMultiplier)`, exact in double arithmetic; since the multiplier is
`(comboCount + 1) / 2`, that floor is the natural division by two
(`points_eq_floor` proves the equality with the rational floor). -/
def cascadeStep (rows cols gemTypes : Nat) (st : Board × Nat × Option SwapRec)
    (frames : List Frame) (comboCount' : Nat) :
    (Board × Nat × Option SwapRec) × List Frame × Nat :=
  let ms := findMatches st.1 rows cols
  let col := collectMatches st.2.2 comboCount' ms
  let cs := activateSpecials st.1 rows cols col.1 [] [] []
  let matchBonus := col.2.2 + cs.bonus
  let basePoints := cs.toRemove.length * 10
  let comboMultiplier : ℚ := comboMult comboCount'
  let points : Nat := (basePoints + matchBonus) * (comboCount' + 1) / 2
  let removeFrame := Frame.removeF cs.toRemove cs.anims cs.effects
    ⟨points, comboCount', ⟨basePoints, matchBonus, comboMultiplier⟩,
     decide (50 < matchBonus)⟩
  let board1 := removePositions st.1 cs.toRemove
  let placed := placeSpecials board1 (sortSpecials col.2.1)
  let frames1 := frames ++ [removeFrame, Frame.boardF placed.1 placed.2]
  let dropRes := dropGems placed.1 rows cols
  let frames2 :=
    if dropRes.2 then frames1 ++ [Frame.dropF dropRes.1] else frames1
  let fillRes := fillGems dropRes.1 rows cols gemTypes st.2.1
  let frames3 :=
    if fillRes.2.2 then frames2 ++ [Frame.fillF fillRes.1] else frames2
  let ms2 := findMatches fillRes.1 rows cols
  let frames4 :=
    if ms2 = [] then frames3
    else frames3 ++ [Frame.preview fillRes.1
      (ms2.foldl (fun acc m => acc ++ m.positions) [])]
  ((fillRes.1, fillRes.2.1, st.2.2), frames4, points)

/-- The cascade loop of `processMatches`, with explicit fuel: while
matches remain, run `cascadeStep` with the incremented combo index and
accumulate its points.  The source's loop has no iteration cap; `none`
reports exhausted fuel. -/
def processMatchesGo (rows cols gemTypes : Nat) :
    Nat → Board × Nat × Option SwapRec → List Frame → Nat →
    Option ((Board × Nat × Option SwapRec) × List Frame × Nat)
  | 0, _, _, _ => none
  | fuel + 1, st, frames, comboCount =>
    if findMatches st.1 rows cols = [] then some (st, frames, 0)
    else
      let step := cascadeStep rows cols gemTypes st frames (comboCount + 1)
      match processMatchesGo rows cols gemTypes fuel
          step.1 step.2.1 (comboCount + 1) with
      | none => none
      | some (st', frames', rest) => some (st', frames', step.2.2 + rest)

/-- The source's `processMatches` on an engine state (combo counter
starting at 0 and incremented at the top of each iteration). -/
def processMatches (fuel : Nat) (st : EngineState) (frames : List Frame) :
    Option (EngineState × List Frame × Nat) :=
  match processMatchesGo st.rows st.cols st.gemTypes fuel
      (st.board, st.rng, st.lastSwapPos) frames 0 with
  | none => none
  | some (res, frames', pts) =>
    some ({ st with board := res.1, rng := res.2.1 }, frames', pts)

/-- The `do … while` body of the engine's `randomGem` (also used
verbatim by `regenerateBoard`): draw a type, retry while it would
complete an immediate horizontal or vertical 3-run, up to 50 draws.
The countdown starts at 50; `n ≠ 0` is the source's `attempts < 50`. -/
def randomGemGo (board : Board) (r c gemTypes : Nat) :
    Nat → Nat → Nat × Nat
  | 0, rng => (rng, 0)
  | n + 1, rng =>
    let draw := rngInt rng gemTypes
    let collide :=
      (decide (2 ≤ c) &&
        decide ((getCell board r (c - 1)).map Cell.type = some draw.2) &&
        decide ((getCell board r (c - 2)).map Cell.type = some draw.2)) ||
      (decide (2 ≤ r) &&
        decide ((getCell board (r - 1) c).map Cell.type = some draw.2) &&
        decide ((getCell board (r - 2) c).map Cell.type = some draw.2))
    if n ≠ 0 && collide then randomGemGo board r c gemTypes n draw.1
    else (draw.1, draw.2)

/-- One draw of `randomGem` at a board slot. -/
def randomGem (board : Board) (r c gemTypes rng : Nat) : Nat × Nat :=
  randomGemGo board r c gemTypes 50 rng

/-- One full row-major fill pass of `Engine.init` (and of
`regenerateBoard`): assign every slot a fresh plain cell, where each
draw consults the cells already assigned earlier in the pass. -/
def refillPass (board : Board) (rows cols gemTypes rng : Nat) : Board × Nat :=
  (List.range rows).foldl
    (fun (acc : Board × Nat) r =>
      (List.range cols).foldl
        (fun (acc2 : Board × Nat) c =>
          let draw := randomGem acc2.1 r c gemTypes acc2.2
          (setCell acc2.1 r c (some ⟨draw.2, none, none⟩), draw.1))
        acc)
    (board, rng)

/-- The `while (findMatches(...).length > 0 && attempts < 100)` retry
loop of `Engine.init` and `regenerateBoard`, as a countdown from the
100-attempt cap. -/
def initLoop (rows cols gemTypes : Nat) : Nat → Board → Nat → Board × Nat
  | 0, board, rng => (board, rng)
  | n + 1, board, rng =>
    if findMatches board rows cols = [] then (board, rng)
    else
      let pass := refillPass board rows cols gemTypes rng
      initLoop rows cols gemTypes n pass.1 pass.2

/-- The source's `Engine.init`: fill a fresh board, retry whole-board
fills while matches remain (up to 100 attempts), and install it. -/
def engineInit (st : EngineState) : EngineState :=
  let first := refillPass (createEmptyBoard st.rows st.cols)
    st.rows st.cols st.gemTypes st.rng
  let fin := initLoop st.rows st.cols st.gemTypes 100 first.1 first.2
  { st with board := fin.1, rng := fin.2 }

/-- The source's `regenerateBoard`: save every special cell, generate a
fresh match-free board exactly as `init` does, then re-insert the
saved specials at RNG-chosen positions (overwriting whatever occupies
them), and clear `lastSwapPos`. -/
def regenerateBoard (st : EngineState) : EngineState :=
  let savedSpecials :=
    (List.range st.rows).foldl
      (fun acc r =>
        (List.range st.cols).foldl
          (fun acc2 c =>
            match getCell st.board r c with
            | some cell => if cell.special.isSome then acc2 ++ [cell] else acc2
            | none => acc2)
          acc)
      ([] : List Cell)
  let first := refillPass (createEmptyBoard st.rows st.cols)
    st.rows st.cols st.gemTypes st.rng
  let fin := initLoop st.rows st.cols st.gemTypes 100 first.1 first.2
  let placed := savedSpecials.foldl
    (fun (acc : Board × Nat) cell =>
      let drawR := rngInt acc.2 st.rows
      let drawC := rngInt drawR.1 st.cols
      match getCell acc.1 drawR.2 drawC.2 with
      | some _ => (setCell acc.1 drawR.2 drawC.2 (some cell), drawC.1)
      | none => (acc.1, drawC.1))
    (fin.1, fin.2)
  { st with board := placed.1, rng := placed.2, lastSwapPos := none }

/-- Swap two entries of the gems list (always in range in the source's
Fisher-Yates loop). -/
def listSwap (l : List Cell) (i j : Nat) : List Cell :=
  match l.get? i, l.get? j with
  | some a, some b => (l.set i b).set j a
  | _, _ => l

/-- The Fisher-Yates loop of `shuffleBoard`: `for (i = n-1; i > 0; i--)
{ j = rng.int(i+1); swap(i, j) }`, recursing on `i`. -/
def fyGo (gems : List Cell) (rng : Nat) : Nat → List Cell × Nat
  | 0 => (gems, rng)
  | i + 1 =>
    let draw := rngInt rng (i + 2)
    fyGo (listSwap gems (i + 1) draw.2) draw.1 i

/-- Collect the occupied positions with their types, row-major (the
`oldPositions` list of `shuffleBoard`). -/
def collectOldPositions (board : Board) (rows cols : Nat) : List (Pos × Nat) :=
  (List.range rows).foldl
    (fun acc r =>
      (List.range cols).foldl
        (fun acc2 c =>
          match getCell board r c with
          | some cell => acc2 ++ [(⟨r, c⟩, cell.type)]
          | none => acc2)
        acc)
    []

/-- Collect the occupied cells row-major (the `gems` list of
`shuffleBoard`). -/
def collectGems (board : Board) (rows cols : Nat) : List Cell :=
  (List.range rows).foldl
    (fun acc r =>
      (List.range cols).foldl
        (fun acc2 c =>
          match getCell board r c with
          | some cell => acc2 ++ [cell]
          | none => acc2)
        acc)
    []

/-- Write the shuffled gems back over every slot (`board[r][c] =
gems[idx++]`; an index past the gems list writes JS `undefined`,
modelled as `none`), recording the slide moves. -/
def writeShuffled (board : Board) (rows cols : Nat) (gems : List Cell)
    (oldPositions : List (Pos × Nat)) : Board × List ShuffleMove :=
  let res := (List.range rows).foldl
    (fun (acc : Board × List ShuffleMove × Nat) r =>
      (List.range cols).foldl
        (fun (acc2 : Board × List ShuffleMove × Nat) c =>
          let (b, moves, idx) := acc2
          let b' := setCell b r c (gems.get? idx)
          let moves' :=
            match oldPositions.get? idx, gems.get? idx with
            | some old, some g => moves ++ [⟨old.1, ⟨r, c⟩, g.type⟩]
            | _, _ => moves
          (b', moves', idx + 1))
        acc)
    (board, [], 0)
  (res.1, res.2.1)

/-- The source's recursive `shuffleBoard`: permute the occupied cells,
emit a shuffle frame for the first `MAX_VISUAL_ATTEMPTS = 3` attempts,
cascade any matches the permutation produced (score kept), and if the
board is still dead recurse up to `MAX_SHUFFLE_ATTEMPTS = 10` times
before regenerating from scratch.  The first argument is a structural
recursion bound; callers pass 11, which the attempt cap never exceeds.
The final Bool reports whether `regenerateBoard` ran; `none` reports
exhausted cascade fuel. -/
def shuffleGo : Nat → Nat → EngineState → Nat →
    Option (EngineState × List Frame × Nat × Bool)
  | 0, _, _, _ => none
  | sf + 1, cascadeFuel, st, attempts =>
    let rows := st.rows
    let cols := st.cols
    let oldPositions := collectOldPositions st.board rows cols
    let gems := collectGems st.board rows cols
    let fy := fyGo gems st.rng (gems.length - 1)
    let written := writeShuffled st.board rows cols fy.1 oldPositions
    let st1 := { st with board := written.1, rng := fy.2 }
    let frames :=
      if attempts < 3 then [Frame.shuffleF written.1 attempts written.2]
      else []
    let afterCascade :=
      if findMatches st1.board rows cols = [] then
        some (st1, frames, 0)
      else processMatches cascadeFuel st1 frames
    match afterCascade with
    | none => none
    | some (st2, frames2, pts) =>
      if !hasValidMoves st2.board rows cols ∧ attempts < 10 then
        match shuffleGo sf cascadeFuel st2 (attempts + 1) with
        | none => none
        | some (st3, framesR, ptsR, regen) =>
          some (st3, frames2 ++ framesR, pts + ptsR, regen)
      else if !hasValidMoves st2.board rows cols then
        let st3 := regenerateBoard st2
        some (st3, frames2 ++ [Frame.shuffleF st3.board (attempts + 1) []],
          pts, true)
      else
        some (st2, frames2, pts, false)

/-- Removal set, animation map, effect list and flat point award of one
special-combo swap case (before chain activation). -/
structure ComboOut where
  toRemove : List Pos
  anims : List (Pos × RemovalAnim)
  effects : List Effect
  points : Nat
deriving DecidableEq, Repr

/-- The `toRemove.add(k); animationClasses.set(k, a)` pair used by the
combo cases (the animation write is unconditional, as JS `Map.set`). -/
def addSet (tr : List Pos) (an : List (Pos × RemovalAnim)) (p : Pos)
    (a : RemovalAnim) : List Pos × List (Pos × RemovalAnim) :=
  (addPos tr p, setAnim an p a)

/-- Rainbow + rainbow: clear every occupied cell of either stored
colour plus both swap cells; 1000 points plus 15 per cell. -/
def comboRainbowRainbow (board : Board) (rows cols : Nat) (pos1 pos2 : Pos)
    (color1 color2 : Nat) : ComboOut :=
  let s := (List.range rows).foldl
    (fun (acc : List Pos × List (Pos × RemovalAnim)) r =>
      (List.range cols).foldl
        (fun acc2 c =>
          match getCell board r c with
          | some cell =>
            if cell.type = color1 ∨ cell.type = color2 then
              addSet acc2.1 acc2.2 ⟨r, c⟩ RemovalAnim.rainbowCleared
            else acc2
          | none => acc2)
        acc)
    ([], [])
  let s := addSet s.1 s.2 pos1 RemovalAnim.rainbowCleared
  let s := addSet s.1 s.2 pos2 RemovalAnim.rainbowCleared
  ⟨s.1, s.2, [], 1000 + s.1.length * 15⟩

/-- Rainbow + bomb: every cell of the partner's colour explodes in a
3-by-3 burst;  2000 points plus 20 per cell. -/
def comboRainbowBomb (board : Board) (rows cols : Nat) (targetType : Nat)
    (rainbowPos : Pos) : ComboOut :=
  let colorPositions := (List.range rows).foldl
    (fun (acc : List Pos) r =>
      (List.range cols).foldl
        (fun acc2 c =>
          if (getCell board r c).map Cell.type = some targetType then
            acc2 ++ [⟨r, c⟩] else acc2)
        acc)
    []
  let s := colorPositions.foldl
    (fun (acc : List Pos × List (Pos × RemovalAnim) × List Effect) pos =>
      let fx := acc.2.2 ++ [Effect.explosion pos.r pos.c]
      let trAn := bombOffsets.foldl
        (fun (acc2 : List Pos × List (Pos × RemovalAnim)) off =>
          let nr : Int := (pos.r : Int) + off.1
          let nc : Int := (pos.c : Int) + off.2
          if 0 ≤ nr ∧ nr < (rows : Int) ∧ 0 ≤ nc ∧ nc < (cols : Int) ∧
              (getCell board nr.toNat nc.toNat).isSome then
            addSet acc2.1 acc2.2 ⟨nr.toNat, nc.toNat⟩ RemovalAnim.exploding
          else acc2)
        (acc.1, acc.2.1)
      (trAn.1, trAn.2, fx))
    ([], [], [])
  let fin := addSet s.1 s.2.1 rainbowPos RemovalAnim.rainbowCleared
  ⟨fin.1, fin.2, s.2.2, 2000 + fin.1.length * 20⟩

/-- Rainbow + line: every cell of the partner's colour fires a full
line clear in the line gem's direction; 2500 points plus 20 per
cell. -/
def comboRainbowLine (board : Board) (rows cols : Nat) (targetType : Nat)
    (isVertical : Bool) (rainbowPos : Pos) : ComboOut :=
  let s := (List.range rows).foldl
    (fun (acc : List Pos × List (Pos × RemovalAnim) × List Effect) r =>
      (List.range cols).foldl
        (fun acc2 c =>
          if (getCell board r c).map Cell.type = some targetType then
            if isVertical then
              let trAn := (List.range rows).foldl
                (fun (a3 : List Pos × List (Pos × RemovalAnim)) i =>
                  if (getCell board i c).isSome then
                    addSet a3.1 a3.2 ⟨i, c⟩ RemovalAnim.lineCleared
                  else a3)
                (acc2.1, acc2.2.1)
              (trAn.1, trAn.2,
                acc2.2.2 ++ [Effect.lineFx Axis.vertical none (some c)])
            else
              let trAn := (List.range cols).foldl
                (fun (a3 : List Pos × List (Pos × RemovalAnim)) i =>
                  if (getCell board r i).isSome then
                    addSet a3.1 a3.2 ⟨r, i⟩ RemovalAnim.lineCleared
                  else a3)
                (acc2.1, acc2.2.1)
              (trAn.1, trAn.2,
                acc2.2.2 ++ [Effect.lineFx Axis.horizontal (some r) none])
          else acc2)
        acc)
    ([], [], [])
  let fin := addSet s.1 s.2.1 rainbowPos RemovalAnim.rainbowCleared
  ⟨fin.1, fin.2, s.2.2, 2500 + fin.1.length * 20⟩

/-- The source's final rainbow-combo fallback branch (unreachable when
both cells are special, but mirrored): clear the partner's colour. -/
def comboRainbowOther (board : Board) (rows cols : Nat) (targetType : Nat)
    (rainbowPos : Pos) : ComboOut :=
  let s := (List.range rows).foldl
    (fun (acc : List Pos × List (Pos × RemovalAnim)) r =>
      (List.range cols).foldl
        (fun acc2 c =>
          if (getCell board r c).map Cell.type = some targetType then
            addSet acc2.1 acc2.2 ⟨r, c⟩ RemovalAnim.rainbowCleared
          else acc2)
        acc)
    ([], [])
  let fin := addSet s.1 s.2 rainbowPos RemovalAnim.rainbowCleared
  ⟨fin.1, fin.2, [], 500 + fin.1.length * 10⟩

/-- The 5-by-5 neighbourhood offsets of the bomb + bomb combo, in
loop order. -/
def bombOffsets5 : List (Int × Int) :=
  (List.range 5).foldl
    (fun acc i =>
      (List.range 5).foldl
        (fun acc2 j => acc2 ++ [((i : Int) - 2, (j : Int) - 2)]) acc)
    []

/-- Bomb + bomb: a 5-by-5 explosion centred on the first swap cell;
1000 points plus 15 per cell. -/
def comboBombBomb (board : Board) (rows cols : Nat) (pos1 : Pos) : ComboOut :=
  let s := bombOffsets5.foldl
    (fun (acc : List Pos × List (Pos × RemovalAnim)) off =>
      let nr : Int := (pos1.r : Int) + off.1
      let nc : Int := (pos1.c : Int) + off.2
      if 0 ≤ nr ∧ nr < (rows : Int) ∧ 0 ≤ nc ∧ nc < (cols : Int) ∧
          (getCell board nr.toNat nc.toNat).isSome then
        addSet acc.1 acc.2 ⟨nr.toNat, nc.toNat⟩ RemovalAnim.exploding
      else acc)
    ([], [])
  ⟨s.1, s.2, [Effect.explosion pos1.r pos1.c], 1000 + s.1.length * 15⟩

/-- Line + line: clear the full row and column through the first swap
cell; 800 points plus 12 per cell. -/
def comboLineLine (board : Board) (rows cols : Nat) (pos1 : Pos) : ComboOut :=
  let s := (List.range cols).foldl
    (fun (acc : List Pos × List (Pos × RemovalAnim)) i =>
      if (getCell board pos1.r i).isSome then
        addSet acc.1 acc.2 ⟨pos1.r, i⟩ RemovalAnim.lineCleared
      else acc)
    ([], [])
  let s := (List.range rows).foldl
    (fun (acc : List Pos × List (Pos × RemovalAnim)) i =>
      if (getCell board i pos1.c).isSome then
        addSet acc.1 acc.2 ⟨i, pos1.c⟩ RemovalAnim.lineCleared
      else acc)
    s
  ⟨s.1, s.2,
    [Effect.lineFx Axis.horizontal (some pos1.r) none,
     Effect.lineFx Axis.vertical none (some pos1.c)],
    800 + s.1.length * 12⟩

/-- Bomb + line: a 3-wide band of line clears along the line gem's
direction through its post-swap position; 1200 points plus 15 per
cell. -/
def comboBombLine (board : Board) (rows cols : Nat) (lineGem : Cell)
    (linePos : Pos) : ComboOut :=
  let offs : List Int := [-1, 0, 1]
  if lineGem.direction = some LineDir.vertical then
    let s := offs.foldl
      (fun (acc : List Pos × List (Pos × RemovalAnim) × List Effect) dc =>
        let col : Int := (linePos.c : Int) + dc
        if 0 ≤ col ∧ col < (cols : Int) then
          let trAn := (List.range rows).foldl
            (fun (a3 : List Pos × List (Pos × RemovalAnim)) i =>
              if (getCell board i col.toNat).isSome then
                addSet a3.1 a3.2 ⟨i, col.toNat⟩ RemovalAnim.lineCleared
              else a3)
            (acc.1, acc.2.1)
          (trAn.1, trAn.2,
            acc.2.2 ++ [Effect.lineFx Axis.vertical none (some col.toNat)])
        else acc)
      ([], [], [])
    ⟨s.1, s.2.1, s.2.2, 1200 + s.1.length * 15⟩
  else
    let s := offs.foldl
      (fun (acc : List Pos × List (Pos × RemovalAnim) × List Effect) dr =>
        let row : Int := (linePos.r : Int) + dr
        if 0 ≤ row ∧ row < (rows : Int) then
          let trAn := (List.range cols).foldl
            (fun (a3 : List Pos × List (Pos × RemovalAnim)) i =>
              if (getCell board row.toNat i).isSome then
                addSet a3.1 a3.2 ⟨row.toNat, i⟩ RemovalAnim.lineCleared
              else a3)
            (acc.1, acc.2.1)
          (trAn.1, trAn.2,
            acc.2.2 ++ [Effect.lineFx Axis.horizontal (some row.toNat) none])
        else acc)
      ([], [], [])
    ⟨s.1, s.2.1, s.2.2, 1200 + s.1.length * 15⟩

/-- The removal set of the rainbow + plain-cell swap: both the
rainbow's stored colour and the partner's colour, plus the rainbow
cell itself. -/
def rainbowPlainSets (board : Board) (rows cols : Nat)
    (targetType rainbowType : Nat) (rainbowPos : Pos) :
    List Pos × List (Pos × RemovalAnim) :=
  let s := (List.range rows).foldl
    (fun (acc : List Pos × List (Pos × RemovalAnim)) r =>
      (List.range cols).foldl
        (fun acc2 c =>
          let cellType := (getCell board r c).map Cell.type
          if cellType = some targetType ∨ cellType = some rainbowType then
            addSet acc2.1 acc2.2 ⟨r, c⟩ RemovalAnim.rainbowCleared
          else acc2)
        acc)
    ([], [])
  addSet s.1 s.2 rainbowPos RemovalAnim.rainbowCleared

/-- The post-cascade deadlock check shared by all valid-swap branches:
run the cascade loop, then shuffle if no valid move remains.  Returns
the state, frames, cascade points, shuffle points, and whether board
regeneration ran. -/
def cascadeAndCheck (fuel : Nat) (st : EngineState) (frames : List Frame) :
    Option (EngineState × List Frame × Nat × Nat × Bool) :=
  match processMatches fuel st frames with
  | none => none
  | some (st1, frames1, pts) =>
    if !hasValidMoves st1.board st1.rows st1.cols then
      match shuffleGo 11 fuel st1 0 with
      | none => none
      | some (st2, framesS, ptsS, regen) =>
        some (st2, frames1 ++ framesS, pts, ptsS, regen)
    else some (st1, frames1, pts, 0, false)

/-- The shared tail of the two special-combo branches of `Engine.swap`:
emit the remove frame (flat score, combo 1), clear the removal set,
emit the board frame, drop, refill, cascade, and deadlock-check. -/
def comboFinish (fuel : Nat) (st : EngineState) (frames : List Frame)
    (cs : ChainState) (points : Nat) :
    Option (EngineState × ResolveResult × Bool) :=
  let frames1 := frames ++ [Frame.removeF cs.toRemove cs.anims cs.effects
    ⟨points, 1, ⟨points, 0, 1⟩, true⟩]
  let board1 := removePositions st.board cs.toRemove
  let frames2 := frames1 ++ [Frame.boardF board1 []]
  let dropRes := dropGems board1 st.rows st.cols
  let frames3 := if dropRes.2 then frames2 ++ [Frame.dropF dropRes.1] else frames2
  let fillRes := fillGems dropRes.1 st.rows st.cols st.gemTypes st.rng
  let frames4 :=
    if fillRes.2.2 then frames3 ++ [Frame.fillF fillRes.1] else frames3
  let st1 := { st with board := fillRes.1, rng := fillRes.2.1 }
  match cascadeAndCheck fuel st1 frames4 with
  | none => none
  | some (st2, frames5, cascPts, shufPts, regen) =>
    some (st2, ⟨frames5, points + cascPts + shufPts, true⟩, regen)

/-- The invalid-swap tail: emit the invalid frame, swap the cells back,
and emit the restored board frame; zero points, move not valid. -/
def invalidFinish (st : EngineState) (frames : List Frame) (pos1 pos2 : Pos) :
    Option (EngineState × ResolveResult × Bool) :=
  let frames1 := frames ++ [Frame.invalid [pos1, pos2]]
  let board2 := boardSwap st.board pos1.r pos1.c pos2.r pos2.c
  let frames2 := frames1 ++ [Frame.boardF board2 []]
  some ({ st with board := board2 }, ⟨frames2, 0, false⟩, false)

/-- The valid-plain-swap tail: cascade, deadlock-check, and report the
move valid exactly when the cascade scored. -/
def plainFinish (fuel : Nat) (st : EngineState) (frames : List Frame) :
    Option (EngineState × ResolveResult × Bool) :=
  match cascadeAndCheck fuel st frames with
  | none => none
  | some (st2, frames2, cascPts, shufPts, regen) =>
    some (st2, ⟨frames2, cascPts + shufPts, decide (0 < cascPts)⟩, regen)

/-- The source's `Engine.swap`.  Returns `none` when the unbounded
cascade loop exhausts its fuel; otherwise the final engine state, the
`ResolveResult`, and whether board regeneration ran during the call. -/
def swapFuel (fuel : Nat) (st0 : EngineState) (pos1 pos2 : Pos) :
    Option (EngineState × ResolveResult × Bool) :=
  let rows := st0.rows
  let cols := st0.cols
  match getCell st0.board pos1.r pos1.c, getCell st0.board pos2.r pos2.c with
  | some g1c, some g2c =>
    let stA := { st0 with
      lastSwapPos := some ⟨pos1.r, pos1.c, pos2.r, pos2.c⟩ }
    let board1 := boardSwap stA.board pos1.r pos1.c pos2.r pos2.c
    let st := { stA with board := board1 }
    let frames := [Frame.swapF board1]
    let g1s := g1c.special
    let g2s := g2c.special
    let result :=
      if g1s.isSome ∧ g2s.isSome then
        let combo :=
          if g1s = some SpecialKind.rainbow ∨ g2s = some SpecialKind.rainbow then
            if g1s = some SpecialKind.rainbow ∧ g2s = some SpecialKind.rainbow then
              comboRainbowRainbow board1 rows cols pos1 pos2 g1c.type g2c.type
            else
              let gem1IsRainbow := g1s = some SpecialKind.rainbow
              let otherSpecial := if gem1IsRainbow then g2s else g1s
              let targetType := if gem1IsRainbow then g2c.type else g1c.type
              let rainbowPos := if gem1IsRainbow then pos2 else pos1
              if otherSpecial = some SpecialKind.bomb then
                comboRainbowBomb board1 rows cols targetType rainbowPos
              else if otherSpecial = some SpecialKind.line then
                let lineGem := if gem1IsRainbow then g2c else g1c
                comboRainbowLine board1 rows cols targetType
                  (lineGem.direction = some LineDir.vertical) rainbowPos
              else
                comboRainbowOther board1 rows cols targetType rainbowPos
          else if g1s = some SpecialKind.bomb ∧ g2s = some SpecialKind.bomb then
            comboBombBomb board1 rows cols pos1
          else if g1s = some SpecialKind.line ∧ g2s = some SpecialKind.line then
            comboLineLine board1 rows cols pos1
          else if (g1s = some SpecialKind.bomb ∨ g2s = some SpecialKind.bomb) ∧
              (g1s = some SpecialKind.line ∨ g2s = some SpecialKind.line) then
            let lineGem := if g1s = some SpecialKind.line then g1c else g2c
            let linePos := if g1s = some SpecialKind.line then pos2 else pos1
            comboBombLine board1 rows cols lineGem linePos
          else ⟨[], [], [], 0⟩
        let cs := activateSpecials board1 rows cols
          combo.toRemove combo.anims combo.effects []
        comboFinish fuel st frames cs (combo.points + cs.bonus)
      else if g1s = some SpecialKind.rainbow ∨ g2s = some SpecialKind.rainbow then
        let gem1IsRainbow := g1s = some SpecialKind.rainbow
        let targetType := if gem1IsRainbow then g2c.type else g1c.type
        let rainbowType := if gem1IsRainbow then g1c.type else g2c.type
        let rainbowPos := if gem1IsRainbow then pos2 else pos1
        let s := rainbowPlainSets board1 rows cols targetType rainbowType rainbowPos
        let cs := activateSpecials board1 rows cols s.1 s.2 [] [rainbowPos]
        comboFinish fuel st frames cs (500 + cs.toRemove.length * 10 + cs.bonus)
      else if g1s.isSome ∨ g2s.isSome then
        if findMatches board1 rows cols = [] then invalidFinish st frames pos1 pos2
        else plainFinish fuel st frames
      else
        if findMatches board1 rows cols = [] then invalidFinish st frames pos1 pos2
        else plainFinish fuel st frames
    match result with
    | none => none
    | some (stf, res, regen) =>
      some ({ stf with lastSwapPos := none }, res, regen)
  | _, _ => some (st0, ⟨[], 0, false⟩, false)

/-- The source's `Engine` constructor: `new RNG(config.seed ?? Date.now())`
with the `>>> 0` coercion; `now` stands for the ambient clock consulted
only when no seed is given. -/
def engineNew (rows cols gemTypes : Nat) (seed : Option Nat) (now : Nat) :
    EngineState :=
  { rows := rows, cols := cols, gemTypes := gemTypes,
    board := createEmptyBoard rows cols,
    rng := (seed.getD now) % 4294967296, lastSwapPos := none }

/-- A full engine run: construct with a configuration and ambient
clock, generate the initial board, then play a sequence of swaps,
collecting every frame list, the cumulative points, and the final
board.  `none` when some swap exhausts the cascade fuel. -/
def runGame (fuel : Nat) (rows cols gemTypes : Nat) (seed : Option Nat)
    (now : Nat) (swaps : List (Pos × Pos)) :
    Option (Board × List (List Frame) × Nat × Board) :=
  let st0 := engineInit (engineNew rows cols gemTypes seed now)
  let initial := st0.board
  let run := swaps.foldl
    (fun (acc : Option (EngineState × List (List Frame) × Nat)) sw =>
      match acc with
      | none => none
      | some (st, logs, pts) =>
        match swapFuel fuel st sw.1 sw.2 with
        | none => none
        | some (st', res, _) =>
          some (st', logs ++ [res.frames], pts + res.pointsEarned))
    (some (st0, [], 0))
  match run with
  | none => none
  | some (stF, logs, pts) => some (initial, logs, pts, stF.board)

/-- Shape predicate: the board really is a `rows` by `cols` matrix. -/
def boardShaped (board : Board) (rows cols : Nat) : Prop :=
  board.length = rows ∧ ∀ row ∈ board, row.length = cols

/-- Occupancy predicate: every slot of the grid holds a cell. -/
def boardFull (board : Board) (rows cols : Nat) : Prop :=
  ∀ r < rows, ∀ c < cols, (getCell board r c).isSome = true

/-- The fixed chain-activation bonus of each special kind (150 for a
bomb, 200 for a line clear, 500 for a rainbow). -/
def bonusOfKind : SpecialKind → Nat
  | SpecialKind.bomb => 150
  | SpecialKind.line => 200
  | SpecialKind.rainbow => 500

/-- The special kind sitting at a board position, if any. -/
def specialAt (board : Board) (p : Pos) : Option SpecialKind :=
  match getCell board p.r p.c with
  | some g => g.special
  | none => none

/-- Total chain bonus of a list of activated positions, each counted
once. -/
def bonusSum (board : Board) (ps : List Pos) : Nat :=
  (ps.map (fun p =>
    match specialAt board p with
    | some k => bonusOfKind k
    | none => 0)).sum

/-- The combo indices of the remove frames of a frame list, in order. -/
def removeCombos (l : List Frame) : List Nat :=
  l.filterMap (fun f =>
    match f with
    | Frame.removeF _ _ _ sc => some sc.combo
    | _ => none)

/-- A plain cell literal. -/
def plainCell (t : Nat) : Option Cell := some ⟨t, none, none⟩

/-- A bomb cell literal. -/
def bombCell (t : Nat) : Option Cell := some ⟨t, some SpecialKind.bomb, none⟩

/-- A single-column board of three equal plain cells: with `gemTypes=1`
every refill reproduces it, so its cascade never ends. -/
def oneTypeState : EngineState :=
  ⟨3, 1, 1, [[plainCell 0], [plainCell 0], [plainCell 0]], 42, none⟩

/-- A 1-by-5 board whose swap of the two leftmost bombs ends in a dead
board, 11 failed shuffles, and a board regeneration that re-inserts
the saved bomb of type 4 into a row that already holds type-4 cells
around the insertion point (seed 9). -/
def regenState : EngineState :=
  ⟨1, 5, 5,
   [[bombCell 0, bombCell 1, plainCell 2, plainCell 3, bombCell 4]], 9, none⟩

/-- The board left behind by the `regenState` swap. -/
def regenFinalBoard : Board :=
  match swapFuel 50 regenState ⟨0, 0⟩ ⟨0, 1⟩ with
  | some out => out.1.board
  | none => []

/-- Whether the `regenState` swap reported a board regeneration. -/
def regenRan : Bool :=
  match swapFuel 50 regenState ⟨0, 0⟩ ⟨0, 1⟩ with
  | some out => out.2.2
  | none => false

/-- The keys of the matched-cells map. -/
def mcKeys (m : MCells) : List Pos := m.map (fun e => e.1)

/-- One flood-fill step: `q` is a 4-neighbour key of `p` and both carry
marks of equal type in the matched-cells map. -/
def mcAdj (m : MCells) (p q : Pos) : Prop :=
  q ∈ neighborKeys p ∧
  ∃ mp mq, mcGet m p = some mp ∧ mcGet m q = some mq ∧ mp.type = mq.type

/-- Connectivity over matched cells: the reflexive-transitive closure
of single flood-fill steps. -/
def mcReach (m : MCells) : Pos → Pos → Prop :=
  Relation.ReflTransGen (mcAdj m)

/-- Two stacked horizontal 3-runs of one type (the group-unification
exemplar of the specification). -/
def stackedBoard : Board :=
  [[plainCell 1, plainCell 1, plainCell 1],
   [plainCell 1, plainCell 1, plainCell 1]]

/-- A 3-by-3 board holding one horizontal 3-run, as produced by the
repository test's swap fixture. -/
def c3Board : Board :=
  [[plainCell 0, plainCell 0, plainCell 0],
   [plainCell 1, plainCell 1, plainCell 2],
   [plainCell 2, plainCell 2, plainCell 1]]

/-- Engine state around `c3Board` (mid-swap, the swap having landed at
row 1, column 1). -/
def c3State : EngineState := ⟨3, 3, 3, c3Board, 1, some ⟨0, 1, 1, 1⟩⟩

/-- A 4-by-4 fixture with a rainbow of stored type 0 beside a plain
type-1 cell. -/
def c5State : EngineState :=
  ⟨4, 4, 4,
   [[some ⟨0, some SpecialKind.rainbow, none⟩, plainCell 1, plainCell 2, plainCell 3],
    [plainCell 0, plainCell 2, plainCell 3, plainCell 1],
    [plainCell 2, plainCell 3, plainCell 1, plainCell 0],
    [plainCell 3, plainCell 0, plainCell 0, plainCell 2]], 42, none⟩

/-- A 1-by-2 fixture whose only swap matches nothing. -/
def c7State : EngineState := ⟨1, 2, 5, [[plainCell 0, plainCell 1]], 7, none⟩

/-- A 1-by-3 fixture with a bomb next to two plain cells. -/
def c6Board : Board := [[bombCell 0, plainCell 1, plainCell 1]]

/-- A 2-by-2 board with one floating cell per diagonal. -/
def c10Board : Board := [[plainCell 3, none], [none, plainCell 4]]

/-- The stable compaction of one column: the column's cells kept in
top-to-bottom order, pushed to the bottom, with the vacated slots
`none` on top. -/
def compactColumn (col : List (Option Cell)) : List (Option Cell) :=
  List.replicate (col.length - (col.filterMap id).length) none
    ++ (col.filterMap id).map some

/-- Mid-scan state of the column compaction: the prefix below `n` is
still to be scanned, the already scanned cells `S` sit at the bottom,
and the gap of `none`s lies in between. -/
def compactResult (col : List (Option Cell)) (n : Nat) (S : List Cell) :
    List (Option Cell) :=
  List.replicate
      (col.length - ((col.take n).filterMap id).length - S.length) none
    ++ ((col.take n).filterMap id).map some ++ S.map some

/-- The per-column step of `dropGems`, named for the loop invariant. -/
def dropStep (rows : Nat) (acc : Board × Bool) (c : Nat) : Board × Bool :=
  let res := dropColAux rows (colSlots acc.1 c rows) (rows - 1) false
  (setColumn acc.1 c res.1, acc.2 || res.2)

/-- Invariant of the column loop of `dropGems` after the first `k`
columns: shape preserved, processed columns compacted, untouched
columns and out-of-range slots unchanged, and the flag records whether
some processed column actually changed. -/
def dropInv (board : Board) (rows k : Nat) (acc : Board × Bool) : Prop :=
  acc.1.length = rows ∧
  (∀ r, (acc.1.getD r []).length = (board.getD r []).length) ∧
  (∀ r c, getCell acc.1 r c
    = if c < k ∧ r < rows
      then (compactColumn (colSlots board c rows)).getD r none
      else getCell board r c) ∧
  (acc.2 = true ↔ ∃ c, c < k ∧
    compactColumn (colSlots board c rows) ≠ colSlots board c rows)

lemma length_setCell (b : Board) (r c : Nat) (v : Option Cell) :
    (setCell b r c v).length = b.length := by
  simp [setCell]

lemma getD_set_self (l : List α) (i : Nat) (a d : α) :
    (l.set i a).getD i d = if i < l.length then a else d := by
  by_cases h : i < l.length
  · simp [List.getD_eq_getElem?_getD, List.getElem?_set_self h, h]
  · simp [List.set_eq_of_length_le (Nat.le_of_not_lt h),
      List.getD_eq_getElem?_getD, List.getElem?_eq_none (Nat.le_of_not_lt h), h]

lemma getD_set_ne (l : List α) (i j : Nat) (a d : α) (h : i ≠ j) :
    (l.set i a).getD j d = l.getD j d := by
  simp [List.getD_eq_getElem?_getD, List.getElem?_set_ne h]

lemma rowLen_setCell (b : Board) (r c : Nat) (v : Option Cell) (r' : Nat) :
    ((setCell b r c v).getD r' []).length = (b.getD r' []).length := by
  by_cases h : r = r'
  · subst h
    rw [setCell, getD_set_self]
    by_cases hr : r < b.length
    · simp [hr]
    · simp [hr, List.getD_eq_getElem?_getD,
        List.getElem?_eq_none (Nat.le_of_not_lt hr)]
  · rw [setCell, getD_set_ne _ _ _ _ _ h]

lemma getCell_isSome_bounds {b : Board} {r c : Nat}
    (h : (getCell b r c).isSome = true) :
    r < b.length ∧ c < (b.getD r []).length := by
  constructor
  · by_contra hr
    have : b.getD r [] = [] := by
      simp [List.getD_eq_getElem?_getD, List.getElem?_eq_none (Nat.le_of_not_lt hr)]
    rw [getCell, this] at h
    simp at h
  · by_contra hc
    rw [getCell, List.get?_eq_getElem?,
      List.getElem?_eq_none (Nat.le_of_not_lt hc)] at h
    simp at h

lemma getCell_setCell_eq (b : Board) (r c : Nat) (v : Option Cell)
    (hr : r < b.length) (hc : c < (b.getD r []).length) :
    getCell (setCell b r c v) r c = v := by
  have hlen : c < ((b.getD r []).set c v).length := by
    rw [List.length_set]; exact hc
  rw [getCell, setCell, getD_set_self, if_pos hr, List.get?_eq_getElem?,
    List.getElem?_set_self (by rw [List.length_set] at hlen; exact hlen)]
  rfl

lemma getCell_setCell_ne (b : Board) (r c : Nat) (v : Option Cell)
    (r' c' : Nat) (h : r' ≠ r ∨ c' ≠ c) :
    getCell (setCell b r c v) r' c' = getCell b r' c' := by
  by_cases hr : r = r'
  · subst hr
    have hc : c ≠ c' := by tauto
    rw [getCell, setCell, getD_set_self, getCell]
    by_cases hlt : r < b.length
    · rw [if_pos hlt, List.get?_eq_getElem?, List.getElem?_set_ne hc,
        List.get?_eq_getElem?]
    · rw [if_neg hlt]
      have : b.getD r [] = [] := by
        rw [List.getD_eq_getElem?_getD, List.getElem?_eq_none (Nat.le_of_not_lt hlt)]
        rfl
      rw [this]
  · rw [getCell, setCell, getD_set_ne _ _ _ _ _ hr, getCell]

lemma board_ext (b1 b2 : Board) (hlen : b1.length = b2.length)
    (hrow : ∀ r, (b1.getD r []).length = (b2.getD r []).length)
    (hget : ∀ r c, getCell b1 r c = getCell b2 r c) : b1 = b2 := by
  apply List.ext_getElem?
  intro n
  by_cases hn : n < b1.length
  · have h2 : n < b2.length := hlen ▸ hn
    rw [List.getElem?_eq_getElem hn, List.getElem?_eq_getElem h2]
    congr 1
    have e1 : b1.getD n [] = b1[n] := by
      simp [List.getD_eq_getElem?_getD, List.getElem?_eq_getElem hn]
    have e2 : b2.getD n [] = b2[n] := by
      simp [List.getD_eq_getElem?_getD, List.getElem?_eq_getElem h2]
    apply List.ext_getElem?
    intro c
    by_cases hc : c < b1[n].length
    · have hc2 : c < b2[n].length := by
        have := hrow n
        rw [e1, e2] at this
        omega
      have g1 := hget n c
      rw [getCell, getCell, e1, e2] at g1
      rw [List.get?_eq_getElem?, List.get?_eq_getElem?] at g1
      rw [List.getElem?_eq_getElem hc, List.getElem?_eq_getElem hc2] at g1
      rw [List.getElem?_eq_getElem hc, List.getElem?_eq_getElem hc2]
      simpa using g1
    · have hc2 : ¬ c < b2[n].length := by
        have := hrow n
        rw [e1, e2] at this
        omega
      rw [List.getElem?_eq_none (Nat.le_of_not_lt hc),
        List.getElem?_eq_none (Nat.le_of_not_lt hc2)]
  · have h2 : ¬ n < b2.length := hlen ▸ hn
    rw [List.getElem?_eq_none (Nat.le_of_not_lt hn),
      List.getElem?_eq_none (Nat.le_of_not_lt h2)]

lemma rowLen_boardSwap (b : Board) (r1 c1 r2 c2 : Nat) (r' : Nat) :
    ((boardSwap b r1 c1 r2 c2).getD r' []).length = (b.getD r' []).length := by
  simp only [boardSwap]
  rw [rowLen_setCell, rowLen_setCell]

lemma length_boardSwap (b : Board) (r1 c1 r2 c2 : Nat) :
    (boardSwap b r1 c1 r2 c2).length = b.length := by
  simp only [boardSwap]
  rw [length_setCell, length_setCell]

lemma getCell_boardSwap (b : Board) (r1 c1 r2 c2 r c : Nat)
    (hr1 : r1 < b.length) (hc1 : c1 < (b.getD r1 []).length)
    (hr2 : r2 < b.length) (hc2 : c2 < (b.getD r2 []).length) :
    getCell (boardSwap b r1 c1 r2 c2) r c =
      if r = r2 ∧ c = c2 then getCell b r1 c1
      else if r = r1 ∧ c = c1 then getCell b r2 c2
      else getCell b r c := by
  rw [boardSwap]
  by_cases h2 : r = r2 ∧ c = c2
  · obtain ⟨e1, e2⟩ := h2
    subst e1; subst e2
    rw [getCell_setCell_eq]
    · simp
    · rw [length_setCell]; exact hr2
    · rw [rowLen_setCell]; exact hc2
  · have hne2 : r ≠ r2 ∨ c ≠ c2 := by tauto
    rw [getCell_setCell_ne _ _ _ _ _ _ hne2]
    by_cases h1 : r = r1 ∧ c = c1
    · obtain ⟨e1, e2⟩ := h1
      subst e1; subst e2
      rw [getCell_setCell_eq _ _ _ _ hr1 hc1]
      simp [h2]
    · have hne1 : r ≠ r1 ∨ c ≠ c1 := by tauto
      rw [getCell_setCell_ne _ _ _ _ _ _ hne1]
      simp [h1, h2]

lemma boardSwap_involutive (b : Board) (r1 c1 r2 c2 : Nat)
    (h1 : (getCell b r1 c1).isSome = true)
    (h2 : (getCell b r2 c2).isSome = true) :
    boardSwap (boardSwap b r1 c1 r2 c2) r1 c1 r2 c2 = b := by
  obtain ⟨hr1, hc1⟩ := getCell_isSome_bounds h1
  obtain ⟨hr2, hc2⟩ := getCell_isSome_bounds h2
  have hr1' : r1 < (boardSwap b r1 c1 r2 c2).length := by
    rw [length_boardSwap]; exact hr1
  have hc1' : c1 < ((boardSwap b r1 c1 r2 c2).getD r1 []).length := by
    rw [rowLen_boardSwap]; exact hc1
  have hr2' : r2 < (boardSwap b r1 c1 r2 c2).length := by
    rw [length_boardSwap]; exact hr2
  have hc2' : c2 < ((boardSwap b r1 c1 r2 c2).getD r2 []).length := by
    rw [rowLen_boardSwap]; exact hc2
  apply board_ext
  · rw [length_boardSwap, length_boardSwap]
  · intro r'
    rw [rowLen_boardSwap, rowLen_boardSwap]
  · intro r c
    rw [getCell_boardSwap _ _ _ _ _ _ _ hr1' hc1' hr2' hc2',
      getCell_boardSwap _ _ _ _ _ _ _ hr1 hc1 hr2 hc2,
      getCell_boardSwap _ _ _ _ _ _ _ hr1 hc1 hr2 hc2,
      getCell_boardSwap _ _ _ _ _ _ _ hr1 hc1 hr2 hc2]
    split_ifs <;> first | rfl | (congr 1 <;> omega)

/-- C2: the cascade resolver queues an areaBomb for every group of
size 4; an areaBomb for every complex (T/L) group of size 5; a
lineClear whose direction equals the run's axis for every straight
group of size 5; a wildcard (rainbow) for every group of size 6 or
more, complex or not; and nothing for a group of size 3. -/
theorem C2_shape_to_special (m : MatchGroup) :
    (matchLenOf m = 3 → queuedSpecial m = none) ∧
    (matchLenOf m = 4 → queuedSpecial m = some (SpecialKind.bomb, none)) ∧
    (matchLenOf m = 5 → m.isComplex = true →
      queuedSpecial m = some (SpecialKind.bomb, none)) ∧
    (matchLenOf m = 5 → m.isComplex = false →
      m.direction = GroupDir.horizontal →
      queuedSpecial m = some (SpecialKind.line, some LineDir.horizontal)) ∧
    (matchLenOf m = 5 → m.isComplex = false →
      m.direction = GroupDir.vertical →
      queuedSpecial m = some (SpecialKind.line, some LineDir.vertical)) ∧
    (6 ≤ matchLenOf m → queuedSpecial m = some (SpecialKind.rainbow, none)) := by
  refine ⟨?_, ?_, ?_, ?_, ?_, ?_⟩
  · intro h
    simp [queuedSpecial, h]
  · intro h
    simp [queuedSpecial, h]
  · intro h hcx
    simp [queuedSpecial, h, hcx]
  · intro h hcx hd
    simp [queuedSpecial, h, hcx, hd]
  · intro h hcx hd
    simp [queuedSpecial, h, hcx, hd]
  · intro h
    simp only [queuedSpecial, if_pos h]

/-- Witness: each mapping case of `C2_shape_to_special` evaluated at a
concrete match group. -/
theorem C2_shape_to_special_witness :
    queuedSpecial ⟨[⟨0, 0⟩], 3, false, GroupDir.horizontal, 0⟩ = none ∧
    queuedSpecial ⟨[⟨0, 0⟩], 4, false, GroupDir.horizontal, 0⟩ =
      some (SpecialKind.bomb, none) ∧
    queuedSpecial ⟨[⟨0, 0⟩], 5, true, GroupDir.both, 0⟩ =
      some (SpecialKind.bomb, none) ∧
    queuedSpecial ⟨[⟨0, 0⟩], 5, false, GroupDir.horizontal, 0⟩ =
      some (SpecialKind.line, some LineDir.horizontal) ∧
    queuedSpecial ⟨[⟨0, 0⟩], 5, false, GroupDir.vertical, 0⟩ =
      some (SpecialKind.line, some LineDir.vertical) ∧
    queuedSpecial ⟨[⟨0, 0⟩], 6, false, GroupDir.horizontal, 0⟩ =
      some (SpecialKind.rainbow, none) :=
  ⟨(C2_shape_to_special _).1 (by decide),
   (C2_shape_to_special _).2.1 (by decide),
   (C2_shape_to_special _).2.2.1 (by decide) rfl,
   (C2_shape_to_special _).2.2.2.1 (by decide) rfl rfl,
   (C2_shape_to_special _).2.2.2.2.1 (by decide) rfl rfl,
   (C2_shape_to_special _).2.2.2.2.2 (by decide)⟩

/-- C8: the engine is deterministic in its seed.  A full run (configure
with a fixed seed, generate the initial board, play any fixed swap
sequence) is a pure function of the configuration; the ambient clock,
the only impure input of the constructor, is consulted only when no
seed is supplied, so two runs with the same seed agree on every board
and every frame sequence. -/
theorem C8_seed_determinism (fuel rows cols gemTypes seed now1 now2 : Nat)
    (swaps : List (Pos × Pos)) :
    runGame fuel rows cols gemTypes (some seed) now1 swaps =
      runGame fuel rows cols gemTypes (some seed) now2 swaps := rfl

/-- C7: a failed swap leaves the engine state exactly as it was.  When
both swapped cells are plain and the swapped board matches nothing,
`swap` emits the swap frame, an invalid frame and the restored-board
frame, and returns the unchanged state with `moveValid = false` and
zero points.  When either position is out of bounds or names an empty
slot, `swap` returns `moveValid = false` with no frames and the state
untouched. -/
theorem C7_failed_swap (fuel : Nat) (st : EngineState) (pos1 pos2 : Pos) :
    (∀ g1 g2, getCell st.board pos1.r pos1.c = some g1 →
      getCell st.board pos2.r pos2.c = some g2 →
      g1.special = none → g2.special = none →
      findMatches (boardSwap st.board pos1.r pos1.c pos2.r pos2.c)
        st.rows st.cols = [] →
      st.lastSwapPos = none →
      swapFuel fuel st pos1 pos2 =
        some (st,
          ⟨[Frame.swapF (boardSwap st.board pos1.r pos1.c pos2.r pos2.c),
            Frame.invalid [pos1, pos2], Frame.boardF st.board []],
           0, false⟩, false)) ∧
    ((getCell st.board pos1.r pos1.c = none ∨
      getCell st.board pos2.r pos2.c = none) →
      swapFuel fuel st pos1 pos2 = some (st, ⟨[], 0, false⟩, false)) := by
  constructor
  · intro g1 g2 h1 h2 hs1 hs2 hm hl
    have hrestore := boardSwap_involutive st.board pos1.r pos1.c pos2.r pos2.c
      (by rw [h1]; rfl) (by rw [h2]; rfl)
    simp only [swapFuel, h1, h2, hs1, hs2, Option.isSome_none, Option.isSome_some,
      invalidFinish, hm, hrestore]
    norm_num
    cases st with
    | mk rows cols gemTypes board rng lastSwapPos =>
      simp at hl
      simp [hl]
  · intro h
    rcases h with h | h
    · simp only [swapFuel, h]
    · cases hx : getCell st.board pos1.r pos1.c with
      | none => simp only [swapFuel, hx]
      | some g => simp only [swapFuel, hx, h]

/-- Witness: both parts of `C7_failed_swap` at the 1-by-2 fixture — the
matchless swap is reverted with the three frames, and an out-of-bounds
position is an inert no-op. -/
theorem C7_failed_swap_witness :
    swapFuel 5 c7State ⟨0, 0⟩ ⟨0, 1⟩ =
      some (c7State,
        ⟨[Frame.swapF (boardSwap c7State.board 0 0 0 1),
          Frame.invalid [⟨0, 0⟩, ⟨0, 1⟩], Frame.boardF c7State.board []],
         0, false⟩, false) ∧
    swapFuel 5 c7State ⟨0, 5⟩ ⟨0, 0⟩ = some (c7State, ⟨[], 0, false⟩, false) :=
  ⟨(C7_failed_swap 5 c7State ⟨0, 0⟩ ⟨0, 1⟩).1 ⟨0, none, none⟩ ⟨1, none, none⟩
      rfl rfl rfl rfl (by decide) rfl,
   (C7_failed_swap 5 c7State ⟨0, 5⟩ ⟨0, 0⟩).2 (Or.inl rfl)⟩

lemma rngNext_lt (s : Nat) : rngNext s < 4294967296 :=
  Nat.mod_lt _ (by norm_num)

lemma rngInt_one (s : Nat) : rngInt s 1 = (rngNext s, 0) := by
  rw [rngInt]
  simp [Nat.div_eq_of_lt (by simpa using rngNext_lt s)]

lemma fillGems_oneType (rng : Nat) :
    fillGems [[none], [none], [none]] 3 1 1 rng =
      ([[plainCell 0], [plainCell 0], [plainCell 0]],
        rngNext (rngNext (rngNext rng)), true) := by
  simp [fillGems, rngInt_one, getCell, setCell, plainCell,
    show List.range 1 = [0] from rfl, show List.range 3 = [0, 1, 2] from rfl]

/-- One cascade iteration on the all-type-0 column leaves the board
unchanged and advances the RNG by the three refill draws. -/
lemma cascadeStep_oneType (rng : Nat) (lsp : Option SwapRec)
    (frames : List Frame) (combo : Nat) :
    (cascadeStep 3 1 1 ([[plainCell 0], [plainCell 0], [plainCell 0]], rng, lsp)
      frames combo).1 =
    ([[plainCell 0], [plainCell 0], [plainCell 0]],
      rngNext (rngNext (rngNext rng)), lsp) := by
  have hA : ∀ (lsp' : Option SwapRec) (k : Nat),
      collectMatches lsp' k
        (findMatches [[plainCell 0], [plainCell 0], [plainCell 0]] 3 1) =
      ([⟨0, 0⟩, ⟨1, 0⟩, ⟨2, 0⟩], [], 0) := fun _ _ => rfl
  have hB : activateSpecials [[plainCell 0], [plainCell 0], [plainCell 0]] 3 1
      [⟨0, 0⟩, ⟨1, 0⟩, ⟨2, 0⟩] [] [] [] =
      ⟨[⟨0, 0⟩, ⟨1, 0⟩, ⟨2, 0⟩], [], [], [], 0, 0, false⟩ := rfl
  have hC : removePositions [[plainCell 0], [plainCell 0], [plainCell 0]]
      [⟨0, 0⟩, ⟨1, 0⟩, ⟨2, 0⟩] = [[none], [none], [none]] := rfl
  have hD : placeSpecials [[none], [none], [none]] (sortSpecials []) =
      ([[none], [none], [none]], []) := rfl
  have hE : dropGems [[none], [none], [none]] 3 1 =
      ([[none], [none], [none]], false) := rfl
  rw [cascadeStep]
  dsimp only
  simp only [hA, hB, hC, hD, hE, fillGems_oneType]

/-- With `gemTypes = 1` every refill draw is type 0, so a fully matched
single column reproduces itself forever: the cascade loop exhausts any
amount of fuel. -/
lemma processMatchesGo_oneType_diverges :
    ∀ fuel rng lsp frames combo,
      processMatchesGo 3 1 1 fuel
        ([[plainCell 0], [plainCell 0], [plainCell 0]], rng, lsp)
        frames combo = none := by
  intro fuel
  induction fuel with
  | zero => intro rng lsp frames combo; rfl
  | succ n ih =>
    intro rng lsp frames combo
    have hne : ¬ (findMatches [[plainCell 0], [plainCell 0], [plainCell 0]] 3 1
        = []) := by decide
    rw [processMatchesGo, if_neg hne]
    dsimp only
    rw [cascadeStep_oneType, ih]

/-- C9 (divergence of the cascade loop): swapping two cells of an
all-type-0 single column in a `gemTypes = 1` engine never returns —
each iteration removes the matched column and refills it identically,
so the resolution pipeline loops for every fuel bound.  The chain
expansion, shuffle and regeneration loops carry hard caps (20, 10 and
100 iterations), but the cascade loop has none. -/
theorem C9_cascade_divergence (fuel : Nat) :
    swapFuel fuel oneTypeState ⟨0, 0⟩ ⟨1, 0⟩ = none := by
  have hpm := processMatchesGo_oneType_diverges fuel 42 (some ⟨0, 0, 1, 0⟩)
    [Frame.swapF [[plainCell 0], [plainCell 0], [plainCell 0]]] 0
  have hp : processMatches fuel
      ⟨3, 1, 1, [[plainCell 0], [plainCell 0], [plainCell 0]], 42,
        some ⟨0, 0, 1, 0⟩⟩
      [Frame.swapF [[plainCell 0], [plainCell 0], [plainCell 0]]] = none := by
    rw [processMatches, hpm]
  have hcc : cascadeAndCheck fuel
      ⟨3, 1, 1, [[plainCell 0], [plainCell 0], [plainCell 0]], 42,
        some ⟨0, 0, 1, 0⟩⟩
      [Frame.swapF [[plainCell 0], [plainCell 0], [plainCell 0]]] = none := by
    rw [cascadeAndCheck, hp]
  have hpl : plainFinish fuel
      ⟨3, 1, 1, [[plainCell 0], [plainCell 0], [plainCell 0]], 42,
        some ⟨0, 0, 1, 0⟩⟩
      [Frame.swapF [[plainCell 0], [plainCell 0], [plainCell 0]]] = none := by
    rw [plainFinish, hcc]
  calc swapFuel fuel oneTypeState ⟨0, 0⟩ ⟨1, 0⟩
      = (match plainFinish fuel
            ⟨3, 1, 1, [[plainCell 0], [plainCell 0], [plainCell 0]], 42,
              some ⟨0, 0, 1, 0⟩⟩
            [Frame.swapF [[plainCell 0], [plainCell 0], [plainCell 0]]] with
         | none => none
         | some (stf, res, regen) =>
           some ({ stf with lastSwapPos := none }, res, regen)) := rfl
    _ = none := by rw [hpl]

lemma chainAdd_bookkeeping (st : ChainState) (p : Pos) (a : RemovalAnim) :
    (chainAdd st p a).processed = st.processed ∧
    (chainAdd st p a).bonus = st.bonus ∧
    (chainAdd st p a).chain = st.chain := by
  unfold chainAdd
  split <;> exact ⟨rfl, rfl, rfl⟩

lemma foldl_chain_bookkeeping {α : Type} (f : ChainState → α → ChainState)
    (hf : ∀ st a, (f st a).processed = st.processed ∧
      (f st a).bonus = st.bonus ∧ (f st a).chain = st.chain)
    (l : List α) (st : ChainState) :
    (l.foldl f st).processed = st.processed ∧
    (l.foldl f st).bonus = st.bonus ∧
    (l.foldl f st).chain = st.chain := by
  induction l generalizing st with
  | nil => exact ⟨rfl, rfl, rfl⟩
  | cons a rest ih =>
    have h1 := hf st a
    have h2 := ih (f st a)
    simp only [List.foldl_cons]
    exact ⟨h2.1.trans h1.1, h2.2.1.trans h1.2.1, h2.2.2.trans h1.2.2⟩

lemma processKey_skip (board : Board) (rows cols : Nat) (st : ChainState)
    (key : Pos) (h : specialAt board key = none) :
    processKey board rows cols st key = st := by
  unfold processKey
  unfold specialAt at h
  cases hg : getCell board key.r key.c with
  | none => rfl
  | some g =>
    rw [hg] at h
    dsimp only at h
    obtain ⟨t, sp, di⟩ := g
    dsimp only at h
    subst h
    rfl

lemma processKey_mem (board : Board) (rows cols : Nat) (st : ChainState)
    (key : Pos) (h : key ∈ st.processed) :
    processKey board rows cols st key = st := by
  unfold processKey
  cases hg : getCell board key.r key.c with
  | none => rfl
  | some g =>
    obtain ⟨t, sp, di⟩ := g
    cases sp with
    | none => rfl
    | some sk =>
      dsimp only
      rw [if_pos h]

lemma processKey_fresh (board : Board) (rows cols : Nat) (st : ChainState)
    (key : Pos) (sk : SpecialKind) (hsk : specialAt board key = some sk)
    (hmem : key ∉ st.processed) :
    (processKey board rows cols st key).processed = st.processed ++ [key] ∧
    (processKey board rows cols st key).bonus = st.bonus + bonusOfKind sk ∧
    (processKey board rows cols st key).chain = st.chain + 1 := by
  unfold specialAt at hsk
  unfold processKey
  cases hg : getCell board key.r key.c with
  | none => rw [hg] at hsk; exact absurd hsk (by simp)
  | some g =>
    rw [hg] at hsk
    dsimp only at hsk
    obtain ⟨t, sp, di⟩ := g
    dsimp only at hsk
    subst hsk
    dsimp only
    rw [if_neg hmem]
    cases sk with
    | bomb =>
      dsimp only
      have hfold := foldl_chain_bookkeeping
        (fun acc off =>
          let nr : Int := (key.r : Int) + off.1
          let nc : Int := (key.c : Int) + off.2
          if 0 ≤ nr ∧ nr < (rows : Int) ∧ 0 ≤ nc ∧ nc < (cols : Int) then
            chainAdd acc ⟨nr.toNat, nc.toNat⟩ RemovalAnim.exploding
          else acc)
        (by
          intro st' a
          dsimp only
          split
          · exact chainAdd_bookkeeping _ _ _
          · exact ⟨rfl, rfl, rfl⟩)
        bombOffsets
        { st with processed := st.processed ++ [key], chain := st.chain + 1,
                  effects := st.effects ++ [Effect.explosion key.r key.c] }
      exact ⟨hfold.1, by rw [hfold.2.1]; rfl, by rw [hfold.2.2]⟩
    | line =>
      have hrow := foldl_chain_bookkeeping
        (fun acc i => chainAdd acc ⟨key.r, i⟩ RemovalAnim.lineCleared)
        (fun st'' a => chainAdd_bookkeeping st'' _ _) (List.range cols)
      have hcol := foldl_chain_bookkeeping
        (fun acc i => chainAdd acc ⟨i, key.c⟩ RemovalAnim.lineCleared)
        (fun st'' a => chainAdd_bookkeeping st'' _ _) (List.range rows)
      dsimp only
      refine ⟨?_, ?_, ?_⟩
      · split <;> split <;>
          simp only [(hrow _).1, (hcol _).1]
      · split <;> split <;>
          simp only [(hrow _).2.1, (hcol _).2.1] <;> rfl
      · split <;> split <;>
          simp only [(hrow _).2.2, (hcol _).2.2]
    | rainbow =>
      dsimp only
      have houter := foldl_chain_bookkeeping
        (fun acc i =>
          (List.range cols).foldl
            (fun acc2 j =>
              if (getCell board i j).map Cell.type = some t then
                chainAdd acc2 ⟨i, j⟩ RemovalAnim.rainbowCleared
              else acc2) acc)
        (by
          intro st'' a
          exact foldl_chain_bookkeeping _
            (by
              intro st3 b
              split
              · exact chainAdd_bookkeeping _ _ _
              · exact ⟨rfl, rfl, rfl⟩) _ _)
        (List.range rows)
        { st with processed := st.processed ++ [key], chain := st.chain + 1 }
      exact ⟨houter.1, by rw [houter.2.1]; rfl, by rw [houter.2.2]⟩

lemma bonusSum_append (board : Board) (l1 l2 : List Pos) :
    bonusSum board (l1 ++ l2) = bonusSum board l1 + bonusSum board l2 := by
  simp [bonusSum]

lemma passFold_spec (board : Board) (rows cols : Nat) (keys : List Pos)
    (st : ChainState) :
    ∃ acts : List Pos,
      (keys.foldl (processKey board rows cols) st).processed
        = st.processed ++ acts ∧
      (keys.foldl (processKey board rows cols) st).bonus
        = st.bonus + bonusSum board acts ∧
      (keys.foldl (processKey board rows cols) st).chain
        = st.chain + acts.length ∧
      (∀ p ∈ acts, (specialAt board p).isSome = true ∧ p ∉ st.processed) ∧
      acts.Nodup := by
  induction keys generalizing st with
  | nil =>
    exact ⟨[], by simp, by simp [bonusSum], by simp, by simp, List.nodup_nil⟩
  | cons k rest ih =>
    simp only [List.foldl_cons]
    by_cases hmem : k ∈ st.processed
    · rw [processKey_mem _ _ _ _ _ hmem]
      exact ih st
    · cases hsk : specialAt board k with
      | none =>
        rw [processKey_skip _ _ _ _ _ hsk]
        exact ih st
      | some sk =>
        obtain ⟨hp, hb, hc⟩ := processKey_fresh board rows cols st k sk hsk hmem
        obtain ⟨acts', ha1, ha2, ha3, ha4, ha5⟩ :=
          ih (processKey board rows cols st k)
        refine ⟨k :: acts', ?_, ?_, ?_, ?_, ?_⟩
        · rw [ha1, hp]
          simp
        · rw [ha2, hb]
          have : bonusSum board (k :: acts') =
              bonusOfKind sk + bonusSum board acts' := by
            simp [bonusSum, hsk]
          rw [this]
          omega
        · rw [ha3, hc]
          simp only [List.length_cons]
          omega
        · intro p hp'
          rcases List.mem_cons.mp hp' with h | h
          · subst h
            exact ⟨by simp [hsk], hmem⟩
          · obtain ⟨hsome, hnot⟩ := ha4 p h
            rw [hp] at hnot
            simp only [List.mem_append, List.mem_singleton, not_or] at hnot
            exact ⟨hsome, hnot.1⟩
        · rw [List.nodup_cons]
          constructor
          · intro hk
            obtain ⟨_, hnot⟩ := ha4 k hk
            rw [hp] at hnot
            simp at hnot
          · exact ha5

lemma chainLoop_spec (board : Board) (rows cols : Nat) (n : Nat)
    (st : ChainState) :
    ∃ acts : List Pos,
      (chainLoop board rows cols n st).processed = st.processed ++ acts ∧
      (chainLoop board rows cols n st).bonus
        = st.bonus + bonusSum board acts ∧
      (chainLoop board rows cols n st).chain = st.chain + acts.length ∧
      (∀ p ∈ acts, (specialAt board p).isSome = true ∧ p ∉ st.processed) ∧
      acts.Nodup := by
  induction n generalizing st with
  | zero =>
    exact ⟨[], by simp [chainLoop], by simp [chainLoop, bonusSum],
      by simp [chainLoop], by simp, List.nodup_nil⟩
  | succ n ih =>
    rw [chainLoop]
    by_cases hf : st.found
    · rw [if_neg (by simp [hf])]
      obtain ⟨acts1, hp1, hb1, hc1, hm1, hn1⟩ :=
        passFold_spec board rows cols
          ({ st with found := false } : ChainState).toRemove
          { st with found := false }
      obtain ⟨acts2, hp2, hb2, hc2, hm2, hn2⟩ :=
        ih (({ st with found := false } : ChainState).toRemove.foldl
          (processKey board rows cols) { st with found := false })
      refine ⟨acts1 ++ acts2, ?_, ?_, ?_, ?_, ?_⟩
      · rw [hp2, hp1]
        simp
      · rw [hb2, hb1, bonusSum_append]
        simp only []
        omega
      · rw [hc2, hc1]
        simp only [List.length_append]
        omega
      · intro p hp'
        rcases List.mem_append.mp hp' with h | h
        · exact ⟨(hm1 p h).1, (hm1 p h).2⟩
        · obtain ⟨hsome, hnot⟩ := hm2 p h
          rw [hp1] at hnot
          simp only [List.mem_append, not_or] at hnot
          exact ⟨hsome, hnot.1⟩
      · rw [List.nodup_append]
        refine ⟨hn1, hn2, ?_⟩
        intro p hpa1 hpa2
        obtain ⟨_, hnot⟩ := hm2 p hpa2
        rw [hp1] at hnot
        simp only [List.mem_append, not_or] at hnot
        exact hnot.2 hpa1
    · rw [if_pos (by simp [hf])]
      exact ⟨[], by simp, by simp [bonusSum], by simp, by simp, List.nodup_nil⟩

/-- C6: during one chain expansion every special cell is activated at
most once.  The processed set grows by a duplicate-free list of fresh
activation positions, each holding a special cell; the accumulated
bonus is the sum of each activated special's fixed bonus counted
exactly once, and the chain count is the number of activations. -/
theorem C6_chain_idempotence (board : Board) (rows cols : Nat)
    (toRemove : List Pos) (anims : List (Pos × RemovalAnim))
    (effects : List Effect) (processed0 : List Pos)
    (h0 : processed0.Nodup) :
    ∃ acts : List Pos,
      (activateSpecials board rows cols toRemove anims effects
        processed0).processed = processed0 ++ acts ∧
      acts.Nodup ∧
      (∀ p ∈ acts, (specialAt board p).isSome = true ∧ p ∉ processed0) ∧
      (activateSpecials board rows cols toRemove anims effects
        processed0).bonus = bonusSum board acts ∧
      (activateSpecials board rows cols toRemove anims effects
        processed0).chain = acts.length ∧
      (processed0 ++ acts).Nodup := by
  obtain ⟨acts, h1, h2, h3, h4, h5⟩ := chainLoop_spec board rows cols 20
    ⟨toRemove, anims, effects, processed0, 0, 0, true⟩
  dsimp only at h1 h2 h3 h4
  unfold activateSpecials
  refine ⟨acts, h1, h5, h4, by rw [h2]; omega, by rw [h3]; omega, ?_⟩
  rw [List.nodup_append]
  refine ⟨h0, h5, ?_⟩
  intro p hp0 hpa
  exact (h4 p hpa).2 hp0

/-- Witness: `C6_chain_idempotence` on a 1-by-3 board whose bomb at
column 0 is the only special in the removal set. -/
theorem C6_chain_idempotence_witness :
    ∃ acts : List Pos,
      (activateSpecials c6Board 1 3 [⟨0, 0⟩] [] [] []).processed
        = [] ++ acts ∧
      acts.Nodup ∧
      (∀ p ∈ acts, (specialAt c6Board p).isSome = true ∧ p ∉ ([] : List Pos)) ∧
      (activateSpecials c6Board 1 3 [⟨0, 0⟩] [] [] []).bonus
        = bonusSum c6Board acts ∧
      (activateSpecials c6Board 1 3 [⟨0, 0⟩] [] [] []).chain = acts.length ∧
      (([] : List Pos) ++ acts).Nodup :=
  C6_chain_idempotence c6Board 1 3 [⟨0, 0⟩] [] [] [] List.nodup_nil

lemma comboMult_eq (k : Nat) :
    comboMult k = 1 + ((k : ℚ) - 1) * (1 / 2) := by
  unfold comboMult
  rw [Rat.mkRat_eq_div]
  push_cast
  ring

lemma points_eq_floor (b m k : Nat) :
    (((b + m) * (k + 1) / 2 : ℕ) : ℤ)
      = ⌊((b : ℚ) + (m : ℚ)) * comboMult k⌋ := by
  have h1 : ((b : ℚ) + (m : ℚ)) * comboMult k
      = (((b + m) * (k + 1) : ℕ) : ℚ) / ((2 : ℕ) : ℚ) := by
    rw [comboMult_eq]; push_cast; ring
  have hnn : (0 : ℚ) ≤ (((b + m) * (k + 1) : ℕ) : ℚ) / ((2 : ℕ) : ℚ) := by
    positivity
  rw [h1, ← Int.natCast_floor_eq_floor hnn, Nat.floor_div_eq_div]

lemma comboMult_strictMono (i j : Nat) (h : i < j) :
    comboMult i < comboMult j := by
  rw [comboMult_eq, comboMult_eq]
  have : (i : ℚ) < (j : ℚ) := by exact_mod_cast h
  linarith

lemma comboMult_pos (k : Nat) : 0 < comboMult k := by
  rw [comboMult_eq]
  have : (0 : ℚ) ≤ (k : ℚ) := by positivity
  linarith

lemma cascadeStep_frames_shift (rows cols gemTypes : Nat)
    (st : Board × Nat × Option SwapRec) (frames : List Frame) (k : Nat) :
    (cascadeStep rows cols gemTypes st frames k).2.1 =
      frames ++ (cascadeStep rows cols gemTypes st [] k).2.1 := by
  unfold cascadeStep
  dsimp only
  split_ifs <;> simp

lemma cascadeStep_removeCombos (rows cols gemTypes : Nat)
    (st : Board × Nat × Option SwapRec) (k : Nat) :
    removeCombos (cascadeStep rows cols gemTypes st [] k).2.1 = [k] := by
  unfold cascadeStep
  dsimp only
  split_ifs <;> simp [removeCombos]

lemma cascadeStep_removeFrame_props (rows cols gemTypes : Nat)
    (st : Board × Nat × Option SwapRec) (k : Nat) :
    ∀ ps an fx sc, Frame.removeF ps an fx sc ∈
        (cascadeStep rows cols gemTypes st [] k).2.1 →
      sc.combo = k ∧
      sc.breakdown.base = ps.length * 10 ∧
      sc.breakdown.comboMultiplier = comboMult k ∧
      sc.points = (sc.breakdown.base + sc.breakdown.matchBonus) * (k + 1) / 2 := by
  unfold cascadeStep
  dsimp only
  split_ifs <;>
    (intro ps an fx sc hmem
     simp only [List.nil_append, List.mem_append, List.mem_cons,
       List.mem_singleton, List.not_mem_nil, or_false, false_or,
       Frame.removeF.injEq, reduceCtorEq] at hmem
     obtain ⟨hps, -, -, hsc⟩ := hmem
     subst hsc
     exact ⟨rfl, by rw [hps], rfl, rfl⟩)

lemma pmGo_frames_spec (rows cols gemTypes : Nat) :
    ∀ (fuel : Nat) (st : Board × Nat × Option SwapRec) (frames : List Frame)
      (combo : Nat) (st' : Board × Nat × Option SwapRec)
      (frames' : List Frame) (pts : Nat),
      processMatchesGo rows cols gemTypes fuel st frames combo
        = some (st', frames', pts) →
      ∃ Δ : List Frame, frames' = frames ++ Δ ∧
        removeCombos Δ = List.range' (combo + 1) (removeCombos Δ).length ∧
        (∀ ps an fx sc, Frame.removeF ps an fx sc ∈ Δ →
          combo < sc.combo ∧
          sc.breakdown.base = ps.length * 10 ∧
          sc.breakdown.comboMultiplier = comboMult sc.combo ∧
          sc.points = (sc.breakdown.base + sc.breakdown.matchBonus)
            * (sc.combo + 1) / 2) := by
  intro fuel
  induction fuel with
  | zero =>
    intro st frames combo st' frames' pts h
    exact absurd h (by simp [processMatchesGo])
  | succ n ih =>
    intro st frames combo st' frames' pts h
    rw [processMatchesGo] at h
    by_cases hms : findMatches st.1 rows cols = []
    · rw [if_pos hms] at h
      simp only [Option.some.injEq, Prod.mk.injEq] at h
      obtain ⟨-, h2, -⟩ := h
      subst h2
      exact ⟨[], by simp, by simp [removeCombos], by simp⟩
    · rw [if_neg hms] at h
      dsimp only at h
      cases hrec : processMatchesGo rows cols gemTypes n
          (cascadeStep rows cols gemTypes st frames (combo + 1)).1
          (cascadeStep rows cols gemTypes st frames (combo + 1)).2.1
          (combo + 1) with
      | none => rw [hrec] at h; exact absurd h (by simp)
      | some out =>
        obtain ⟨stR, framesR, restR⟩ := out
        rw [hrec] at h
        simp only [Option.some.injEq, Prod.mk.injEq] at h
        obtain ⟨-, h2, -⟩ := h
        subst h2
        obtain ⟨dRest, hEq, hComb, hProps⟩ := ih _ _ _ _ _ _ hrec
        rw [cascadeStep_frames_shift] at hEq
        refine ⟨(cascadeStep rows cols gemTypes st [] (combo + 1)).2.1 ++ dRest,
          by rw [hEq, List.append_assoc], ?_, ?_⟩
        · rw [removeCombos, List.filterMap_append, ← removeCombos, ← removeCombos,
            cascadeStep_removeCombos, hComb]
          simp only [List.length_append, List.length_cons, List.length_nil,
            List.singleton_append, List.length_range']
          rw [List.range'_succ]
        · intro ps an fx sc hmem
          rcases List.mem_append.mp hmem with hm | hm
          · obtain ⟨hc, hb, hmu, hpt⟩ :=
              cascadeStep_removeFrame_props rows cols gemTypes st (combo + 1)
                ps an fx sc hm
            exact ⟨by rw [hc]; exact Nat.lt_succ_self _, hb,
              by rw [hc, hmu], by rw [hc, hpt]⟩
          · obtain ⟨hc, hb, hmu, hpt⟩ := hProps ps an fx sc hm
            exact ⟨Nat.lt_of_succ_lt hc, hb, hmu, hpt⟩

lemma collectMatches_matchBonus (lsp : Option SwapRec) (k : Nat)
    (ms : List MatchGroup) :
    (collectMatches lsp k ms).2.2 =
      (ms.map (fun m => creationBonus m +
        (if 3 < matchLenOf m then (matchLenOf m - 3) ^ 2 * 20 else 0))).sum := by
  suffices haux : ∀ acc : List Pos × List SpecialQueued × Nat,
      (ms.foldl
        (fun (acc : List Pos × List SpecialQueued × Nat) m =>
          let (tr, sps, mb) := acc
          let len := matchLenOf m
          let sps' :=
            match queuedSpecial m with
            | some (sk, dir) =>
              sps ++ [⟨findBestSpecialPosition m lsp k, m.type, sk, dir⟩]
            | none => sps
          let mb' := mb + creationBonus m
          let mb'' := if 3 < len then mb' + (len - 3) ^ 2 * 20 else mb'
          (m.positions.foldl addPos tr, sps', mb'')) acc).2.2 =
      acc.2.2 + (ms.map (fun m => creationBonus m +
        (if 3 < matchLenOf m then (matchLenOf m - 3) ^ 2 * 20 else 0))).sum by
    rw [collectMatches, haux ([], [], 0)]
    simp
  induction ms with
  | nil => intro acc; simp
  | cons m rest ihm =>
    intro acc
    obtain ⟨tr, sps, mb⟩ := acc
    simp only [List.foldl_cons, List.map_cons, List.sum_cons]
    rw [ihm]
    dsimp only
    split_ifs <;> omega

/-- C3: every remove frame the cascade loop emits scores by the
specified formula — `base` is ten points per removal-set cell, the
combo multiplier is `1 + (comboIndex - 1) * 0.5`, and the awarded
points are the floor of `(base + matchBonus) * comboMultiplier`; the
emitted combo indices are consecutive from 1 (when the loop starts at
combo 0), the multiplier is strictly increasing in the combo index,
and the per-group part of `matchBonus` is the sum over groups of the
creation bonus plus `(size - 3)² * 20` for oversized groups. -/
theorem C3_cascade_scoring (rows cols gemTypes fuel combo pts : Nat)
    (st st' : Board × Nat × Option SwapRec) (frames frames' : List Frame)
    (h : processMatchesGo rows cols gemTypes fuel st frames combo
      = some (st', frames', pts)) :
    (∃ Δ : List Frame, frames' = frames ++ Δ ∧
      removeCombos Δ = List.range' (combo + 1) (removeCombos Δ).length ∧
      (∀ ps an fx sc, Frame.removeF ps an fx sc ∈ Δ →
        sc.breakdown.base = ps.length * 10 ∧
        sc.breakdown.comboMultiplier = 1 + ((sc.combo : ℚ) - 1) * (1 / 2) ∧
        (sc.points : ℤ) = ⌊((sc.breakdown.base : ℚ)
          + (sc.breakdown.matchBonus : ℚ)) * sc.breakdown.comboMultiplier⌋)) ∧
    (∀ i j : Nat, i < j → comboMult i < comboMult j) ∧
    (∀ (lsp : Option SwapRec) (k : Nat) (ms : List MatchGroup),
      (collectMatches lsp k ms).2.2 =
        (ms.map (fun m => creationBonus m +
          (if 3 < matchLenOf m then (matchLenOf m - 3) ^ 2 * 20 else 0))).sum) := by
  refine ⟨?_, comboMult_strictMono, collectMatches_matchBonus⟩
  obtain ⟨Δ, hEq, hComb, hProps⟩ :=
    pmGo_frames_spec rows cols gemTypes fuel st frames combo st' frames' pts h
  refine ⟨Δ, hEq, hComb, ?_⟩
  intro ps an fx sc hmem
  obtain ⟨-, hb, hmu, hpt⟩ := hProps ps an fx sc hmem
  refine ⟨hb, by rw [hmu]; exact comboMult_eq sc.combo, ?_⟩
  rw [hmu, hpt]
  exact points_eq_floor sc.breakdown.base sc.breakdown.matchBonus sc.combo

/-- Witness: `C3_cascade_scoring` on the one-combo cascade of
`c3Board` (three cells removed, 30 points, combo index 1). -/
theorem C3_cascade_scoring_witness :
    (∃ Δ : List Frame,
      ([Frame.removeF [⟨0, 0⟩, ⟨0, 1⟩, ⟨0, 2⟩] [] []
          ⟨30, 1, ⟨30, 0, 1⟩, false⟩,
        Frame.boardF
          [[none, none, none],
           [plainCell 1, plainCell 1, plainCell 2],
           [plainCell 2, plainCell 2, plainCell 1]] [],
        Frame.fillF
          [[plainCell 0, plainCell 1, plainCell 1],
           [plainCell 1, plainCell 1, plainCell 2],
           [plainCell 2, plainCell 2, plainCell 1]]] : List Frame)
        = [] ++ Δ ∧
      removeCombos Δ = List.range' (0 + 1) (removeCombos Δ).length ∧
      (∀ ps an fx sc, Frame.removeF ps an fx sc ∈ Δ →
        sc.breakdown.base = ps.length * 10 ∧
        sc.breakdown.comboMultiplier = 1 + ((sc.combo : ℚ) - 1) * (1 / 2) ∧
        (sc.points : ℤ) = ⌊((sc.breakdown.base : ℚ)
          + (sc.breakdown.matchBonus : ℚ)) * sc.breakdown.comboMultiplier⌋)) ∧
    (∀ i j : Nat, i < j → comboMult i < comboMult j) ∧
    (∀ (lsp : Option SwapRec) (k : Nat) (ms : List MatchGroup),
      (collectMatches lsp k ms).2.2 =
        (ms.map (fun m => creationBonus m +
          (if 3 < matchLenOf m then (matchLenOf m - 3) ^ 2 * 20 else 0))).sum) :=
  C3_cascade_scoring 3 3 3 5 0 30 (c3Board, 1, some ⟨0, 1, 1, 1⟩)
    ([[plainCell 0, plainCell 1, plainCell 1],
      [plainCell 1, plainCell 1, plainCell 2],
      [plainCell 2, plainCell 2, plainCell 1]], 2165703038, some ⟨0, 1, 1, 1⟩)
    []
    [Frame.removeF [⟨0, 0⟩, ⟨0, 1⟩, ⟨0, 2⟩] [] [] ⟨30, 1, ⟨30, 0, 1⟩, false⟩,
     Frame.boardF
       [[none, none, none],
        [plainCell 1, plainCell 1, plainCell 2],
        [plainCell 2, plainCell 2, plainCell 1]] [],
     Frame.fillF
       [[plainCell 0, plainCell 1, plainCell 1],
        [plainCell 1, plainCell 1, plainCell 2],
        [plainCell 2, plainCell 2, plainCell 1]]]
    (by decide)

lemma set_replicate_append (j : Nat) (d v : α) (rest : List α) :
    (List.replicate (j + 1) d ++ rest).set j v
      = List.replicate j d ++ v :: rest := by
  induction j with
  | zero => rfl
  | succ k ih =>
    rw [List.replicate_succ, List.cons_append, List.set_cons_succ, ih,
      List.replicate_succ, List.cons_append]

lemma filterMap_take_succ (col : List (Option Cell)) (n : Nat)
    (h : n < col.length) :
    (col.take (n + 1)).filterMap id
      = (col.take n).filterMap id ++ (col.getD n none).toList := by
  rw [List.take_succ, List.filterMap_append]
  congr 1
  rw [List.getD_eq_getElem?_getD, List.getElem?_eq_getElem h]
  cases col[n] with
  | none => rfl
  | some g => rfl

lemma dropColAux_spec (n : Nat) :
    ∀ (col : List (Option Cell)) (S : List Cell) (moved : Bool),
      n ≤ col.length →
      col.drop n
        = List.replicate (col.length - n - S.length) none ++ S.map some →
      dropColAux n col (col.length - 1 - S.length) moved
        = (compactResult col n S,
           moved || decide (compactResult col n S ≠ col)) := by
  induction n with
  | zero =>
    intro col S moved h0 hsuf
    rw [List.drop_zero] at hsuf
    have hcol : compactResult col 0 S = col := by
      rw [compactResult]
      simp only [List.take_zero, List.filterMap_nil, List.length_nil,
        List.map_nil, List.append_nil, Nat.sub_zero]
      rw [Nat.sub_zero] at hsuf
      exact hsuf.symm
    rw [dropColAux, hcol]
    simp
  | succ n ih =>
    intro col S moved hn hsuf
    have hnl : n < col.length := Nat.lt_of_succ_le hn
    have hdlen : col.length - (n + 1)
        = (col.length - (n + 1) - S.length) + S.length := by
      have h := congrArg List.length hsuf
      simp only [List.length_drop, List.length_append, List.length_replicate,
        List.length_map] at h
      exact h
    have hSle : S.length + (n + 1) ≤ col.length := by omega
    have hgetD : col.getD n none = col[n] := by
      rw [List.getD_eq_getElem?_getD, List.getElem?_eq_getElem hnl]
      rfl
    have hdropn : col.drop n = col[n] :: col.drop (n + 1) :=
      List.drop_eq_getElem_cons hnl
    rw [dropColAux, hgetD]
    cases hc : col[n] with
    | none =>
      have hsuf' : col.drop n
          = List.replicate (col.length - n - S.length) none ++ S.map some := by
        rw [hdropn, hc, hsuf]
        have he : col.length - n - S.length
            = (col.length - (n + 1) - S.length) + 1 := by omega
        rw [he, List.replicate_succ, List.cons_append]
      rw [ih col S moved (Nat.le_of_lt hnl) hsuf']
      have hcr : compactResult col (n + 1) S = compactResult col n S := by
        rw [compactResult, compactResult, filterMap_take_succ col n hnl,
          hgetD, hc]
        simp
      rw [hcr]
    | some g =>
      dsimp only
      by_cases hwp : col.length - 1 - S.length = n
      · have hj : col.length - (n + 1) - S.length = 0 := by omega
        rw [if_neg (not_not.mpr hwp)]
        have hsuf' : col.drop n
            = List.replicate (col.length - n - (g :: S).length) none
              ++ (g :: S).map some := by
          rw [hdropn, hc, hsuf, hj]
          have he : col.length - n - (g :: S).length = 0 := by
            simp only [List.length_cons]; omega
          rw [he]
          simp
        have hwq : col.length - 1 - S.length - 1
            = col.length - 1 - (g :: S).length := by
          simp only [List.length_cons]; omega
        rw [hwq, ih col (g :: S) moved (Nat.le_of_lt hnl) hsuf']
        have hcr : compactResult col (n + 1) S
            = compactResult col n (g :: S) := by
          rw [compactResult, compactResult, filterMap_take_succ col n hnl,
            hgetD, hc]
          simp only [Option.toList_some, List.length_append,
            List.length_cons, List.length_nil, List.map_append, List.map_cons,
            List.map_nil, List.append_assoc, List.cons_append, List.nil_append,
            List.singleton_append, Nat.zero_add, Nat.add_zero]
          have hcnt : col.length - (((col.take n).filterMap id).length + 1)
                - S.length
              = col.length - ((col.take n).filterMap id).length
                - (S.length + 1) := by omega
          rw [hcnt]
        rw [hcr]
      · rw [if_pos hwp]
        obtain ⟨j, hjj⟩ : ∃ j, col.length - (n + 1) - S.length = j + 1 :=
          ⟨col.length - (n + 1) - S.length - 1, by omega⟩
        rw [hjj] at hsuf
        have hlen2 : ((col.set (col.length - 1 - S.length) (some g)).set
            n none).length = col.length := by
          simp
        have htake2 : ((col.set (col.length - 1 - S.length) (some g)).set
            n none).take n = col.take n := by
          rw [List.set_take, List.set_take, List.set_eq_of_length_le,
            List.set_eq_of_length_le]
          · rw [List.length_take]; omega
          · rw [List.length_set, List.length_take]; omega
        have hdrop2 : ((col.set (col.length - 1 - S.length) (some g)).set
            n none).drop n
            = List.replicate (((col.set (col.length - 1 - S.length)
                (some g)).set n none).length - n - (g :: S).length) none
              ++ (g :: S).map some := by
          rw [hlen2, List.drop_set, if_neg (lt_irrefl n), Nat.sub_self,
            List.drop_set, if_neg (by omega), hdropn, hc, hsuf]
          have hwn : col.length - 1 - S.length - n = j + 1 := by omega
          rw [hwn, List.set_cons_succ, set_replicate_append,
            List.set_cons_zero]
          have he : col.length - n - (g :: S).length = j + 1 := by
            simp only [List.length_cons]; omega
          rw [he, List.replicate_succ, List.cons_append, List.map_cons]
        have hwq : col.length - 1 - S.length - 1
            = ((col.set (col.length - 1 - S.length) (some g)).set
                n none).length - 1 - (g :: S).length := by
          rw [hlen2]
          simp only [List.length_cons]; omega
        rw [hwq, ih _ (g :: S) true (by rw [hlen2]; exact Nat.le_of_lt hnl)
          hdrop2]
        have hcr : compactResult ((col.set (col.length - 1 - S.length)
              (some g)).set n none) n (g :: S)
            = compactResult col (n + 1) S := by
          rw [compactResult, compactResult, htake2, hlen2,
            filterMap_take_succ col n hnl, hgetD, hc]
          simp only [Option.toList_some, List.length_append,
            List.length_cons, List.length_nil, List.map_append, List.map_cons,
            List.map_nil, List.append_assoc, List.cons_append, List.nil_append,
            List.singleton_append, Nat.zero_add, Nat.add_zero]
          have hcnt : col.length - ((col.take n).filterMap id).length
                - (S.length + 1)
              = col.length - (((col.take n).filterMap id).length + 1)
                - S.length := by omega
          rw [hcnt]
        rw [hcr]
        have hTle : ((col.take n).filterMap id).length ≤ n := by
          calc ((col.take n).filterMap id).length
              ≤ (col.take n).length := List.length_filterMap_le _ _
            _ ≤ n := by rw [List.length_take]; omega
        have hne : compactResult col (n + 1) S ≠ col := by
          intro heq
          have h1 : col[col.length - 1 - S.length]? = some none := by
            have hix : col.length - 1 - S.length = (n + 1) + j := by omega
            rw [hix, ← List.getElem?_drop, hsuf]
            rw [List.getElem?_append_left (by
              rw [List.length_replicate]; omega)]
            rw [List.getElem?_replicate, if_pos (by omega)]
          have h2 : (compactResult col (n + 1) S)[col.length - 1
              - S.length]? = some (some g) := by
            rw [compactResult, filterMap_take_succ col n hnl, hgetD, hc]
            simp only [Option.toList_some]
            rw [List.getElem?_append_left (by
              simp only [List.length_append, List.length_replicate,
                List.length_map, List.length_cons, List.length_nil]
              omega)]
            rw [List.getElem?_append_right (by
              simp only [List.length_append, List.length_replicate,
                List.length_cons, List.length_nil]
              omega)]
            simp only [List.length_append, List.length_replicate,
              List.length_cons, List.length_nil]
            have hix : col.length - 1 - S.length
                - (col.length - (((col.take n).filterMap id).length
                    + (0 + 1)) - S.length)
                = ((col.take n).filterMap id).length := by omega
            rw [hix, List.getElem?_map,
              List.getElem?_append_right (le_refl _), Nat.sub_self]
            simp
          rw [heq, h1] at h2
          simp at h2
        simp [hne]

lemma compactColumn_length (col : List (Option Cell)) :
    (compactColumn col).length = col.length := by
  have h := List.length_filterMap_le id col
  simp only [compactColumn, List.length_append, List.length_replicate,
    List.length_map]
  omega

lemma colSlots_length (b : Board) (c rows : Nat) :
    (colSlots b c rows).length = rows := by
  simp [colSlots]

lemma colSlots_getD (b : Board) (c rows r : Nat) (hr : r < rows) :
    (colSlots b c rows).getD r none = getCell b r c := by
  rw [colSlots, List.getD_eq_getElem?_getD, List.getElem?_map,
    List.getElem?_range hr]
  rfl

lemma dropColAux_run (b : Board) (c rows : Nat) :
    dropColAux rows (colSlots b c rows) (rows - 1) false
      = (compactColumn (colSlots b c rows),
         decide (compactColumn (colSlots b c rows) ≠ colSlots b c rows)) := by
  have hlen : (colSlots b c rows).length = rows := colSlots_length b c rows
  have h := dropColAux_spec rows (colSlots b c rows) [] false (le_of_eq hlen.symm)
    (by
      rw [List.drop_eq_nil_of_le (le_of_eq hlen)]
      simp [hlen])
  rw [hlen] at h
  simp only [List.length_nil, Nat.sub_zero] at h
  rw [h]
  have hcr : compactResult (colSlots b c rows) rows []
      = compactColumn (colSlots b c rows) := by
    rw [compactResult, compactColumn, List.take_of_length_le (le_of_eq hlen)]
    simp
  rw [hcr]
  simp

lemma getCell_oob (b : Board) (r c : Nat) (h : b.length ≤ r) :
    getCell b r c = none := by
  rw [getCell]
  have he : b.getD r [] = [] := by
    simp [List.getD_eq_getElem?_getD, List.getElem?_eq_none h]
  rw [he]
  rfl

lemma rowLen_of_shaped {b : Board} {rows cols : Nat}
    (hb : boardShaped b rows cols) {r : Nat} (hr : r < rows) :
    (b.getD r []).length = cols := by
  obtain ⟨hlen, hrow⟩ := hb
  have hrb : r < b.length := by omega
  have : b.getD r [] = b[r] := by
    simp [List.getD_eq_getElem?_getD, List.getElem?_eq_getElem hrb]
  rw [this]
  exact hrow _ (List.getElem_mem hrb)

lemma foldl_setCell_col_length (c : Nat) (col : List (Option Cell))
    (L : List Nat) : ∀ b : Board,
    (L.foldl (fun b2 i => setCell b2 i c (col.getD i none)) b).length
      = b.length := by
  induction L with
  | nil => intro b; rfl
  | cons r L ih =>
    intro b
    rw [List.foldl_cons, ih, length_setCell]

lemma foldl_setCell_col_rowLen (c : Nat) (col : List (Option Cell))
    (L : List Nat) (r2 : Nat) : ∀ b : Board,
    ((L.foldl (fun b2 i => setCell b2 i c (col.getD i none)) b).getD
        r2 []).length
      = (b.getD r2 []).length := by
  induction L with
  | nil => intro b; rfl
  | cons r L ih =>
    intro b
    rw [List.foldl_cons, ih, rowLen_setCell]

lemma setColumn_length (b : Board) (c : Nat) (col : List (Option Cell)) :
    (setColumn b c col).length = b.length := by
  rw [setColumn, foldl_setCell_col_length]

lemma setColumn_rowLen (b : Board) (c : Nat) (col : List (Option Cell))
    (r2 : Nat) :
    ((setColumn b c col).getD r2 []).length = (b.getD r2 []).length := by
  rw [setColumn, foldl_setCell_col_rowLen]

lemma setColumn_getCell_ne (b : Board) (c : Nat) (col : List (Option Cell))
    (r2 c2 : Nat) (h : c2 ≠ c) :
    getCell (setColumn b c col) r2 c2 = getCell b r2 c2 := by
  rw [setColumn]
  generalize List.range col.length = L
  induction L generalizing b with
  | nil => rfl
  | cons r L ih =>
    rw [List.foldl_cons, ih, getCell_setCell_ne _ _ _ _ _ _ (Or.inr h)]

lemma setColumn_getCell_go (c : Nat) (col : List (Option Cell)) :
    ∀ (m : Nat) (b : Board) (r : Nat), r < b.length →
      c < (b.getD r []).length →
      getCell ((List.range m).foldl
          (fun b2 i => setCell b2 i c (col.getD i none)) b) r c
        = if r < m then col.getD r none else getCell b r c := by
  intro m
  induction m with
  | zero =>
    intro b r hr hc
    simp
  | succ m ih =>
    intro b r hr hc
    rw [List.range_succ, List.foldl_append, List.foldl_cons, List.foldl_nil]
    by_cases hrm : r = m
    · subst hrm
      rw [getCell_setCell_eq _ _ _ _
        (by rw [foldl_setCell_col_length]; exact hr)
        (by rw [foldl_setCell_col_rowLen]; exact hc)]
      rw [if_pos (Nat.lt_succ_self r)]
    · rw [getCell_setCell_ne _ _ _ _ _ _ (Or.inl hrm), ih b r hr hc]
      by_cases hlt : r < m
      · rw [if_pos hlt, if_pos (by omega)]
      · rw [if_neg hlt, if_neg (by omega)]

lemma setColumn_getCell_eq (b : Board) (c : Nat) (col : List (Option Cell))
    (r : Nat) (hr : r < col.length) (hrb : r < b.length)
    (hcb : c < (b.getD r []).length) :
    getCell (setColumn b c col) r c = col.getD r none := by
  rw [setColumn, setColumn_getCell_go c col col.length b r hrb hcb,
    if_pos hr]


lemma map_getD_range (l : List (Option Cell)) (rows : Nat)
    (h : l.length = rows) :
    (List.range rows).map (fun r => l.getD r none) = l := by
  apply List.ext_getElem?
  intro i
  rw [List.getElem?_map]
  by_cases hi : i < rows
  · have hil : i < l.length := by omega
    rw [List.getElem?_range hi]
    simp [List.getD_eq_getElem?_getD, List.getElem?_eq_getElem hil]
  · rw [List.getElem?_eq_none (by rw [List.length_range]; omega),
      List.getElem?_eq_none (by omega)]
    rfl

lemma compactColumn_filterMap (col : List (Option Cell)) :
    (compactColumn col).filterMap id = col.filterMap id := by
  simp [compactColumn, List.filterMap_append]

lemma compactColumn_isSome_mono (col : List (Option Cell)) (r1 r2 : Nat)
    (h12 : r1 ≤ r2) (h2 : r2 < col.length)
    (h1 : ((compactColumn col).getD r1 none).isSome = true) :
    ((compactColumn col).getD r2 none).isSome = true := by
  have hfl : (col.filterMap id).length ≤ col.length :=
    List.length_filterMap_le _ _
  have hr1K : col.length - (col.filterMap id).length ≤ r1 := by
    by_contra hlt
    push_neg at hlt
    have he : (compactColumn col).getD r1 none = none := by
      rw [compactColumn, List.getD_eq_getElem?_getD,
        List.getElem?_append_left (by rw [List.length_replicate]; omega),
        List.getElem?_replicate, if_pos (by omega)]
      rfl
    rw [he] at h1
    simp at h1
  rw [compactColumn, List.getD_eq_getElem?_getD,
    List.getElem?_append_right (by rw [List.length_replicate]; omega),
    List.length_replicate, List.getElem?_map]
  have hlt2 : r2 - (col.length - (col.filterMap id).length)
      < (col.filterMap id).length := by omega
  rw [List.getElem?_eq_getElem hlt2]
  rfl

lemma dropGems_inv (board : Board) (rows cols : Nat)
    (hb : boardShaped board rows cols) :
    ∀ k, k ≤ cols →
      dropInv board rows k
        ((List.range k).foldl (dropStep rows) (board, false)) := by
  intro k
  induction k with
  | zero =>
    intro hk
    refine ⟨hb.1, fun r => rfl, fun r c => ?_, by simp⟩
    rw [if_neg (by omega)]
    rfl
  | succ k ih =>
    intro hk
    obtain ⟨h1, h2, h3, h4⟩ := ih (by omega)
    rw [List.range_succ, List.foldl_append, List.foldl_cons, List.foldl_nil]
    have hkc : k < cols := by omega
    have hcol : colSlots
        ((List.range k).foldl (dropStep rows) (board, false)).1 k rows
        = colSlots board k rows := by
      rw [colSlots, colSlots]
      apply List.map_congr_left
      intro r hr
      rw [h3 r k, if_neg (by omega)]
    rw [dropStep]
    rw [hcol, dropColAux_run]
    refine ⟨?_, ?_, ?_, ?_⟩
    · rw [setColumn_length, h1]
    · intro r
      rw [setColumn_rowLen, h2]
    · intro r c
      by_cases hc2 : c = k
      · subst hc2
        by_cases hr : r < rows
        · rw [setColumn_getCell_eq _ _ _ _
            (by rw [compactColumn_length, colSlots_length]; exact hr)
            (by rw [h1]; exact hr)
            (by rw [h2, rowLen_of_shaped hb hr]; exact hkc)]
          rw [if_pos ⟨Nat.lt_succ_self c, hr⟩]
        · rw [getCell_oob _ _ _ (by rw [setColumn_length, h1]; omega),
            if_neg (by omega),
            getCell_oob _ _ _ (by rw [hb.1]; omega)]
      · rw [setColumn_getCell_ne _ _ _ _ _ hc2, h3 r c]
        by_cases hck : c < k ∧ r < rows
        · rw [if_pos hck, if_pos ⟨by omega, hck.2⟩]
        · rw [if_neg hck, if_neg (by
            rintro ⟨hx1, hx2⟩
            exact hck ⟨by omega, hx2⟩)]
    · dsimp only
      rw [Bool.or_eq_true, h4, decide_eq_true_iff]
      constructor
      · rintro (⟨c, hck, hne⟩ | hne)
        · exact ⟨c, by omega, hne⟩
        · exact ⟨k, by omega, hne⟩
      · rintro ⟨c, hck, hne⟩
        rcases Nat.lt_succ_iff_lt_or_eq.mp hck with h | h
        · exact Or.inl ⟨c, h, hne⟩
        · subst h
          exact Or.inr hne


/-- C10: the gravity step is a stable per-column compaction — on a
`rows` by `cols` board each column of `dropGems`'s result is its old
column compacted to the bottom (so cells move only within their own
column and the surviving cells keep their top-to-bottom order), the
shape is preserved, each column's cell sequence (hence its multiset,
with types, specials and directions untouched) is preserved, every
empty slot sits above every occupied slot of its column, and the
returned flag is true exactly when some cell changed position. -/
theorem C10_gravity_compaction (board : Board) (rows cols : Nat)
    (hb : boardShaped board rows cols) :
    (∀ c, c < cols →
      colSlots (dropGems board rows cols).1 c rows
        = compactColumn (colSlots board c rows)) ∧
    boardShaped (dropGems board rows cols).1 rows cols ∧
    (∀ c, c < cols →
      (colSlots (dropGems board rows cols).1 c rows).filterMap id
        = (colSlots board c rows).filterMap id) ∧
    (∀ c, c < cols → ∀ r1 r2, r1 ≤ r2 → r2 < rows →
      (getCell (dropGems board rows cols).1 r1 c).isSome = true →
      (getCell (dropGems board rows cols).1 r2 c).isSome = true) ∧
    ((dropGems board rows cols).2 = true
      ↔ (dropGems board rows cols).1 ≠ board) := by
  obtain ⟨h1, h2, h3, h4⟩ := dropGems_inv board rows cols hb cols (le_refl cols)
  have hdg : dropGems board rows cols
      = (List.range cols).foldl (dropStep rows) (board, false) := rfl
  rw [hdg]
  have hcolc : ∀ c, c < cols →
      colSlots ((List.range cols).foldl (dropStep rows) (board, false)).1
          c rows
        = compactColumn (colSlots board c rows) := by
    intro c hc
    have hlen : (compactColumn (colSlots board c rows)).length = rows := by
      rw [compactColumn_length, colSlots_length]
    rw [colSlots]
    have hmap : ∀ r ∈ List.range rows,
        getCell ((List.range cols).foldl (dropStep rows) (board, false)).1 r c
          = (compactColumn (colSlots board c rows)).getD r none := by
      intro r hr
      rw [List.mem_range] at hr
      rw [h3 r c, if_pos ⟨hc, hr⟩]
    rw [List.map_congr_left hmap]
    exact map_getD_range _ rows hlen
  refine ⟨hcolc, ⟨h1, ?_⟩, ?_, ?_, ?_⟩
  · intro row hrow
    obtain ⟨i, hi, rfl⟩ := List.getElem_of_mem hrow
    have hlen : (((List.range cols).foldl (dropStep rows)
        (board, false)).1.getD i []).length = cols := by
      rw [h2]
      exact rowLen_of_shaped hb (by rw [h1] at hi; exact hi)
    rw [List.getD_eq_getElem?_getD, List.getElem?_eq_getElem hi] at hlen
    exact hlen
  · intro c hc
    rw [hcolc c hc, compactColumn_filterMap]
  · intro c hc r1 r2 h12 h2r hsome
    have e1 : getCell ((List.range cols).foldl (dropStep rows)
          (board, false)).1 r1 c
        = (compactColumn (colSlots board c rows)).getD r1 none := by
      rw [h3, if_pos ⟨hc, by omega⟩]
    have e2 : getCell ((List.range cols).foldl (dropStep rows)
          (board, false)).1 r2 c
        = (compactColumn (colSlots board c rows)).getD r2 none := by
      rw [h3, if_pos ⟨hc, h2r⟩]
    rw [e2]
    rw [e1] at hsome
    exact compactColumn_isSome_mono _ r1 r2 h12
      (by rw [colSlots_length]; exact h2r) hsome
  · rw [h4]
    constructor
    · rintro ⟨c, hc, hne⟩ heq
      apply hne
      have hcc := hcolc c hc
      rw [heq] at hcc
      exact hcc.symm
    · intro hne
      by_contra hnex
      push_neg at hnex
      apply hne
      apply board_ext
      · rw [h1, hb.1]
      · exact h2
      · intro r c
        rw [h3 r c]
        by_cases hcr : c < cols ∧ r < rows
        · rw [if_pos hcr, hnex c hcr.1, colSlots_getD board c rows r hcr.2]
        · rw [if_neg hcr]

/-- Witness: `C10_gravity_compaction` on the 2-by-2 board with one
floating cell per diagonal. -/
theorem C10_gravity_compaction_witness :
    (∀ c, c < 2 →
      colSlots (dropGems c10Board 2 2).1 c 2
        = compactColumn (colSlots c10Board c 2)) ∧
    boardShaped (dropGems c10Board 2 2).1 2 2 ∧
    (∀ c, c < 2 →
      (colSlots (dropGems c10Board 2 2).1 c 2).filterMap id
        = (colSlots c10Board c 2).filterMap id) ∧
    (∀ c, c < 2 → ∀ r1 r2, r1 ≤ r2 → r2 < 2 →
      (getCell (dropGems c10Board 2 2).1 r1 c).isSome = true →
      (getCell (dropGems c10Board 2 2).1 r2 c).isSome = true) ∧
    ((dropGems c10Board 2 2).2 = true
      ↔ (dropGems c10Board 2 2).1 ≠ c10Board) :=
  C10_gravity_compaction c10Board 2 2 ⟨rfl, by decide⟩

lemma mcGet_mem_keys {m : MCells} {p : Pos} {mk : Mark}
    (h : mcGet m p = some mk) : p ∈ mcKeys m := by
  induction m with
  | nil => simp [mcGet] at h
  | cons e rest ih =>
    obtain ⟨q, mq⟩ := e
    rw [mcGet] at h
    by_cases hq : q = p
    · subst hq
      simp [mcKeys]
    · rw [if_neg hq] at h
      simp only [mcKeys, List.map_cons, List.mem_cons]
      exact Or.inr (ih h)

lemma mem_keys_mcGet {m : MCells} {p : Pos}
    (h : p ∈ mcKeys m) : ∃ mk, mcGet m p = some mk := by
  induction m with
  | nil => simp [mcKeys] at h
  | cons e rest ih =>
    obtain ⟨q, mq⟩ := e
    rw [mcGet]
    by_cases hq : q = p
    · exact ⟨mq, if_pos hq⟩
    · rw [if_neg hq]
      apply ih
      simp only [mcKeys, List.map_cons, List.mem_cons] at h
      rcases h with h | h
      · exact absurd h.symm hq
      · exact h

lemma mcAdj_symm {m : MCells} {p q : Pos} (h : mcAdj m p q) :
    mcAdj m q p := by
  obtain ⟨hnb, mp, mq, hp, hq, ht⟩ := h
  refine ⟨?_, mq, mp, hq, hp, ht.symm⟩
  obtain ⟨pr, pc⟩ := p
  simp only [neighborKeys, List.mem_cons, List.not_mem_nil, or_false] at hnb ⊢
  rcases hnb with h | h | h | h <;> subst h <;> simp <;> omega

lemma mcReach_trans {m : MCells} {p q s : Pos} (h1 : mcReach m p q)
    (h2 : mcReach m q s) : mcReach m p s :=
  Relation.ReflTransGen.trans h1 h2

lemma mcReach_symm {m : MCells} {p q : Pos} (h : mcReach m p q) :
    mcReach m q p := by
  induction h with
  | refl => exact Relation.ReflTransGen.refl
  | tail hstep hadj ih =>
    exact Relation.ReflTransGen.trans
      (Relation.ReflTransGen.single (mcAdj_symm hadj)) ih

lemma filter_length_mono {l : List α} {P Q : α → Bool}
    (himp : ∀ a, Q a = true → P a = true) :
    (l.filter Q).length ≤ (l.filter P).length := by
  induction l with
  | nil => simp
  | cons b l ih =>
    simp only [List.filter_cons]
    cases hQ : Q b
    · cases hP : P b
      · exact ih
      · simpa using Nat.le_succ_of_le ih
    · rw [himp b hQ]
      simpa using ih

lemma filter_length_lt {l : List α} {P Q : α → Bool}
    (himp : ∀ a, Q a = true → P a = true) (a : α) (ha : a ∈ l)
    (hP : P a = true) (hQ : Q a = false) :
    (l.filter Q).length < (l.filter P).length := by
  induction l with
  | nil => simp at ha
  | cons b l ih =>
    simp only [List.filter_cons]
    rcases List.mem_cons.mp ha with hb | hb
    · subst hb
      rw [hP, hQ]
      simpa using Nat.lt_succ_of_le (filter_length_mono himp)
    · cases hQ2 : Q b
      · cases hP2 : P b
        · exact ih hb
        · simpa using Nat.lt_succ_of_le (le_of_lt (ih hb))
      · rw [himp b hQ2]
        simpa using ih hb

lemma bfsGo_spec (m : MCells) : ∀ (fuel : Nat) (visited queue : List Pos),
    5 * ((mcKeys m).filter (fun p => !decide (p ∈ visited))).length
        + queue.length + 1 ≤ fuel →
    (∀ p, p ∈ visited → (∃ mk, mcGet m p = some mk) →
      ∀ q, mcAdj m p q → q ∈ visited ∨ q ∈ queue) →
    (∃ Δ : List Pos, (bfsGo m fuel visited queue).2.2.2.2 = visited ++ Δ) ∧
    (∀ p, p ∈ queue → p ∈ (bfsGo m fuel visited queue).2.2.2.2) ∧
    (∀ p, p ∈ (bfsGo m fuel visited queue).1 ↔
      (p ∈ (bfsGo m fuel visited queue).2.2.2.2 ∧ p ∉ visited ∧
        ∃ mk, mcGet m p = some mk)) ∧
    (bfsGo m fuel visited queue).1.Nodup ∧
    (∀ p, p ∈ (bfsGo m fuel visited queue).2.2.2.2 →
      (∃ mk, mcGet m p = some mk) → ∀ q, mcAdj m p q →
        q ∈ (bfsGo m fuel visited queue).2.2.2.2) ∧
    (∀ p, p ∈ (bfsGo m fuel visited queue).1 →
      ∃ q0, q0 ∈ queue ∧ mcReach m q0 p) := by
  intro fuel
  induction fuel with
  | zero =>
    intro visited queue hfuel hclosed
    omega
  | succ fuel ih =>
    intro visited queue hfuel hclosed
    match queue with
    | [] =>
      rw [bfsGo]
      refine ⟨⟨[], by simp⟩, by simp, ?_, List.nodup_nil, ?_, by simp⟩
      · intro p
        constructor
        · intro hp
          simp at hp
        · rintro ⟨hv, hnv, -⟩
          exact absurd hv hnv
      · intro p hp hkey q hadj
        rcases hclosed p hp hkey q hadj with h | h
        · exact h
        · simp at h
    | cur :: rest =>
      rw [bfsGo]
      by_cases hcur : cur ∈ visited
      · rw [if_pos hcur]
        have hfuel' : 5 * ((mcKeys m).filter
              (fun p => !decide (p ∈ visited))).length + rest.length + 1
            ≤ fuel := by
          simp only [List.length_cons] at hfuel
          omega
        have hclosed' : ∀ p, p ∈ visited → (∃ mk, mcGet m p = some mk) →
            ∀ q, mcAdj m p q → q ∈ visited ∨ q ∈ rest := by
          intro p hp hkey q hadj
          rcases hclosed p hp hkey q hadj with h | h
          · exact Or.inl h
          · rcases List.mem_cons.mp h with h2 | h2
            · subst h2
              exact Or.inl hcur
            · exact Or.inr h2
        obtain ⟨hΔ, habs, hiff, hnd, hcl, hsnd⟩ :=
          ih visited rest hfuel' hclosed'
        refine ⟨hΔ, ?_, hiff, hnd, hcl, ?_⟩
        · intro p hp
          rcases List.mem_cons.mp hp with h2 | h2
          · subst h2
            obtain ⟨Δ, hΔe⟩ := hΔ
            rw [hΔe]
            exact List.mem_append_left _ hcur
          · exact habs p h2
        · intro p hp
          obtain ⟨q0, hq0, hr⟩ := hsnd p hp
          exact ⟨q0, List.mem_cons_of_mem _ hq0, hr⟩
      · rw [if_neg hcur]
        dsimp only
        cases hget : mcGet m cur with
        | none =>
          have hfeq : (mcKeys m).filter
                (fun p => !decide (p ∈ visited ++ [cur]))
              = (mcKeys m).filter (fun p => !decide (p ∈ visited)) := by
            apply List.filter_congr
            intro p hpmem
            have hpc : p ≠ cur := by
              intro he
              subst he
              obtain ⟨mk, hmk⟩ := mem_keys_mcGet hpmem
              rw [hget] at hmk
              exact Option.noConfusion hmk
            simp [List.mem_append, hpc]
          have hfuel' : 5 * ((mcKeys m).filter
                (fun p => !decide (p ∈ visited ++ [cur]))).length
              + rest.length + 1 ≤ fuel := by
            rw [hfeq]
            simp only [List.length_cons] at hfuel
            omega
          have hclosed' : ∀ p, p ∈ visited ++ [cur] →
              (∃ mk, mcGet m p = some mk) →
              ∀ q, mcAdj m p q → q ∈ visited ++ [cur] ∨ q ∈ rest := by
            intro p hp hkey q hadj
            rcases List.mem_append.mp hp with hpv | hpc
            · rcases hclosed p hpv hkey q hadj with h | h
              · exact Or.inl (List.mem_append_left _ h)
              · rcases List.mem_cons.mp h with h2 | h2
                · subst h2
                  exact Or.inl (List.mem_append_right _ (by simp))
                · exact Or.inr h2
            · have hpc2 : p = cur := by simpa using hpc
              subst hpc2
              obtain ⟨mk, hmk⟩ := hkey
              rw [hget] at hmk
              exact Option.noConfusion hmk
          obtain ⟨hΔ, habs, hiff, hnd, hcl, hsnd⟩ :=
            ih (visited ++ [cur]) rest hfuel' hclosed'
          obtain ⟨Δ, hΔe⟩ := hΔ
          refine ⟨⟨[cur] ++ Δ, by rw [hΔe, List.append_assoc]⟩, ?_, ?_, hnd,
            hcl, ?_⟩
          · intro p hp
            rcases List.mem_cons.mp hp with h2 | h2
            · subst h2
              rw [hΔe]
              exact List.mem_append_left _ (List.mem_append_right _ (by simp))
            · exact habs p h2
          · intro p
            rw [hiff p]
            constructor
            · rintro ⟨hv, hnv, key⟩
              refine ⟨hv, fun hc => hnv (List.mem_append_left _ hc), key⟩
            · rintro ⟨hv, hnv, key⟩
              refine ⟨hv, ?_, key⟩
              intro hc
              rcases List.mem_append.mp hc with h2 | h2
              · exact hnv h2
              · have : p = cur := by simpa using h2
                subst this
                obtain ⟨mk, hmk⟩ := key
                rw [hget] at hmk
                exact Option.noConfusion hmk
          · intro p hp
            obtain ⟨q0, hq0, hr⟩ := hsnd p hp
            exact ⟨q0, List.mem_cons_of_mem _ hq0, hr⟩
        | some mk =>
          have himp : ∀ a : Pos, (!decide (a ∈ visited ++ [cur])) = true →
              (!decide (a ∈ visited)) = true := by
            intro a ha
            simp only [Bool.not_eq_true', decide_eq_false_iff_not] at ha ⊢
            intro hc
            exact ha (List.mem_append_left _ hc)
          have hK : ((mcKeys m).filter
                (fun p => !decide (p ∈ visited ++ [cur]))).length
              < ((mcKeys m).filter (fun p => !decide (p ∈ visited))).length :=
            filter_length_lt himp cur (mcGet_mem_keys hget)
              (by simp [hcur]) (by simp)
          have hN4 : ((neighborKeys cur).filter (fun q =>
              match mcGet m q with
              | some mq => !decide (q ∈ visited ++ [cur])
                  && decide (mq.type = mk.type)
              | none => false)).length ≤ 4 := by
            have := List.length_filter_le (fun q =>
              match mcGet m q with
              | some mq => !decide (q ∈ visited ++ [cur])
                  && decide (mq.type = mk.type)
              | none => false) (neighborKeys cur)
            simpa [neighborKeys] using this
          have hfuel' : 5 * ((mcKeys m).filter
                (fun p => !decide (p ∈ visited ++ [cur]))).length
              + (rest ++ (neighborKeys cur).filter (fun q =>
                  match mcGet m q with
                  | some mq => !decide (q ∈ visited ++ [cur])
                      && decide (mq.type = mk.type)
                  | none => false)).length + 1 ≤ fuel := by
            rw [List.length_append]
            simp only [List.length_cons] at hfuel
            omega
          have hclosed' : ∀ p, p ∈ visited ++ [cur] →
              (∃ mkp, mcGet m p = some mkp) →
              ∀ q, mcAdj m p q → q ∈ visited ++ [cur] ∨
                q ∈ rest ++ (neighborKeys cur).filter (fun q2 =>
                  match mcGet m q2 with
                  | some mq => !decide (q2 ∈ visited ++ [cur])
                      && decide (mq.type = mk.type)
                  | none => false) := by
            intro p hp hkey q hadj
            rcases List.mem_append.mp hp with hpv | hpc
            · rcases hclosed p hpv hkey q hadj with h | h
              · exact Or.inl (List.mem_append_left _ h)
              · rcases List.mem_cons.mp h with h2 | h2
                · subst h2
                  exact Or.inl (List.mem_append_right _ (by simp))
                · exact Or.inr (List.mem_append_left _ h2)
            · have hpc2 : p = cur := by simpa using hpc
              subst hpc2
              obtain ⟨hqnb, mp2, mq2, hgp, hgq, htp⟩ := hadj
              rw [hget] at hgp
              have hmp2 : mp2 = mk := by
                injection hgp with h2
                exact h2.symm
              subst hmp2
              by_cases hqv : q ∈ visited ++ [p]
              · exact Or.inl hqv
              · refine Or.inr (List.mem_append_right _ ?_)
                rw [List.mem_filter]
                refine ⟨hqnb, ?_⟩
                rw [hgq]
                simp only [List.mem_append, List.mem_singleton, not_or] at hqv
                simp only [Bool.and_eq_true, Bool.not_eq_true',
                  decide_eq_false_iff_not, decide_eq_true_eq, List.mem_append,
                  List.mem_singleton, not_or]
                exact ⟨hqv, htp.symm⟩
          obtain ⟨hΔ, habs, hiff, hnd, hcl, hsnd⟩ :=
            ih (visited ++ [cur]) (rest ++ (neighborKeys cur).filter (fun q =>
              match mcGet m q with
              | some mq => !decide (q ∈ visited ++ [cur])
                  && decide (mq.type = mk.type)
              | none => false)) hfuel' hclosed'
          obtain ⟨Δ, hΔe⟩ := hΔ
          refine ⟨⟨[cur] ++ Δ, by rw [hΔe, List.append_assoc]⟩, ?_, ?_, ?_,
            hcl, ?_⟩
          · intro p hp
            rcases List.mem_cons.mp hp with h2 | h2
            · subst h2
              rw [hΔe]
              exact List.mem_append_left _ (List.mem_append_right _ (by simp))
            · exact habs p (List.mem_append_left _ h2)
          · intro p
            constructor
            · intro hp
              rcases List.mem_cons.mp hp with h2 | h2
              · subst h2
                refine ⟨?_, hcur, ⟨mk, hget⟩⟩
                rw [hΔe]
                exact List.mem_append_left _
                  (List.mem_append_right _ (by simp))
              · obtain ⟨hv, hnv, key⟩ := (hiff p).mp h2
                exact ⟨hv, fun hc => hnv (List.mem_append_left _ hc), key⟩
            · rintro ⟨hv, hnv, key⟩
              by_cases hpc : p = cur
              · subst hpc
                exact List.mem_cons_self _ _
              · refine List.mem_cons_of_mem _ ((hiff p).mpr ⟨hv, ?_, key⟩)
                intro hc
                rcases List.mem_append.mp hc with h2 | h2
                · exact hnv h2
                · exact hpc (by simpa using h2)
          · refine List.nodup_cons.mpr ⟨?_, hnd⟩
            intro hcurout
            obtain ⟨-, hnv, -⟩ := (hiff cur).mp hcurout
            exact hnv (List.mem_append_right _ (by simp))
          · intro p hp
            rcases List.mem_cons.mp hp with h2 | h2
            · subst h2
              exact ⟨p, List.mem_cons_self _ _, Relation.ReflTransGen.refl⟩
            · obtain ⟨q0, hq0, hr⟩ := hsnd p h2
              rcases List.mem_append.mp hq0 with h3 | h3
              · exact ⟨q0, List.mem_cons_of_mem _ h3, hr⟩
              · rw [List.mem_filter] at h3
                obtain ⟨hq0nb, hpred⟩ := h3
                cases hq0get : mcGet m q0 with
                | none =>
                  rw [hq0get] at hpred
                  simp at hpred
                | some mq0 =>
                  rw [hq0get] at hpred
                  simp only [Bool.and_eq_true, Bool.not_eq_true',
                    decide_eq_false_iff_not, decide_eq_true_eq] at hpred
                  have hadj : mcAdj m cur q0 :=
                    ⟨hq0nb, mk, mq0, hget, hq0get, hpred.2.symm⟩
                  exact ⟨cur, List.mem_cons_self _ _,
                    mcReach_trans (Relation.ReflTransGen.single hadj) hr⟩

lemma buildGroups_spec (m : MCells) : ∀ (entries : List (Pos × Mark)),
    ∀ (visited : List Pos),
    (∀ pe mke, (pe, mke) ∈ entries → pe ∈ mcKeys m) →
    (∀ p, p ∈ visited → (∃ mk, mcGet m p = some mk) →
      ∀ q, mcAdj m p q → q ∈ visited) →
    (∀ G ∈ buildGroups m entries visited,
      G.effectiveLen = G.positions.length ∧ G.positions.Nodup) ∧
    (∀ G ∈ buildGroups m entries visited, ∀ p ∈ G.positions,
      (∃ mk, mcGet m p = some mk) ∧ p ∉ visited) ∧
    (∀ G ∈ buildGroups m entries visited, ∀ p ∈ G.positions,
      ∀ q ∈ G.positions, mcReach m p q) ∧
    (∀ pe mke, (pe, mke) ∈ entries →
      pe ∈ visited ∨ ∃ G ∈ buildGroups m entries visited, pe ∈ G.positions) ∧
    List.Pairwise (fun G G2 => ∀ p, p ∈ G.positions → p ∉ G2.positions)
      (buildGroups m entries visited) ∧
    (∀ G ∈ buildGroups m entries visited, ∀ p ∈ G.positions,
      ∀ q, mcAdj m p q → q ∈ G.positions) := by
  intro entries
  induction entries with
  | nil =>
    intro visited hent hclosed
    rw [buildGroups]
    simp
  | cons e rest ih =>
    obtain ⟨k, dat⟩ := e
    intro visited hent hclosed
    rw [buildGroups]
    by_cases hk : k ∈ visited
    · rw [if_pos hk]
      have hent2 : ∀ pe mke, (pe, mke) ∈ rest → pe ∈ mcKeys m :=
        fun pe mke h => hent pe mke (List.mem_cons_of_mem _ h)
      obtain ⟨c1, c2, c3, c4, c5, c6⟩ := ih visited hent2 hclosed
      refine ⟨c1, c2, c3, ?_, c5, c6⟩
      intro pe mke hpe
      rcases List.mem_cons.mp hpe with h | h
      · have : pe = k := (Prod.mk.injEq _ _ _ _ ▸ h).1
        subst this
        exact Or.inl hk
      · exact c4 pe mke h
    · rw [if_neg hk]
      dsimp only
      have hfuel : 5 * ((mcKeys m).filter
            (fun p => !decide (p ∈ visited))).length
          + ([k] : List Pos).length + 1 ≤ 5 * m.length + 2 := by
        have h1 : ((mcKeys m).filter
            (fun p => !decide (p ∈ visited))).length ≤ (mcKeys m).length :=
          List.length_filter_le _ _
        have h2 : (mcKeys m).length = m.length := List.length_map _ _
        simp only [List.length_cons, List.length_nil]
        omega
      have hclosedq : ∀ p, p ∈ visited → (∃ mk, mcGet m p = some mk) →
          ∀ q, mcAdj m p q → q ∈ visited ∨ q ∈ ([k] : List Pos) :=
        fun p hp key q hadj => Or.inl (hclosed p hp key q hadj)
      obtain ⟨⟨Δ, hΔe⟩, habs, hiff, hnd, hcl, hsnd⟩ :=
        bfsGo_spec m (5 * m.length + 2) visited [k] hfuel hclosedq
      have hent2 : ∀ pe mke, (pe, mke) ∈ rest → pe ∈ mcKeys m :=
        fun pe mke h => hent pe mke (List.mem_cons_of_mem _ h)
      obtain ⟨c1, c2, c3, c4, c5, c6⟩ :=
        ih (bfsGo m (5 * m.length + 2) visited [k]).2.2.2.2 hent2 hcl
      have hkkey : ∃ mk0, mcGet m k = some mk0 :=
        mem_keys_mcGet (hent k dat (List.mem_cons_self _ _))
      have hkout : k ∈ (bfsGo m (5 * m.length + 2) visited [k]).1 :=
        (hiff k).mpr ⟨habs k (by simp), hk, hkkey⟩
      have houtv : ∀ p ∈ (bfsGo m (5 * m.length + 2) visited [k]).1,
          p ∈ (bfsGo m (5 * m.length + 2) visited [k]).2.2.2.2 :=
        fun p hp => ((hiff p).mp hp).1
      have houtnv : ∀ p ∈ (bfsGo m (5 * m.length + 2) visited [k]).1,
          p ∉ visited :=
        fun p hp => ((hiff p).mp hp).2.1
      refine ⟨?_, ?_, ?_, ?_, ?_, ?_⟩
      · intro G hG
        rcases List.mem_cons.mp hG with h | h
        · subst h
          exact ⟨rfl, hnd⟩
        · exact c1 G h
      · intro G hG p hp
        rcases List.mem_cons.mp hG with h | h
        · subst h
          exact ⟨((hiff p).mp hp).2.2, houtnv p hp⟩
        · obtain ⟨key, hnv2⟩ := c2 G h p hp
          refine ⟨key, fun hc => hnv2 ?_⟩
          rw [hΔe]
          exact List.mem_append_left _ hc
      · intro G hG p hp q hq
        rcases List.mem_cons.mp hG with h | h
        · subst h
          obtain ⟨q1, hq1, hr1⟩ := hsnd p hp
          obtain ⟨q2, hq2, hr2⟩ := hsnd q hq
          have e1 : q1 = k := by simpa using hq1
          have e2 : q2 = k := by simpa using hq2
          subst e1
          subst e2
          exact mcReach_trans (mcReach_symm hr1) hr2
        · exact c3 G h p hp q hq
      · intro pe mke hpe
        rcases List.mem_cons.mp hpe with h | h
        · have : pe = k := (Prod.mk.injEq _ _ _ _ ▸ h).1
          subst this
          exact Or.inr ⟨_, List.mem_cons_self _ _, hkout⟩
        · rcases c4 pe mke h with h2 | h2
          · by_cases hv : pe ∈ visited
            · exact Or.inl hv
            · refine Or.inr ⟨_, List.mem_cons_self _ _, ?_⟩
              exact (hiff pe).mpr ⟨h2, hv, mem_keys_mcGet (hent2 pe mke h)⟩
          · obtain ⟨G, hG, hpG⟩ := h2
            exact Or.inr ⟨G, List.mem_cons_of_mem _ hG, hpG⟩
      · refine List.pairwise_cons.mpr ⟨?_, c5⟩
        intro G2 hG2 p hpG0
        intro hpG2
        exact (c2 G2 hG2 p hpG2).2 (houtv p hpG0)
      · intro G hG p hp q hadj
        rcases List.mem_cons.mp hG with h | h
        · subst h
          have hqv2 : q ∈ (bfsGo m (5 * m.length + 2) visited [k]).2.2.2.2 :=
            hcl p (houtv p hp) ((hiff p).mp hp).2.2 q hadj
          have hqkey : ∃ mq, mcGet m q = some mq := by
            obtain ⟨-, mp2, mq2, -, hgq, -⟩ := hadj
            exact ⟨mq2, hgq⟩
          have hqnv : q ∉ visited := by
            intro hqv
            exact houtnv p hp (hclosed q hqv hqkey p (mcAdj_symm hadj))
          exact (hiff q).mpr ⟨hqv2, hqnv, hqkey⟩
        · exact c6 G h p hp q hadj

/-- C4: the Match Detector groups matched cells by 4-directional
adjacency restricted to equal type — every reported group's
`effectiveLen` is its actual duplicate-free cell count, its cells are
matched cells lying in one connected component of the flood-fill
adjacency, the groups cover every matched cell exactly once, and each
group absorbs every adjacent equal-typed matched cell, so two touching
parallel runs of one type land in a single group rather than two. -/
theorem C4_group_unification (board : Board) (rows cols : Nat) :
    (∀ G ∈ findMatches board rows cols,
      G.effectiveLen = G.positions.length ∧ G.positions.Nodup) ∧
    (∀ G ∈ findMatches board rows cols, ∀ p ∈ G.positions,
      ∃ mk, mcGet (buildMatchedCells board rows cols) p = some mk) ∧
    (∀ G ∈ findMatches board rows cols, ∀ p ∈ G.positions,
      ∀ q ∈ G.positions, mcReach (buildMatchedCells board rows cols) p q) ∧
    (∀ p ∈ mcKeys (buildMatchedCells board rows cols),
      ∃ G ∈ findMatches board rows cols, p ∈ G.positions) ∧
    List.Pairwise (fun G G2 => ∀ p, p ∈ G.positions → p ∉ G2.positions)
      (findMatches board rows cols) ∧
    (∀ G ∈ findMatches board rows cols, ∀ p ∈ G.positions,
      ∀ q, mcAdj (buildMatchedCells board rows cols) p q →
        q ∈ G.positions) := by
  rw [findMatches]
  by_cases hm : buildMatchedCells board rows cols = []
  · rw [hm]
    simp [mcKeys]
  · rw [if_neg hm]
    have hent : ∀ pe mke, (pe, mke) ∈ buildMatchedCells board rows cols →
        pe ∈ mcKeys (buildMatchedCells board rows cols) := by
      intro pe mke h
      exact List.mem_map_of_mem (fun e => e.1) h
    have hclosed : ∀ p, p ∈ ([] : List Pos) →
        (∃ mk, mcGet (buildMatchedCells board rows cols) p = some mk) →
        ∀ q, mcAdj (buildMatchedCells board rows cols) p q →
          q ∈ ([] : List Pos) := by
      intro p hp
      simp at hp
    obtain ⟨c1, c2, c3, c4, c5, c6⟩ :=
      buildGroups_spec (buildMatchedCells board rows cols)
        (buildMatchedCells board rows cols) [] hent hclosed
    refine ⟨c1, fun G hG p hp => (c2 G hG p hp).1, c3, ?_, c5, c6⟩
    intro p hp
    obtain ⟨e, he, hfst⟩ := List.mem_map.mp hp
    have he2 : (p, e.2) ∈ buildMatchedCells board rows cols := by
      rw [show (p, e.2) = e from Prod.ext hfst.symm rfl]
      exact he
    rcases c4 p e.2 he2 with h | h
    · simp at h
    · exact h

/-- Witness: `C4_group_unification`'s cover conjunct on the two
stacked horizontal 3-runs: the matched cell `(0,0)` lies in a reported
group (and the detector reports exactly one 6-cell group there). -/
theorem C4_group_unification_witness :
    (∃ G ∈ findMatches stackedBoard 2 3, (⟨0, 0⟩ : Pos) ∈ G.positions) ∧
    (findMatches stackedBoard 2 3).map
        (fun G => (G.positions.length, G.effectiveLen)) = [(6, 6)] :=
  ⟨(C4_group_unification stackedBoard 2 3).2.2.2.1 ⟨0, 0⟩ (by decide),
   by decide⟩


lemma mem_addPos_self (s : List Pos) (p : Pos) : p ∈ addPos s p := by
  unfold addPos
  split
  · assumption
  · simp

lemma mem_addPos_of_mem (s : List Pos) (p q : Pos) (h : q ∈ s) :
    q ∈ addPos s p := by
  unfold addPos
  split
  · exact h
  · exact List.mem_append_left _ h

lemma foldl_pairAdd_mono {α : Type}
    (f : (List Pos × List (Pos × RemovalAnim)) → α
      → (List Pos × List (Pos × RemovalAnim)))
    (hf : ∀ acc a x, x ∈ acc.1 → x ∈ (f acc a).1) (l : List α)
    (acc : List Pos × List (Pos × RemovalAnim)) (x : Pos) (h : x ∈ acc.1) :
    x ∈ (l.foldl f acc).1 := by
  induction l generalizing acc with
  | nil => exact h
  | cons a rest ih => exact ih _ (hf acc a x h)

lemma foldl_pairAdd_hit {α : Type}
    (f : (List Pos × List (Pos × RemovalAnim)) → α
      → (List Pos × List (Pos × RemovalAnim)))
    (hf : ∀ acc a x, x ∈ acc.1 → x ∈ (f acc a).1) (l : List α) (a : α)
    (ha : a ∈ l) (x : Pos) (hhit : ∀ acc, x ∈ (f acc a).1)
    (acc : List Pos × List (Pos × RemovalAnim)) :
    x ∈ (l.foldl f acc).1 := by
  induction l generalizing acc with
  | nil => simp at ha
  | cons b rest ih =>
    rcases List.mem_cons.mp ha with hb | hb
    · subst hb
      exact foldl_pairAdd_mono f hf rest _ x (hhit acc)
    · exact ih hb _

lemma rainbowPlainSets_cover (board : Board) (rows cols tT rT : Nat)
    (rp : Pos) :
    (∀ r c g, r < rows → c < cols → getCell board r c = some g →
      (g.type = tT ∨ g.type = rT) →
      (⟨r, c⟩ : Pos) ∈ (rainbowPlainSets board rows cols tT rT rp).1) ∧
    rp ∈ (rainbowPlainSets board rows cols tT rT rp).1 := by
  have hinner_mono : ∀ r : Nat, ∀ acc a (x : Pos), x ∈ acc.1 →
      x ∈ ((fun (acc2 : List Pos × List (Pos × RemovalAnim)) (c : Nat) =>
        if (getCell board r c).map Cell.type = some tT ∨
            (getCell board r c).map Cell.type = some rT then
          addSet acc2.1 acc2.2 ⟨r, c⟩ RemovalAnim.rainbowCleared
        else acc2) acc a).1 := by
    intro r acc a x h
    dsimp only
    split
    · exact mem_addPos_of_mem _ _ _ h
    · exact h
  have houter_mono : ∀ acc a (x : Pos), x ∈ acc.1 →
      x ∈ ((fun (acc : List Pos × List (Pos × RemovalAnim)) (r : Nat) =>
        (List.range cols).foldl
          (fun acc2 c =>
            if (getCell board r c).map Cell.type = some tT ∨
                (getCell board r c).map Cell.type = some rT then
              addSet acc2.1 acc2.2 ⟨r, c⟩ RemovalAnim.rainbowCleared
            else acc2) acc) acc a).1 := by
    intro acc a x h
    exact foldl_pairAdd_mono _ (hinner_mono a) _ _ _ h
  constructor
  · intro r c g hr hc hg ht
    rw [rainbowPlainSets]
    apply mem_addPos_of_mem
    apply foldl_pairAdd_hit _ houter_mono _ r (List.mem_range.mpr hr)
    intro acc
    apply foldl_pairAdd_hit _ (hinner_mono r) _ c (List.mem_range.mpr hc)
    intro acc2
    dsimp only
    rw [if_pos (by rw [hg]; simpa using ht)]
    exact mem_addPos_self _ _
  · rw [rainbowPlainSets]
    exact mem_addPos_self _ _

lemma chainAdd_toRemove_mono (st : ChainState) (q : Pos) (a : RemovalAnim)
    (p : Pos) (h : p ∈ st.toRemove) : p ∈ (chainAdd st q a).toRemove := by
  unfold chainAdd
  split
  · exact h
  · exact List.mem_append_left _ h

lemma foldl_toRemove_mono {α : Type} (f : ChainState → α → ChainState)
    (hf : ∀ st a p, p ∈ st.toRemove → p ∈ (f st a).toRemove)
    (l : List α) (st : ChainState) (p : Pos) (h : p ∈ st.toRemove) :
    p ∈ (l.foldl f st).toRemove := by
  induction l generalizing st with
  | nil => exact h
  | cons a rest ih => exact ih _ (hf st a p h)

lemma processKey_toRemove_mono (board : Board) (rows cols : Nat)
    (st : ChainState) (key : Pos) (p : Pos) (h : p ∈ st.toRemove) :
    p ∈ (processKey board rows cols st key).toRemove := by
  unfold processKey
  cases getCell board key.r key.c with
  | none => exact h
  | some g =>
    obtain ⟨t, sp, di⟩ := g
    cases sp with
    | none => exact h
    | some sk =>
      dsimp only
      split
      · exact h
      · cases sk with
        | bomb =>
          dsimp only
          apply foldl_toRemove_mono
          · intro st2 a q hq
            dsimp only
            split
            · exact chainAdd_toRemove_mono _ _ _ _ hq
            · exact hq
          · exact h
        | line =>
          dsimp only
          split
          · split
            · apply foldl_toRemove_mono _
                (fun st2 a q hq => chainAdd_toRemove_mono _ _ _ _ hq)
              apply foldl_toRemove_mono _
                (fun st2 a q hq => chainAdd_toRemove_mono _ _ _ _ hq)
              exact h
            · apply foldl_toRemove_mono _
                (fun st2 a q hq => chainAdd_toRemove_mono _ _ _ _ hq)
              exact h
          · split
            · apply foldl_toRemove_mono _
                (fun st2 a q hq => chainAdd_toRemove_mono _ _ _ _ hq)
              exact h
            · exact h
        | rainbow =>
          dsimp only
          apply foldl_toRemove_mono
          · intro st2 a q hq
            apply foldl_toRemove_mono
            · intro st3 b q2 hq2
              dsimp only
              split
              · exact chainAdd_toRemove_mono _ _ _ _ hq2
              · exact hq2
            · exact hq
          · exact h

lemma chainLoop_toRemove_mono (board : Board) (rows cols : Nat) :
    ∀ (n : Nat) (st : ChainState) (p : Pos), p ∈ st.toRemove →
      p ∈ (chainLoop board rows cols n st).toRemove := by
  intro n
  induction n with
  | zero => intro st p h; exact h
  | succ n ih =>
    intro st p h
    rw [chainLoop]
    split
    · exact h
    · exact ih _ _ (foldl_toRemove_mono _
        (fun st2 a q hq => processKey_toRemove_mono _ _ _ _ _ _ hq) _ _ _ h)

lemma activateSpecials_toRemove_mono (board : Board) (rows cols : Nat)
    (toRemove : List Pos) (anims : List (Pos × RemovalAnim))
    (effects : List Effect) (processed : List Pos) (p : Pos)
    (h : p ∈ toRemove) :
    p ∈ (activateSpecials board rows cols toRemove anims effects
      processed).toRemove :=
  chainLoop_toRemove_mono board rows cols 20 _ p h

lemma processMatches_frames (fuel : Nat) (st : EngineState)
    (frames : List Frame) (st1 : EngineState) (frames1 : List Frame)
    (pts : Nat) (h : processMatches fuel st frames = some (st1, frames1, pts)) :
    ∃ Δ, frames1 = frames ++ Δ := by
  unfold processMatches at h
  cases hgo : processMatchesGo st.rows st.cols st.gemTypes fuel
      (st.board, st.rng, st.lastSwapPos) frames 0 with
  | none => rw [hgo] at h; exact absurd h (by simp)
  | some out =>
    obtain ⟨r2, f2, p2⟩ := out
    rw [hgo] at h
    simp only [Option.some.injEq, Prod.mk.injEq] at h
    obtain ⟨-, h2, -⟩ := h
    subst h2
    obtain ⟨Δ, hΔ, -, -⟩ := pmGo_frames_spec st.rows st.cols st.gemTypes fuel
      _ frames 0 _ _ _ hgo
    exact ⟨Δ, hΔ⟩

lemma cascadeAndCheck_frames (fuel : Nat) (st : EngineState)
    (frames : List Frame) (st2 : EngineState) (frames2 : List Frame)
    (a b : Nat) (rg : Bool)
    (h : cascadeAndCheck fuel st frames = some (st2, frames2, a, b, rg)) :
    ∃ Δ, frames2 = frames ++ Δ := by
  unfold cascadeAndCheck at h
  cases hpm : processMatches fuel st frames with
  | none => rw [hpm] at h; exact absurd h (by simp)
  | some out =>
    obtain ⟨st1, f1, pts⟩ := out
    rw [hpm] at h
    dsimp only at h
    obtain ⟨Δ1, hΔ1⟩ := processMatches_frames fuel st frames st1 f1 pts hpm
    split at h
    · cases hsh : shuffleGo 11 fuel st1 0 with
      | none => rw [hsh] at h; exact absurd h (by simp)
      | some out2 =>
        obtain ⟨st3, fS, ptsS, rg2⟩ := out2
        rw [hsh] at h
        simp only [Option.some.injEq, Prod.mk.injEq] at h
        obtain ⟨-, h2, -⟩ := h
        subst h2
        exact ⟨Δ1 ++ fS, by rw [hΔ1, List.append_assoc]⟩
    · simp only [Option.some.injEq, Prod.mk.injEq] at h
      obtain ⟨-, h2, -⟩ := h
      subst h2
      exact ⟨Δ1, hΔ1⟩

lemma comboFinish_spec (fuel : Nat) (st : EngineState) (frames : List Frame)
    (cs : ChainState) (points : Nat) (st2 : EngineState)
    (rr : ResolveResult) (regen : Bool)
    (h : comboFinish fuel st frames cs points = some (st2, rr, regen)) :
    rr.moveValid = true ∧
    ∃ rest, rr.frames = frames
      ++ Frame.removeF cs.toRemove cs.anims cs.effects
          ⟨points, 1, ⟨points, 0, 1⟩, true⟩
      :: Frame.boardF (removePositions st.board cs.toRemove) [] :: rest := by
  unfold comboFinish at h
  dsimp only at h
  cases hcc : cascadeAndCheck fuel
      { st with
        board := (fillGems (dropGems (removePositions st.board cs.toRemove)
          st.rows st.cols).1 st.rows st.cols st.gemTypes st.rng).1,
        rng := (fillGems (dropGems (removePositions st.board cs.toRemove)
          st.rows st.cols).1 st.rows st.cols st.gemTypes st.rng).2.1 }
      (if (fillGems (dropGems (removePositions st.board cs.toRemove)
            st.rows st.cols).1 st.rows st.cols st.gemTypes st.rng).2.2 then
        (if (dropGems (removePositions st.board cs.toRemove)
              st.rows st.cols).2 then
          (frames ++ [Frame.removeF cs.toRemove cs.anims cs.effects
              ⟨points, 1, ⟨points, 0, 1⟩, true⟩]
            ++ [Frame.boardF (removePositions st.board cs.toRemove) []])
          ++ [Frame.dropF (dropGems (removePositions st.board cs.toRemove)
              st.rows st.cols).1]
        else
          (frames ++ [Frame.removeF cs.toRemove cs.anims cs.effects
              ⟨points, 1, ⟨points, 0, 1⟩, true⟩]
            ++ [Frame.boardF (removePositions st.board cs.toRemove) []]))
        ++ [Frame.fillF (fillGems (dropGems (removePositions st.board
            cs.toRemove) st.rows st.cols).1 st.rows st.cols st.gemTypes
            st.rng).1]
      else
        (if (dropGems (removePositions st.board cs.toRemove)
              st.rows st.cols).2 then
          (frames ++ [Frame.removeF cs.toRemove cs.anims cs.effects
              ⟨points, 1, ⟨points, 0, 1⟩, true⟩]
            ++ [Frame.boardF (removePositions st.board cs.toRemove) []])
          ++ [Frame.dropF (dropGems (removePositions st.board cs.toRemove)
              st.rows st.cols).1]
        else
          (frames ++ [Frame.removeF cs.toRemove cs.anims cs.effects
              ⟨points, 1, ⟨points, 0, 1⟩, true⟩]
            ++ [Frame.boardF (removePositions st.board cs.toRemove) []]))) with
  | none => rw [hcc] at h; exact absurd h (by simp)
  | some out =>
    obtain ⟨st3, f5, cp, sp2, rg2⟩ := out
    rw [hcc] at h
    simp only [Option.some.injEq, Prod.mk.injEq] at h
    obtain ⟨-, h2, -⟩ := h
    obtain ⟨Δ, hΔ⟩ := cascadeAndCheck_frames _ _ _ _ _ _ _ _ hcc
    refine ⟨by rw [← h2], ?_⟩
    rw [← h2]
    dsimp only
    rw [hΔ]
    split_ifs <;>
      exact ⟨_, by
        simp only [List.append_assoc, List.cons_append,
          List.singleton_append, List.nil_append]
        rfl⟩


lemma centroidDist_scale_iff (n sr sc a b a2 b2 : ℤ) (hn : 0 < n) :
    (((a : ℚ) - (sr : ℚ) / (n : ℚ)) ^ 2 + ((b : ℚ) - (sc : ℚ) / (n : ℚ)) ^ 2
      < ((a2 : ℚ) - (sr : ℚ) / (n : ℚ)) ^ 2
        + ((b2 : ℚ) - (sc : ℚ) / (n : ℚ)) ^ 2)
    ↔ ((a * n - sr) ^ 2 + (b * n - sc) ^ 2
      < (a2 * n - sr) ^ 2 + (b2 * n - sc) ^ 2) := by
  have hnq : (0 : ℚ) < (n : ℚ) := by exact_mod_cast hn
  have hkey : ∀ x s : ℤ,
      ((x : ℚ) - (s : ℚ) / (n : ℚ)) = ((x * n - s : ℤ) : ℚ) / (n : ℚ) := by
    intro x s
    push_cast
    field_simp
  rw [hkey, hkey, hkey, hkey, div_pow, div_pow, div_pow, div_pow,
    div_add_div_same, div_add_div_same,
    div_lt_div_iff₀ (by positivity) (by positivity),
    mul_lt_mul_right (by positivity)]
  exact_mod_cast Iff.rfl

lemma swap_tail_inv (X : Option (EngineState × ResolveResult × Bool))
    (st' : EngineState) (res : ResolveResult) (regen : Bool)
    (h : (match X with
      | none => none
      | some (stf, r2, rg) =>
        some ({ stf with lastSwapPos := none }, r2, rg))
      = some (st', res, regen)) :
    ∃ stf, X = some (stf, res, regen)
      ∧ st' = { stf with lastSwapPos := none } := by
  cases X with
  | none => exact absurd h (by simp)
  | some out =>
    obtain ⟨stf, r2, rg⟩ := out
    simp only [Option.some.injEq, Prod.mk.injEq] at h
    obtain ⟨h1, h2, h3⟩ := h
    exact ⟨stf, by rw [h2, h3], h1.symm⟩

/-- C5: swapping a rainbow (wildcard) with a plain cell removes, on the
swapped board, every in-range cell of the rainbow's stored colour and
every cell of the partner's colour, plus the wildcard cell itself; the
move is reported valid, and the remove frame is followed by the board
frame of the cleared board (then drop/fill/cascade frames). -/
theorem C5_rainbow_plain (fuel : Nat) (st : EngineState) (pos1 pos2 : Pos)
    (g1 g2 : Cell) (st' : EngineState) (res : ResolveResult) (regen : Bool)
    (hg1 : getCell st.board pos1.r pos1.c = some g1)
    (hg2 : getCell st.board pos2.r pos2.c = some g2)
    (hrb : (g1.special = some SpecialKind.rainbow ∧ g2.special = none) ∨
      (g1.special = none ∧ g2.special = some SpecialKind.rainbow))
    (hswap : swapFuel fuel st pos1 pos2 = some (st', res, regen)) :
    res.moveValid = true ∧
    ∃ toRm anims fx sc rest,
      res.frames
        = Frame.swapF (boardSwap st.board pos1.r pos1.c pos2.r pos2.c)
          :: Frame.removeF toRm anims fx sc
          :: Frame.boardF (removePositions
              (boardSwap st.board pos1.r pos1.c pos2.r pos2.c) toRm) []
          :: rest ∧
      (∀ r c g, r < st.rows → c < st.cols →
        getCell (boardSwap st.board pos1.r pos1.c pos2.r pos2.c) r c
          = some g →
        g.type = g1.type ∨ g.type = g2.type → (⟨r, c⟩ : Pos) ∈ toRm) ∧
      (if g1.special = some SpecialKind.rainbow then pos2 else pos1)
        ∈ toRm := by
  rw [swapFuel] at hswap
  rw [hg1, hg2] at hswap
  dsimp only at hswap
  rcases hrb with ⟨h1r, h2p⟩ | ⟨h1p, h2r⟩
  · rw [h1r, h2p] at hswap
    rw [if_neg (by simp)] at hswap
    rw [if_pos (Or.inl rfl)] at hswap
    simp only [eq_self_iff_true, if_true] at hswap
    obtain ⟨stf, hcf, hst'⟩ := swap_tail_inv _ _ _ _ hswap
    obtain ⟨hmv, rest, hfr⟩ := comboFinish_spec _ _ _ _ _ _ _ _ hcf
    exact ⟨hmv, _, _, _, _, rest,
      by rw [hfr]; rfl,
      fun r c g hr hc hgc ht =>
        activateSpecials_toRemove_mono _ _ _ _ _ _ _ _
          ((rainbowPlainSets_cover (boardSwap st.board pos1.r pos1.c
            pos2.r pos2.c) st.rows st.cols g2.type g1.type pos2).1 r c g hr
            hc hgc ht.symm),
      by
        rw [h1r, if_pos rfl]
        exact activateSpecials_toRemove_mono _ _ _ _ _ _ _ _
          ((rainbowPlainSets_cover (boardSwap st.board pos1.r pos1.c
            pos2.r pos2.c) st.rows st.cols g2.type g1.type pos2).2)⟩
  · rw [h1p, h2r] at hswap
    rw [if_neg (by simp)] at hswap
    rw [if_pos (Or.inr rfl)] at hswap
    simp only [reduceCtorEq, if_false] at hswap
    obtain ⟨stf, hcf, hst'⟩ := swap_tail_inv _ _ _ _ hswap
    obtain ⟨hmv, rest, hfr⟩ := comboFinish_spec _ _ _ _ _ _ _ _ hcf
    exact ⟨hmv, _, _, _, _, rest,
      by rw [hfr]; rfl,
      fun r c g hr hc hgc ht =>
        activateSpecials_toRemove_mono _ _ _ _ _ _ _ _
          ((rainbowPlainSets_cover (boardSwap st.board pos1.r pos1.c
            pos2.r pos2.c) st.rows st.cols g1.type g2.type pos1).1 r c g hr
            hc hgc ht),
      by
        rw [h1p, if_neg (by simp)]
        exact activateSpecials_toRemove_mono _ _ _ _ _ _ _ _
          ((rainbowPlainSets_cover (boardSwap st.board pos1.r pos1.c
            pos2.r pos2.c) st.rows st.cols g1.type g2.type pos1).2)⟩


set_option maxRecDepth 40000 in
/-- Witness: `C5_rainbow_plain` on the 4-by-4 fixture `c5State`,
swapping the rainbow at `(0,0)` with the plain type-1 cell at `(0,1)`:
the move is valid. -/
theorem C5_rainbow_plain_witness :
    ((swapFuel 10 c5State ⟨0, 0⟩ ⟨0, 1⟩).getD
      (c5State, ⟨[], 0, false⟩, false)).2.1.moveValid = true :=
  (C5_rainbow_plain 10 c5State ⟨0, 0⟩ ⟨0, 1⟩
    ⟨0, some SpecialKind.rainbow, none⟩ ⟨1, none, none⟩
    ((swapFuel 10 c5State ⟨0, 0⟩ ⟨0, 1⟩).getD
      (c5State, ⟨[], 0, false⟩, false)).1
    ((swapFuel 10 c5State ⟨0, 0⟩ ⟨0, 1⟩).getD
      (c5State, ⟨[], 0, false⟩, false)).2.1
    ((swapFuel 10 c5State ⟨0, 0⟩ ⟨0, 1⟩).getD
      (c5State, ⟨[], 0, false⟩, false)).2.2
    (by decide) (by decide) (Or.inl ⟨rfl, rfl⟩) (by decide)).1


lemma foldl_pred_mono {β α : Type} (f : β → α → β) (P : β → Prop)
    (hP : ∀ acc a, P acc → P (f acc a)) (l : List α) :
    ∀ init, P init → P (l.foldl f init) := by
  induction l with
  | nil => intro init h; exact h
  | cons a rest ih => intro init h; exact ih _ (hP init a h)

lemma foldl_inv_hit {β α : Type} (f : β → α → β) (inv P : β → Prop)
    (hinv : ∀ acc a, inv acc → inv (f acc a))
    (hP : ∀ acc a, P acc → P (f acc a))
    (l : List α) (a : α) (ha : a ∈ l)
    (hhit : ∀ acc, inv acc → P (f acc a)) :
    ∀ init, inv init → P (l.foldl f init) := by
  induction l with
  | nil => intro init h; simp at ha
  | cons b rest ih =>
    intro init h
    rcases List.mem_cons.mp ha with hb | hb
    · subst hb
      exact foldl_pred_mono f P hP rest _ (hhit init h)
    · exact ih hb _ (hinv init b h)

lemma boardShaped_setCell {b : Board} {rows cols : Nat}
    (hb : boardShaped b rows cols) (r c : Nat) (v : Option Cell) :
    boardShaped (setCell b r c v) rows cols := by
  obtain ⟨h1, h2⟩ := hb
  refine ⟨by rw [length_setCell, h1], ?_⟩
  intro row hrow
  obtain ⟨i, hi, rfl⟩ := List.getElem_of_mem hrow
  have hlen : (((setCell b r c v).getD i []).length) = cols := by
    rw [rowLen_setCell]
    rw [length_setCell] at hi
    have : b.getD i [] = b[i] := by
      simp [List.getD_eq_getElem?_getD, List.getElem?_eq_getElem hi]
    rw [this]
    exact h2 _ (List.getElem_mem hi)
  rw [List.getD_eq_getElem?_getD, List.getElem?_eq_getElem hi] at hlen
  exact hlen

lemma boardShaped_removePositions {b : Board} {rows cols : Nat}
    (hb : boardShaped b rows cols) (ps : List Pos) :
    boardShaped (removePositions b ps) rows cols := by
  rw [removePositions]
  exact foldl_pred_mono _ (fun b2 => boardShaped b2 rows cols)
    (fun b2 p h => boardShaped_setCell h _ _ _) ps b hb

lemma boardShaped_placeSpecials {b : Board} {rows cols : Nat}
    (hb : boardShaped b rows cols) (sps : List SpecialQueued) :
    boardShaped (placeSpecials b sps).1 rows cols := by
  rw [placeSpecials]
  dsimp only
  have := foldl_pred_mono
    (fun (acc : Board × List Pos × List Pos) sp =>
      if sp.pos ∈ acc.2.1 then acc
      else
        match getCell acc.1 sp.pos.r sp.pos.c with
        | some _ => acc
        | none =>
          (setCell acc.1 sp.pos.r sp.pos.c
             (some ⟨sp.type, some sp.special, sp.direction⟩),
           acc.2.1 ++ [sp.pos], acc.2.2 ++ [sp.pos]))
    (fun acc => boardShaped acc.1 rows cols) ?_ sps (b, [], []) hb
  · exact this
  · intro acc a h
    dsimp only
    split
    · exact h
    · split
      · exact h
      · exact boardShaped_setCell h _ _ _

lemma boardShaped_dropGems {b : Board} {rows cols : Nat}
    (hb : boardShaped b rows cols) :
    boardShaped (dropGems b rows cols).1 rows cols := by
  obtain ⟨h1, h2, h3, h4⟩ := dropGems_inv b rows cols hb cols (le_refl cols)
  have hdg : dropGems b rows cols
      = (List.range cols).foldl (dropStep rows) (b, false) := rfl
  rw [hdg]
  refine ⟨h1, ?_⟩
  intro row hrow
  obtain ⟨i, hi, rfl⟩ := List.getElem_of_mem hrow
  have hlen : ((((List.range cols).foldl (dropStep rows)
      (b, false)).1.getD i []).length) = cols := by
    rw [h2]
    exact rowLen_of_shaped hb (by rw [h1] at hi; exact hi)
  rw [List.getD_eq_getElem?_getD, List.getElem?_eq_getElem hi] at hlen
  exact hlen

lemma getCell_setCell_isSome {b : Board} {r c : Nat} (r2 c2 : Nat)
    (v : Cell) (h : (getCell b r c).isSome = true) :
    (getCell (setCell b r2 c2 (some v)) r c).isSome = true := by
  by_cases he : r = r2 ∧ c = c2
  · obtain ⟨e1, e2⟩ := he
    subst e1
    subst e2
    obtain ⟨hb1, hb2⟩ := getCell_isSome_bounds h
    rw [getCell_setCell_eq _ _ _ _ hb1 hb2]
    rfl
  · rw [getCell_setCell_ne _ _ _ _ _ _ (by tauto)]
    exact h

lemma fillGems_shape_full (rows cols gemTypes : Nat) (board : Board)
    (rng : Nat) (hb : boardShaped board rows cols) :
    boardShaped (fillGems board rows cols gemTypes rng).1 rows cols ∧
    boardFull (fillGems board rows cols gemTypes rng).1 rows cols := by
  have hstep_shape : ∀ (acc : Board × Nat × Bool) (rc : Nat × Nat),
      boardShaped acc.1 rows cols →
      boardShaped (match getCell acc.1 rc.2 rc.1 with
        | some _ => acc
        | none =>
          (setCell acc.1 rc.2 rc.1
            (some ⟨(rngInt acc.2.1 gemTypes).2, none, none⟩),
           (rngInt acc.2.1 gemTypes).1, true)).1 rows cols := by
    intro acc rc h
    split
    · exact h
    · exact boardShaped_setCell h _ _ _
  constructor
  · rw [fillGems]
    apply foldl_pred_mono _ (fun (acc : Board × Nat × Bool) =>
      boardShaped acc.1 rows cols)
    · intro acc c h
      apply foldl_pred_mono _ (fun (acc2 : Board × Nat × Bool) =>
        boardShaped acc2.1 rows cols)
      · intro acc2 r h2
        exact hstep_shape acc2 (c, r) h2
      · exact h
    · exact hb
  · intro r hr c hc
    rw [fillGems]
    refine foldl_inv_hit _
      (fun (acc : Board × Nat × Bool) => boardShaped acc.1 rows cols)
      (fun (acc : Board × Nat × Bool) => (getCell acc.1 r c).isSome = true)
      ?_ ?_ (List.range cols) c (List.mem_range.mpr hc) ?_
      (board, rng, false) hb
    · intro acc a h
      apply foldl_pred_mono _ (fun (acc2 : Board × Nat × Bool) =>
        boardShaped acc2.1 rows cols)
      · intro acc2 b2 h2
        dsimp only
        split
        · exact h2
        · exact boardShaped_setCell h2 _ _ _
      · exact h
    · intro acc a h
      apply foldl_pred_mono _ (fun (acc2 : Board × Nat × Bool) =>
        (getCell acc2.1 r c).isSome = true)
      · intro acc2 b2 h2
        dsimp only
        split
        · exact h2
        · exact getCell_setCell_isSome _ _ _ h2
      · exact h
    · intro acc hacc
      refine foldl_inv_hit _
        (fun (acc2 : Board × Nat × Bool) => boardShaped acc2.1 rows cols)
        (fun (acc2 : Board × Nat × Bool) =>
          (getCell acc2.1 r c).isSome = true)
        ?_ ?_ (List.range rows) r (List.mem_range.mpr hr) ?_ acc hacc
      · intro acc2 b2 h2
        dsimp only
        split
        · exact h2
        · exact boardShaped_setCell h2 _ _ _
      · intro acc2 b2 h2
        dsimp only
        split
        · exact h2
        · exact getCell_setCell_isSome _ _ _ h2
      · intro acc2 hacc2
        dsimp only
        cases hcell : getCell acc2.1 r c with
        | some g =>
          simp only [hcell]
          rfl
        | none =>
          simp only [hcell]
          rw [getCell_setCell_eq _ _ _ _
            (by rw [hacc2.1]; exact hr)
            (by rw [rowLen_of_shaped hacc2 hr]; exact hc)]
          rfl


lemma cascadeStep_shape_full (rows cols gemTypes : Nat)
    (st : Board × Nat × Option SwapRec) (frames : List Frame) (k : Nat)
    (hb : boardShaped st.1 rows cols) :
    boardShaped (cascadeStep rows cols gemTypes st frames k).1.1 rows cols ∧
    boardFull (cascadeStep rows cols gemTypes st frames k).1.1 rows cols := by
  rw [cascadeStep]
  dsimp only
  exact fillGems_shape_full rows cols gemTypes _ _
    (boardShaped_dropGems (boardShaped_placeSpecials
      (boardShaped_removePositions hb _) _))

lemma pmGo_post (rows cols gemTypes : Nat) : ∀ (fuel : Nat)
    (st : Board × Nat × Option SwapRec) (frames : List Frame) (combo : Nat)
    (st' : Board × Nat × Option SwapRec) (frames' : List Frame) (pts : Nat),
    processMatchesGo rows cols gemTypes fuel st frames combo
      = some (st', frames', pts) →
    findMatches st'.1 rows cols = [] ∧
    (boardShaped st.1 rows cols → boardShaped st'.1 rows cols) ∧
    (boardShaped st.1 rows cols → boardFull st.1 rows cols →
      boardFull st'.1 rows cols) := by
  intro fuel
  induction fuel with
  | zero =>
    intro st frames combo st' frames' pts h
    exact absurd h (by simp [processMatchesGo])
  | succ n ih =>
    intro st frames combo st' frames' pts h
    rw [processMatchesGo] at h
    by_cases hms : findMatches st.1 rows cols = []
    · rw [if_pos hms] at h
      simp only [Option.some.injEq, Prod.mk.injEq] at h
      obtain ⟨h1, -, -⟩ := h
      subst h1
      exact ⟨hms, fun hb => hb, fun hb hf => hf⟩
    · rw [if_neg hms] at h
      dsimp only at h
      cases hrec : processMatchesGo rows cols gemTypes n
          (cascadeStep rows cols gemTypes st frames (combo + 1)).1
          (cascadeStep rows cols gemTypes st frames (combo + 1)).2.1
          (combo + 1) with
      | none => rw [hrec] at h; exact absurd h (by simp)
      | some out =>
        obtain ⟨stR, framesR, restR⟩ := out
        rw [hrec] at h
        simp only [Option.some.injEq, Prod.mk.injEq] at h
        obtain ⟨h1, -, -⟩ := h
        subst h1
        obtain ⟨hml, hsh, hfu⟩ := ih _ _ _ _ _ _ hrec
        refine ⟨hml, ?_, ?_⟩
        · intro hb
          exact hsh (cascadeStep_shape_full rows cols gemTypes st frames
            (combo + 1) hb).1
        · intro hb hf
          have hcs := cascadeStep_shape_full rows cols gemTypes st frames
            (combo + 1) hb
          exact hfu hcs.1 hcs.2

lemma processMatches_post (fuel : Nat) (st : EngineState)
    (frames : List Frame) (st1 : EngineState) (frames1 : List Frame)
    (pts : Nat)
    (h : processMatches fuel st frames = some (st1, frames1, pts)) :
    st1.rows = st.rows ∧ st1.cols = st.cols ∧ st1.gemTypes = st.gemTypes ∧
    st1.lastSwapPos = st.lastSwapPos ∧
    findMatches st1.board st.rows st.cols = [] ∧
    (boardShaped st.board st.rows st.cols →
      boardShaped st1.board st.rows st.cols) ∧
    (boardShaped st.board st.rows st.cols →
      boardFull st.board st.rows st.cols →
      boardFull st1.board st.rows st.cols) := by
  unfold processMatches at h
  cases hgo : processMatchesGo st.rows st.cols st.gemTypes fuel
      (st.board, st.rng, st.lastSwapPos) frames 0 with
  | none => rw [hgo] at h; exact absurd h (by simp)
  | some out =>
    obtain ⟨res, f2, p2⟩ := out
    rw [hgo] at h
    simp only [Option.some.injEq, Prod.mk.injEq] at h
    obtain ⟨h1, -, -⟩ := h
    subst h1
    obtain ⟨hml, hsh, hfu⟩ := pmGo_post st.rows st.cols st.gemTypes fuel
      _ frames 0 _ _ _ hgo
    exact ⟨rfl, rfl, rfl, rfl, hml, hsh, hfu⟩


lemma wsInner_go (gems : List Cell) (oldPositions : List (Pos × Nat))
    (r : Nat) : ∀ (m : Nat) (acc : Board × List ShuffleMove × Nat),
    (((List.range m).foldl
      (fun (acc2 : Board × List ShuffleMove × Nat) c =>
        let (b, moves, idx) := acc2
        let b2 := setCell b r c (gems.get? idx)
        let moves2 :=
          match oldPositions.get? idx, gems.get? idx with
          | some old, some g => moves ++ [⟨old.1, ⟨r, c⟩, g.type⟩]
          | _, _ => moves
        (b2, moves2, idx + 1))
      acc).2.2 = acc.2.2 + m) ∧
    (((List.range m).foldl
      (fun (acc2 : Board × List ShuffleMove × Nat) c =>
        let (b, moves, idx) := acc2
        let b2 := setCell b r c (gems.get? idx)
        let moves2 :=
          match oldPositions.get? idx, gems.get? idx with
          | some old, some g => moves ++ [⟨old.1, ⟨r, c⟩, g.type⟩]
          | _, _ => moves
        (b2, moves2, idx + 1))
      acc).1.length = acc.1.length) ∧
    (∀ r2, ((((List.range m).foldl
      (fun (acc2 : Board × List ShuffleMove × Nat) c =>
        let (b, moves, idx) := acc2
        let b2 := setCell b r c (gems.get? idx)
        let moves2 :=
          match oldPositions.get? idx, gems.get? idx with
          | some old, some g => moves ++ [⟨old.1, ⟨r, c⟩, g.type⟩]
          | _, _ => moves
        (b2, moves2, idx + 1))
      acc).1.getD r2 []).length) = ((acc.1.getD r2 []).length)) ∧
    (∀ r2 c2, r < acc.1.length → m ≤ (acc.1.getD r []).length →
      getCell (((List.range m).foldl
        (fun (acc2 : Board × List ShuffleMove × Nat) c =>
          let (b, moves, idx) := acc2
          let b2 := setCell b r c (gems.get? idx)
          let moves2 :=
            match oldPositions.get? idx, gems.get? idx with
            | some old, some g => moves ++ [⟨old.1, ⟨r, c⟩, g.type⟩]
            | _, _ => moves
          (b2, moves2, idx + 1))
        acc).1) r2 c2
      = if r2 = r ∧ c2 < m then gems.get? (acc.2.2 + c2)
        else getCell acc.1 r2 c2) := by
  intro m
  induction m with
  | zero =>
    intro acc
    refine ⟨by simp, by simp, fun r2 => by simp, ?_⟩
    intro r2 c2 hra hm
    rw [if_neg (by omega)]
    simp
  | succ m ih =>
    intro acc
    obtain ⟨hidx, hlen, hrow, hget⟩ := ih acc
    rw [List.range_succ, List.foldl_append, List.foldl_cons, List.foldl_nil]
    rcases hmid : (List.range m).foldl
        (fun (acc2 : Board × List ShuffleMove × Nat) c =>
          let (b, moves, idx) := acc2
          let b2 := setCell b r c (gems.get? idx)
          let moves2 :=
            match oldPositions.get? idx, gems.get? idx with
            | some old, some g => moves ++ [⟨old.1, ⟨r, c⟩, g.type⟩]
            | _, _ => moves
          (b2, moves2, idx + 1)) acc with ⟨b, mv, idx⟩
    rw [hmid] at hidx hlen hrow hget
    dsimp only at hidx hlen hrow hget ⊢
    refine ⟨by omega, by rw [length_setCell, hlen], ?_, ?_⟩
    · intro r2
      rw [rowLen_setCell, hrow]
    · intro r2 c2 hra hm
      by_cases he : r2 = r ∧ c2 = m
      · obtain ⟨e1, e2⟩ := he
        subst e1
        rw [e2]
        rw [getCell_setCell_eq _ _ _ _ (by rw [hlen]; exact hra)
          (by rw [hrow]; omega)]
        rw [if_pos ⟨rfl, Nat.lt_succ_self _⟩, hidx]
      · rw [getCell_setCell_ne _ _ _ _ _ _ (by tauto)]
        rw [hget r2 c2 hra (by omega)]
        by_cases hc2 : r2 = r ∧ c2 < m
        · rw [if_pos hc2, if_pos ⟨hc2.1, by omega⟩]
        · rw [if_neg hc2, if_neg (by
            rintro ⟨hx1, hx2⟩
            by_cases hcm : c2 < m
            · exact hc2 ⟨hx1, hcm⟩
            · exact he ⟨hx1, by omega⟩)]


lemma boardShaped_of_getD {b : Board} {rows cols : Nat}
    (hlen : b.length = rows)
    (hrow : ∀ r, r < rows → (b.getD r []).length = cols) :
    boardShaped b rows cols := by
  refine ⟨hlen, ?_⟩
  intro row hrowm
  obtain ⟨i, hi, rfl⟩ := List.getElem_of_mem hrowm
  have h2 := hrow i (by rw [← hlen]; exact hi)
  rw [List.getD_eq_getElem?_getD, List.getElem?_eq_getElem hi] at h2
  exact h2

lemma wsOuter_go (board : Board) (rows cols : Nat) (gems : List Cell)
    (oldPositions : List (Pos × Nat)) (hb : boardShaped board rows cols) :
    ∀ k, k ≤ rows →
    (((List.range k).foldl
      (fun (acc : Board × List ShuffleMove × Nat) r =>
        (List.range cols).foldl
          (fun (acc2 : Board × List ShuffleMove × Nat) c =>
            let (b, moves, idx) := acc2
            let b2 := setCell b r c (gems.get? idx)
            let moves2 :=
              match oldPositions.get? idx, gems.get? idx with
              | some old, some g => moves ++ [⟨old.1, ⟨r, c⟩, g.type⟩]
              | _, _ => moves
            (b2, moves2, idx + 1))
          acc)
      (board, [], 0)).2.2 = k * cols) ∧
    boardShaped (((List.range k).foldl
      (fun (acc : Board × List ShuffleMove × Nat) r =>
        (List.range cols).foldl
          (fun (acc2 : Board × List ShuffleMove × Nat) c =>
            let (b, moves, idx) := acc2
            let b2 := setCell b r c (gems.get? idx)
            let moves2 :=
              match oldPositions.get? idx, gems.get? idx with
              | some old, some g => moves ++ [⟨old.1, ⟨r, c⟩, g.type⟩]
              | _, _ => moves
            (b2, moves2, idx + 1))
          acc)
      (board, [], 0)).1) rows cols ∧
    (∀ r2 c2, c2 < cols →
      getCell (((List.range k).foldl
        (fun (acc : Board × List ShuffleMove × Nat) r =>
          (List.range cols).foldl
            (fun (acc2 : Board × List ShuffleMove × Nat) c =>
              let (b, moves, idx) := acc2
              let b2 := setCell b r c (gems.get? idx)
              let moves2 :=
                match oldPositions.get? idx, gems.get? idx with
                | some old, some g => moves ++ [⟨old.1, ⟨r, c⟩, g.type⟩]
                | _, _ => moves
              (b2, moves2, idx + 1))
            acc)
        (board, [], 0)).1) r2 c2
        = if r2 < k then gems.get? (r2 * cols + c2)
          else getCell board r2 c2) := by
  intro k
  induction k with
  | zero =>
    intro hk
    refine ⟨by simp, hb, ?_⟩
    intro r2 c2 hc2
    rw [if_neg (by omega)]
    rfl
  | succ k ih =>
    intro hk
    obtain ⟨hidx, hsh, hget⟩ := ih (by omega)
    rw [List.range_succ, List.foldl_append, List.foldl_cons, List.foldl_nil]
    obtain ⟨hin_idx, hin_len, hin_row, hin_get⟩ :=
      wsInner_go gems oldPositions k cols _
    refine ⟨?_, ?_, ?_⟩
    · rw [hin_idx, hidx]
      ring
    · apply boardShaped_of_getD (by rw [hin_len, hsh.1])
      intro r2 hr2
      rw [hin_row r2]
      exact rowLen_of_shaped hsh hr2
    · intro r2 c2 hc2
      rw [hin_get r2 c2 (by rw [hsh.1]; omega)
        (by rw [rowLen_of_shaped hsh (by omega)])]
      by_cases he : r2 = k
      · subst he
        rw [if_pos ⟨rfl, hc2⟩, if_pos (Nat.lt_succ_self r2), hidx]
      · rw [if_neg (by tauto), hget r2 c2 hc2]
        by_cases hlt : r2 < k
        · rw [if_pos hlt, if_pos (by omega)]
        · rw [if_neg hlt, if_neg (by omega)]

lemma writeShuffled_spec (board : Board) (rows cols : Nat)
    (gems : List Cell) (oldPositions : List (Pos × Nat))
    (hb : boardShaped board rows cols) :
    boardShaped (writeShuffled board rows cols gems oldPositions).1
      rows cols ∧
    (∀ r c, r < rows → c < cols →
      getCell (writeShuffled board rows cols gems oldPositions).1 r c
        = gems.get? (r * cols + c)) := by
  obtain ⟨-, hsh, hget⟩ :=
    wsOuter_go board rows cols gems oldPositions hb rows (le_refl rows)
  rw [writeShuffled]
  refine ⟨hsh, ?_⟩
  intro r c hr hc
  rw [hget r c hc, if_pos hr]

lemma collectGems_length (board : Board) (rows cols : Nat)
    (_hb : boardShaped board rows cols) (hf : boardFull board rows cols) :
    (collectGems board rows cols).length = rows * cols := by
  have hinner : ∀ r, r < rows → ∀ (L : List Nat), (∀ c ∈ L, c < cols) →
      ∀ acc : List Cell,
      ((L.foldl (fun acc2 c =>
        match getCell board r c with
        | some cell => acc2 ++ [cell]
        | none => acc2) acc).length) = acc.length + L.length := by
    intro r hr L
    induction L with
    | nil => intro hL acc; simp
    | cons c t iht =>
      intro hL acc
      rw [List.foldl_cons]
      cases hcell : getCell board r c with
      | none =>
        have := hf r hr c (hL c (List.mem_cons_self _ _))
        rw [hcell] at this
        simp at this
      | some cell =>
        rw [iht (fun c2 h2 => hL c2 (List.mem_cons_of_mem _ h2))]
        simp only [List.length_append, List.length_cons, List.length_nil]
        omega
  have houter : ∀ (LR : List Nat), (∀ r ∈ LR, r < rows) →
      ∀ acc : List Cell,
      ((LR.foldl (fun acc r =>
        (List.range cols).foldl (fun acc2 c =>
          match getCell board r c with
          | some cell => acc2 ++ [cell]
          | none => acc2) acc) acc).length)
        = acc.length + LR.length * cols := by
    intro LR
    induction LR with
    | nil => intro hL acc; simp
    | cons r t iht =>
      intro hL acc
      rw [List.foldl_cons,
        iht (fun r2 h2 => hL r2 (List.mem_cons_of_mem _ h2)),
        hinner r (hL r (List.mem_cons_self _ _)) (List.range cols)
          (fun c h2 => List.mem_range.mp h2)]
      simp only [List.length_range, List.length_cons]
      ring
  rw [collectGems, houter (List.range rows)
    (fun r h2 => List.mem_range.mp h2)]
  simp

lemma listSwap_length (l : List Cell) (i j : Nat) :
    (listSwap l i j).length = l.length := by
  rw [listSwap]
  split
  · simp
  · rfl

lemma fyGo_length : ∀ (n : Nat) (gems : List Cell) (rng : Nat),
    ((fyGo gems rng n).1).length = gems.length := by
  intro n
  induction n with
  | zero => intro gems rng; rfl
  | succ i ih =>
    intro gems rng
    rw [fyGo, ih, listSwap_length]


lemma afterCascade_inv (fuel : Nat) (st1 : EngineState) (frames : List Frame)
    (stc : EngineState) (fc : List Frame) (pc : Nat)
    (heq : (if findMatches st1.board st1.rows st1.cols = [] then
        some (st1, frames, 0) else processMatches fuel st1 frames)
      = some (stc, fc, pc))
    (hsh : boardShaped st1.board st1.rows st1.cols)
    (hfu : boardFull st1.board st1.rows st1.cols) :
    stc.rows = st1.rows ∧ stc.cols = st1.cols ∧
    boardShaped stc.board st1.rows st1.cols ∧
    boardFull stc.board st1.rows st1.cols ∧
    findMatches stc.board st1.rows st1.cols = [] := by
  by_cases hmm : findMatches st1.board st1.rows st1.cols = []
  · rw [if_pos hmm] at heq
    simp only [Option.some.injEq, Prod.mk.injEq] at heq
    obtain ⟨h1, -, -⟩ := heq
    subst h1
    exact ⟨rfl, rfl, hsh, hfu, hmm⟩
  · rw [if_neg hmm] at heq
    obtain ⟨hr, hc, -, -, hml, hshp, hfup⟩ :=
      processMatches_post fuel st1 frames stc fc pc heq
    exact ⟨hr, hc, hshp hsh, hfup hsh hfu, hml⟩

lemma shuffleGo_post : ∀ (sf fuel : Nat) (st : EngineState) (attempts : Nat)
    (st2 : EngineState) (f : List Frame) (p : Nat),
    shuffleGo sf fuel st attempts = some (st2, f, p, false) →
    boardShaped st.board st.rows st.cols →
    boardFull st.board st.rows st.cols →
    st2.rows = st.rows ∧ st2.cols = st.cols ∧
    boardShaped st2.board st.rows st.cols ∧
    boardFull st2.board st.rows st.cols ∧
    findMatches st2.board st.rows st.cols = [] := by
  intro sf
  induction sf with
  | zero =>
    intro fuel st attempts st2 f p h
    exact absurd h (by simp [shuffleGo])
  | succ sf ih =>
    intro fuel st attempts st2 f p h hsh hfu
    have hws := writeShuffled_spec st.board st.rows st.cols
      (fyGo (collectGems st.board st.rows st.cols) st.rng
        ((collectGems st.board st.rows st.cols).length - 1)).1
      (collectOldPositions st.board st.rows st.cols) hsh
    have hfull1 : boardFull (writeShuffled st.board st.rows st.cols
        (fyGo (collectGems st.board st.rows st.cols) st.rng
          ((collectGems st.board st.rows st.cols).length - 1)).1
        (collectOldPositions st.board st.rows st.cols)).1
        st.rows st.cols := by
      intro r hr c hc
      rw [hws.2 r c hr hc]
      have hlen : ((fyGo (collectGems st.board st.rows st.cols) st.rng
          ((collectGems st.board st.rows st.cols).length - 1)).1).length
          = st.rows * st.cols := by
        rw [fyGo_length, collectGems_length st.board st.rows st.cols hsh hfu]
      have hidx : r * st.cols + c < st.rows * st.cols := by
        calc r * st.cols + c < r * st.cols + st.cols := by omega
          _ = (r + 1) * st.cols := by ring
          _ ≤ st.rows * st.cols := Nat.mul_le_mul_right _ (by omega)
      rw [List.get?_eq_getElem?, List.getElem?_eq_getElem (by omega)]
      rfl
    rw [shuffleGo] at h
    dsimp only at h
    split at h
    · exact absurd h (by simp)
    · rename_i stc frames2 pts heq
      have hcfacts := afterCascade_inv fuel
        { st with
          board := (writeShuffled st.board st.rows st.cols
            (fyGo (collectGems st.board st.rows st.cols) st.rng
              ((collectGems st.board st.rows st.cols).length - 1)).1
            (collectOldPositions st.board st.rows st.cols)).1,
          rng := (fyGo (collectGems st.board st.rows st.cols) st.rng
              ((collectGems st.board st.rows st.cols).length - 1)).2 }
        _ stc frames2 pts heq hws.1 hfull1
      obtain ⟨hcr, hcc, hcsh, hcfu, hcml⟩ := hcfacts
      split_ifs at h with hcond1 hcond2
      · split at h
        · exact absurd h (by simp)
        · rename_i st3 fR pR regen heq2
          simp only [Option.some.injEq, Prod.mk.injEq] at h
          obtain ⟨h1, -, -, h4⟩ := h
          subst h1
          subst h4
          obtain ⟨i1, i2, i3, i4, i5⟩ := ih fuel stc (attempts + 1)
            st3 fR pR heq2 (by rw [hcr, hcc]; exact hcsh)
            (by rw [hcr, hcc]; exact hcfu)
          rw [hcr] at i1 i3 i4 i5
          rw [hcc] at i3 i4 i5
          exact ⟨i1, by rw [i2, hcc], i3, i4, i5⟩
      · simp only [Option.some.injEq, Prod.mk.injEq] at h
        obtain ⟨-, -, -, h4⟩ := h
        exact absurd h4.symm (by simp)
      · simp only [Option.some.injEq, Prod.mk.injEq] at h
        obtain ⟨h1, -, -, -⟩ := h
        subst h1
        exact ⟨hcr, hcc, hcsh, hcfu, hcml⟩


lemma boardShaped_boardSwap {b : Board} {rows cols : Nat}
    (hb : boardShaped b rows cols) (r1 c1 r2 c2 : Nat) :
    boardShaped (boardSwap b r1 c1 r2 c2) rows cols := by
  rw [boardSwap]
  exact boardShaped_setCell (boardShaped_setCell hb _ _ _) _ _ _

lemma boardFull_boardSwap {b : Board} {rows cols : Nat}
    (hfu : boardFull b rows cols) {r1 c1 r2 c2 : Nat}
    (h1 : (getCell b r1 c1).isSome = true)
    (h2 : (getCell b r2 c2).isSome = true) :
    boardFull (boardSwap b r1 c1 r2 c2) rows cols := by
  obtain ⟨hr1, hc1⟩ := getCell_isSome_bounds h1
  obtain ⟨hr2, hc2⟩ := getCell_isSome_bounds h2
  intro r hr c hc
  rw [getCell_boardSwap b r1 c1 r2 c2 r c hr1 hc1 hr2 hc2]
  split_ifs
  · exact h1
  · exact h2
  · exact hfu r hr c hc

lemma cascadeAndCheck_post (fuel : Nat) (st : EngineState)
    (frames : List Frame) (st2 : EngineState) (f2 : List Frame)
    (p1 p2 : Nat)
    (h : cascadeAndCheck fuel st frames = some (st2, f2, p1, p2, false))
    (hsh : boardShaped st.board st.rows st.cols)
    (hfu : boardFull st.board st.rows st.cols) :
    st2.rows = st.rows ∧ st2.cols = st.cols ∧
    boardShaped st2.board st.rows st.cols ∧
    boardFull st2.board st.rows st.cols ∧
    findMatches st2.board st.rows st.cols = [] := by
  rw [cascadeAndCheck] at h
  cases hpm : processMatches fuel st frames with
  | none => rw [hpm] at h; exact absurd h (by simp)
  | some out =>
    obtain ⟨st1, frames1, pts⟩ := out
    rw [hpm] at h
    dsimp only at h
    obtain ⟨hr, hc, -, -, hml, hshp, hfup⟩ :=
      processMatches_post fuel st frames st1 frames1 pts hpm
    have hsh1 := hshp hsh
    have hfu1 := hfup hsh hfu
    split_ifs at h with hnv
    · cases hsg : shuffleGo 11 fuel st1 0 with
      | none => rw [hsg] at h; exact absurd h (by simp)
      | some out2 =>
        obtain ⟨st2c, framesS, ptsS, regen⟩ := out2
        rw [hsg] at h
        simp only [Option.some.injEq, Prod.mk.injEq] at h
        obtain ⟨h1, -, -, -, h5⟩ := h
        subst h1
        subst h5
        obtain ⟨i1, i2, i3, i4, i5⟩ := shuffleGo_post 11 fuel st1 0
          st2c framesS ptsS hsg (by rw [hr, hc]; exact hsh1)
          (by rw [hr, hc]; exact hfu1)
        rw [hr] at i1 i3 i4 i5
        rw [hc] at i3 i4 i5
        exact ⟨i1, by rw [i2, hc], i3, i4, i5⟩
    · simp only [Option.some.injEq, Prod.mk.injEq] at h
      obtain ⟨h1, -, -⟩ := h
      subst h1
      exact ⟨hr, hc, hsh1, hfu1, hml⟩

lemma comboFinish_post (fuel : Nat) (st : EngineState)
    (frames : List Frame) (cs : ChainState) (points : Nat)
    (stf : EngineState) (res : ResolveResult)
    (h : comboFinish fuel st frames cs points = some (stf, res, false))
    (hsh : boardShaped st.board st.rows st.cols) :
    stf.rows = st.rows ∧ stf.cols = st.cols ∧
    boardShaped stf.board st.rows st.cols ∧
    boardFull stf.board st.rows st.cols ∧
    findMatches stf.board st.rows st.cols = [] := by
  rw [comboFinish] at h
  split at h
  · exact absurd h (by simp)
  · rename_i st2c frames5 cascPts shufPts regen heq
    simp only [Option.some.injEq, Prod.mk.injEq] at h
    obtain ⟨h1, -, h3⟩ := h
    subst h1
    subst h3
    have hsh1 : boardShaped (removePositions st.board cs.toRemove)
        st.rows st.cols := boardShaped_removePositions hsh _
    have hsh2 : boardShaped (dropGems (removePositions st.board cs.toRemove)
        st.rows st.cols).1 st.rows st.cols := boardShaped_dropGems hsh1
    have hsf := fillGems_shape_full st.rows st.cols st.gemTypes
      (dropGems (removePositions st.board cs.toRemove) st.rows st.cols).1
      st.rng hsh2
    exact cascadeAndCheck_post fuel
      { st with
        board := (fillGems (dropGems (removePositions st.board cs.toRemove)
          st.rows st.cols).1 st.rows st.cols st.gemTypes st.rng).1,
        rng := (fillGems (dropGems (removePositions st.board cs.toRemove)
          st.rows st.cols).1 st.rows st.cols st.gemTypes st.rng).2.1 }
      _ _ _ _ _ heq hsf.1 hsf.2

lemma plainFinish_post (fuel : Nat) (st : EngineState)
    (frames : List Frame) (stf : EngineState) (res : ResolveResult)
    (h : plainFinish fuel st frames = some (stf, res, false))
    (hsh : boardShaped st.board st.rows st.cols)
    (hfu : boardFull st.board st.rows st.cols) :
    stf.rows = st.rows ∧ stf.cols = st.cols ∧
    boardShaped stf.board st.rows st.cols ∧
    boardFull stf.board st.rows st.cols ∧
    findMatches stf.board st.rows st.cols = [] := by
  rw [plainFinish] at h
  split at h
  · exact absurd h (by simp)
  · rename_i st2c frames5 cascPts shufPts regen heq
    simp only [Option.some.injEq, Prod.mk.injEq] at h
    obtain ⟨h1, -, h3⟩ := h
    subst h1
    subst h3
    exact cascadeAndCheck_post fuel st frames st2c frames5 cascPts shufPts
      heq hsh hfu

lemma invalidFinish_post (st : EngineState) (frames : List Frame)
    (pos1 pos2 : Pos) (stf : EngineState) (res : ResolveResult) (rg : Bool)
    (h : invalidFinish st frames pos1 pos2 = some (stf, res, rg)) :
    stf.board = boardSwap st.board pos1.r pos1.c pos2.r pos2.c ∧
    stf.rows = st.rows ∧ stf.cols = st.cols ∧ rg = false := by
  rw [invalidFinish] at h
  simp only [Option.some.injEq, Prod.mk.injEq] at h
  obtain ⟨k1, -, k3⟩ := h
  subst k1
  exact ⟨rfl, rfl, rfl, k3.symm⟩


/-- C1 (amended): for every swap call on a settle-point board (shaped,
every slot occupied, no matches) that reports no board regeneration,
the board left behind is shaped, every slot is occupied, and the match
scan finds no group. -/
theorem C1_settle_invariant (fuel : Nat) (st0 : EngineState)
    (pos1 pos2 : Pos) (stf : EngineState) (res : ResolveResult)
    (hswap : swapFuel fuel st0 pos1 pos2 = some (stf, res, false))
    (hsh : boardShaped st0.board st0.rows st0.cols)
    (hfu : boardFull st0.board st0.rows st0.cols)
    (hml : findMatches st0.board st0.rows st0.cols = []) :
    stf.rows = st0.rows ∧ stf.cols = st0.cols ∧
    boardShaped stf.board st0.rows st0.cols ∧
    boardFull stf.board st0.rows st0.cols ∧
    findMatches stf.board st0.rows st0.cols = [] := by
  rw [swapFuel] at hswap
  dsimp only at hswap
  split at hswap
  · rename_i g1c g2c hg1 hg2
    have hb1 : (getCell st0.board pos1.r pos1.c).isSome = true := by
      rw [hg1]; rfl
    have hb2 : (getCell st0.board pos2.r pos2.c).isSome = true := by
      rw [hg2]; rfl
    have hshB : boardShaped
        (boardSwap st0.board pos1.r pos1.c pos2.r pos2.c)
        st0.rows st0.cols := boardShaped_boardSwap hsh _ _ _ _
    have hfuB : boardFull
        (boardSwap st0.board pos1.r pos1.c pos2.r pos2.c)
        st0.rows st0.cols := boardFull_boardSwap hfu hb1 hb2
    split at hswap
    · exact absurd hswap (by simp)
    · rename_i stfi resi regen heq
      simp only [Option.some.injEq, Prod.mk.injEq] at hswap
      obtain ⟨e1, -, e3⟩ := hswap
      subst e3
      have hfr : stf.rows = stfi.rows := by rw [← e1]
      have hfc : stf.cols = stfi.cols := by rw [← e1]
      have hfb : stf.board = stfi.board := by rw [← e1]
      split at heq
      · obtain ⟨j1, j2, j3, j4, j5⟩ :=
          comboFinish_post fuel _ _ _ _ _ _ heq hshB
        refine ⟨hfr.trans j1, hfc.trans j2, ?_, ?_, ?_⟩
        · rw [hfb]; exact j3
        · rw [hfb]; exact j4
        · rw [hfb]; exact j5
      · split at heq
        · obtain ⟨j1, j2, j3, j4, j5⟩ :=
            comboFinish_post fuel _ _ _ _ _ _ heq hshB
          refine ⟨hfr.trans j1, hfc.trans j2, ?_, ?_, ?_⟩
          · rw [hfb]; exact j3
          · rw [hfb]; exact j4
          · rw [hfb]; exact j5
        · split at heq
          · split at heq
            · obtain ⟨k1, k2, k3, -⟩ :=
                invalidFinish_post _ _ _ _ _ _ _ heq
              have hbd : stfi.board = st0.board := by
                rw [k1]
                exact boardSwap_involutive st0.board _ _ _ _ hb1 hb2
              refine ⟨hfr.trans k2, hfc.trans k3, ?_, ?_, ?_⟩
              · rw [hfb, hbd]; exact hsh
              · rw [hfb, hbd]; exact hfu
              · rw [hfb, hbd]; exact hml
            · obtain ⟨j1, j2, j3, j4, j5⟩ :=
                plainFinish_post fuel _ _ _ _ heq hshB hfuB
              refine ⟨hfr.trans j1, hfc.trans j2, ?_, ?_, ?_⟩
              · rw [hfb]; exact j3
              · rw [hfb]; exact j4
              · rw [hfb]; exact j5
          · split at heq
            · obtain ⟨k1, k2, k3, -⟩ :=
                invalidFinish_post _ _ _ _ _ _ _ heq
              have hbd : stfi.board = st0.board := by
                rw [k1]
                exact boardSwap_involutive st0.board _ _ _ _ hb1 hb2
              refine ⟨hfr.trans k2, hfc.trans k3, ?_, ?_, ?_⟩
              · rw [hfb, hbd]; exact hsh
              · rw [hfb, hbd]; exact hfu
              · rw [hfb, hbd]; exact hml
            · obtain ⟨j1, j2, j3, j4, j5⟩ :=
                plainFinish_post fuel _ _ _ _ heq hshB hfuB
              refine ⟨hfr.trans j1, hfc.trans j2, ?_, ?_, ?_⟩
              · rw [hfb]; exact j3
              · rw [hfb]; exact j4
              · rw [hfb]; exact j5
  · simp only [Option.some.injEq, Prod.mk.injEq] at hswap
    obtain ⟨e1, -, -⟩ := hswap
    subst e1
    exact ⟨rfl, rfl, hsh, hfu, hml⟩


/-- C1 counterexample: `regenState` is at a settle point (shaped, full,
matchless), yet its swap of (0,0) and (0,1) ends in board regeneration
and leaves behind a board on which the match scan finds a group —
`regenerateBoard` re-inserts the saved specials after its match-free
fill loop, recreating a run. -/
theorem C1_counterexample :
    boardShaped regenState.board regenState.rows regenState.cols ∧
    boardFull regenState.board regenState.rows regenState.cols ∧
    findMatches regenState.board regenState.rows regenState.cols = [] ∧
    regenRan = true ∧
    findMatches regenFinalBoard 1 5 ≠ [] := by
  refine ⟨⟨rfl, by decide⟩, ?_, by decide, by decide, by decide⟩
  show ∀ r < 1, ∀ c < 5, (getCell regenState.board r c).isSome = true
  decide


/-- Witness: `C1_settle_invariant` at the 1-by-2 fixture, whose only
swap is invalid and regeneration-free — the returned board is full and
matchless. -/
theorem C1_settle_invariant_witness :
    boardFull ((swapFuel 5 c7State ⟨0, 0⟩ ⟨0, 1⟩).getD
      (c7State, ⟨[], 0, false⟩, false)).1.board c7State.rows c7State.cols ∧
    findMatches ((swapFuel 5 c7State ⟨0, 0⟩ ⟨0, 1⟩).getD
      (c7State, ⟨[], 0, false⟩, false)).1.board c7State.rows c7State.cols
      = [] := by
  have h := C1_settle_invariant 5 c7State ⟨0, 0⟩ ⟨0, 1⟩
    ((swapFuel 5 c7State ⟨0, 0⟩ ⟨0, 1⟩).getD
      (c7State, ⟨[], 0, false⟩, false)).1
    ((swapFuel 5 c7State ⟨0, 0⟩ ⟨0, 1⟩).getD
      (c7State, ⟨[], 0, false⟩, false)).2.1
    (by decide) ⟨rfl, by decide⟩
    (show ∀ r < 1, ∀ c < 2,
      (getCell c7State.board r c).isSome = true by decide)
    (by decide)
  exact ⟨h.2.2.2.1, h.2.2.2.2⟩

end ZenMatch
